import Mathlib

/-!
# difflad: the ladder-diagram diff engine

A shallow embedding of `src/src/elements/elements.go` (the diagram model, the
builder `POU.Parse` and the diff `POU.CalculateDiff`), of the typed tree and its
accessors in `src/src/xml/entities.go`, and of the style tables of
`src/src/svg/svg.go`, together with theorems about them.

Modelling conventions.

* Go pointers (`*Element`, `*Pin`, `*Connection`, `*Position`) are modelled by
  values: every pointer is assumed non-nil and no object is reachable twice
  (the builder allocates each one freshly). In-place mutation becomes explicit
  state passing: every operation returns the updated objects.
* `map[string]*Element` is modelled by the list of its `(key, element)` entries
  in the order in which `range` visits them. Go leaves that order unspecified; the
  model fixes one order per map. The builder keys every element by its `UID`, so the
  ids of a built unit are pairwise different (`POU.UniqueIds`), every inner loop of
  `CalculateDiff` then meets at most one element with the id it looks for, and the
  visiting order cannot change what it finds. The model is exact for units with
  unique ids only: with two entries of one id the outcome of the Go code depends on
  the orders drawn, so every theorem that compares two calls assumes `POU.UniqueIds`
  or states a property that holds under every visiting order.
* A run-time panic (an out-of-range slice access) is modelled by `none`.
* Go `int` fields carry no arithmetic here and are modelled by `Int`.
-/

namespace Difflad

/-! ## Data model (elements.go, lines 13-71) -/

/-- The three-state change marker `Diff` with its constants. -/
inductive Diff where
  | DiffUnchanged : Diff
  | DiffDeleted : Diff
  | DiffAdded : Diff
deriving DecidableEq, Repr, Inhabited

open Diff

/-- A text value together with its marker. The zero value is empty and unchanged. -/
structure MutableString where
  Value : String := ""
  Diff : Diff := DiffUnchanged
deriving DecidableEq, Repr, Inhabited

/-- Integer grid coordinates. -/
structure Position where
  X : Int := 0
  Y : Int := 0
deriving DecidableEq, Repr, Inhabited

/-- One wire end: the referenced element, the referenced pin name, routing, marker. -/
structure Connection where
  TargetRef : String := ""
  TargetLabel : String := ""
  TargetPin : Int := 0
  Points : List Position := []
  Diff : Diff := DiffUnchanged
deriving DecidableEq, Repr, Inhabited

/-- An attachment point of an element. -/
structure Pin where
  Position : Position := {}
  Order : Int := 0
  Label : MutableString := {}
  Connections : List Connection := []
deriving DecidableEq, Repr, Inhabited

/-- A diagrammed unit. The Go field `Type` is spelled `Type_` here. -/
structure Element where
  UID : String := ""
  Type_ : String := ""
  Position : Position := {}
  Width : Int := 0
  Height : Int := 0
  ElementText : MutableString := {}
  TopLabel : MutableString := {}
  BottomLabel : MutableString := {}
  BlockLabel : MutableString := {}
  Inputs : List Pin := []
  Outputs : List Pin := []
  Diff : Diff := DiffUnchanged
deriving DecidableEq, Repr, Inhabited

/-- A program organisation unit; `Elements` lists the entries of the Go map. -/
structure POU where
  Name : String := ""
  Comment : String := ""
  Elements : List (String × Element) := []
deriving DecidableEq, Repr, Inhabited

/-! ## Cascades (elements.go, lines 368-410) -/

/-- The body of the pin loops of `markAllConnectionsDeleted` / `markAllConnectionsAdded`:
the pin label and every connection of the pin receive the marker `d`. -/
def markPin (d : Diff) (pin : Pin) : Pin :=
  { pin with
    Label := { pin.Label with Diff := d }
    Connections := pin.Connections.map fun conn => { conn with Diff := d } }

/-- Embeds `Element.markAllConnectionsDeleted`. -/
def Element.markAllConnectionsDeleted (e : Element) : Element :=
  { e with
    Inputs := e.Inputs.map (markPin DiffDeleted)
    Outputs := e.Outputs.map (markPin DiffDeleted) }

/-- Embeds `Element.markAllConnectionsAdded`. -/
def Element.markAllConnectionsAdded (e : Element) : Element :=
  { e with
    Inputs := e.Inputs.map (markPin DiffAdded)
    Outputs := e.Outputs.map (markPin DiffAdded) }

/-- Embeds `Element.markAllLabelsDeleted`. -/
def Element.markAllLabelsDeleted (e : Element) : Element :=
  { e with
    ElementText := { e.ElementText with Diff := DiffDeleted }
    TopLabel := { e.TopLabel with Diff := DiffDeleted }
    BottomLabel := { e.BottomLabel with Diff := DiffDeleted }
    BlockLabel := { e.BlockLabel with Diff := DiffDeleted } }

/-- Embeds `Element.markAllLabelsAdded`. -/
def Element.markAllLabelsAdded (e : Element) : Element :=
  { e with
    ElementText := { e.ElementText with Diff := DiffAdded }
    TopLabel := { e.TopLabel with Diff := DiffAdded }
    BottomLabel := { e.BottomLabel with Diff := DiffAdded }
    BlockLabel := { e.BlockLabel with Diff := DiffAdded } }

/-! ## Connection diff (elements.go, lines 413-485) -/

/-- The innermost loop of `connectionsDiff`: scans `conns2` and raises the flag
`matched` whenever a connection with the same `TargetRef` and `TargetLabel` is seen. -/
def scanMatched (conn : Connection) : List Connection → Bool → Bool
  | [], matched => matched
  | conn2 :: rest, matched =>
    if conn.TargetRef = conn2.TargetRef ∧ conn.TargetLabel = conn2.TargetLabel then
      scanMatched conn rest true
    else
      scanMatched conn rest matched

/-- The body of the connection loop of `connectionsDiff` for a connection on the
pin with index `i`, checked against the pin list `pins2` of the other element.
The marker written is `d` (`DiffDeleted` forward, `DiffAdded` backward). The slice
access `pins2[i]` is the only operation that can panic. -/
def diffConnection (d : Diff) (pins2 : List Pin) (i : Nat) (conn : Connection) :
    Option Connection :=
  if i ≥ pins2.length then
    some { conn with Diff := d }
  else
    match pins2[i]? with
    | none => none
    | some pin2 =>
      if !(scanMatched conn pin2.Connections false) then
        some { conn with Diff := d }
      else
        some conn

/-- The loop over the connections of one pin. -/
def diffConnections (d : Diff) (pins2 : List Pin) (i : Nat) :
    List Connection → Option (List Connection)
  | [] => some []
  | conn :: rest =>
    match diffConnection d pins2 i conn with
    | none => none
    | some conn1 =>
      match diffConnections d pins2 i rest with
      | none => none
      | some rest1 => some (conn1 :: rest1)

/-- The loop `for i, pin := range pins`, started at index `i`. -/
def diffPins (d : Diff) (pins2 : List Pin) : Nat → List Pin → Option (List Pin)
  | _, [] => some []
  | i, pin :: rest =>
    match diffConnections d pins2 i pin.Connections with
    | none => none
    | some conns1 =>
      match diffPins d pins2 (i + 1) rest with
      | none => none
      | some rest1 => some ({ pin with Connections := conns1 } :: rest1)

/-- Embeds `Element.connectionsDiff`: the forward check over the inputs and the
outputs of `e`, then the backward check over the inputs and outputs of `new_elem`
(which reads the pins of `e` as the forward check left them). -/
def Element.connectionsDiff (e new_elem : Element) : Option (Element × Element) :=
  match diffPins DiffDeleted new_elem.Inputs 0 e.Inputs with
  | none => none
  | some ins1 =>
    match diffPins DiffDeleted new_elem.Outputs 0 e.Outputs with
    | none => none
    | some outs1 =>
      let e1 : Element := { e with Inputs := ins1, Outputs := outs1 }
      match diffPins DiffAdded e1.Inputs 0 new_elem.Inputs with
      | none => none
      | some ins2 =>
        match diffPins DiffAdded e1.Outputs 0 new_elem.Outputs with
        | none => none
        | some outs2 => some (e1, { new_elem with Inputs := ins2, Outputs := outs2 })

/-! ## Element diff (elements.go, lines 303-366) -/

/-- The body of the inner loop of `CalculateDiff` once `elem.UID == elem2.UID` holds
(lines 310-343): returns the two elements as they are at `continue outer`. -/
def diffMatched (elem elem2 : Element) : Option (Element × Element) :=
  if elem.Type_ = elem2.Type_ ∧ elem.Type_ = "block" then
    if elem.BlockLabel.Value = elem2.BlockLabel.Value then
      if elem.TopLabel.Value ≠ elem2.TopLabel.Value then
        Element.connectionsDiff
          { elem with TopLabel := { elem.TopLabel with Diff := DiffDeleted } }
          { elem2 with TopLabel := { elem2.TopLabel with Diff := DiffAdded } }
      else
        Element.connectionsDiff elem elem2
    else
      Element.connectionsDiff { elem with Diff := DiffDeleted } { elem2 with Diff := DiffAdded }
  else
    let top : Element × Element :=
      if elem.TopLabel.Value ≠ elem2.TopLabel.Value then
        ({ elem with TopLabel := { elem.TopLabel with Diff := DiffDeleted } },
         { elem2 with TopLabel := { elem2.TopLabel with Diff := DiffAdded } })
      else (elem, elem2)
    let txt : Element × Element :=
      if top.1.ElementText.Value ≠ top.2.ElementText.Value then
        ({ top.1 with ElementText := { top.1.ElementText with Diff := DiffDeleted } },
         { top.2 with ElementText := { top.2.ElementText with Diff := DiffAdded } })
      else top
    Element.connectionsDiff txt.1 txt.2

/-- The cascade of lines 347-349. -/
def Element.markDeleted (elem : Element) : Element :=
  Element.markAllLabelsDeleted (Element.markAllConnectionsDeleted { elem with Diff := DiffDeleted })

/-- The cascade of lines 362-364. -/
def Element.markAdded (elem : Element) : Element :=
  Element.markAllLabelsAdded (Element.markAllConnectionsAdded { elem with Diff := DiffAdded })

/-- One iteration of the loop `outer` for `elem`: the inner loop runs over the
elements of the new unit; at the first one with the same `UID` the pair is diffed
and the iteration ends; when the inner loop runs out, `elem` is marked deleted. -/
def diffOldElement (elem : Element) : List Element → Option (Element × List Element)
  | [] => some (elem.markDeleted, [])
  | elem2 :: rest =>
    if elem.UID = elem2.UID then
      match diffMatched elem elem2 with
      | none => none
      | some (elem1, elem21) => some (elem1, elem21 :: rest)
    else
      match diffOldElement elem rest with
      | none => none
      | some (elem1, rest1) => some (elem1, elem2 :: rest1)

/-- The loop `outer` over the elements of the old unit, threading the new unit. -/
def outerLoop : List Element → List Element → Option (List Element × List Element)
  | [], news => some ([], news)
  | elem :: rest, news =>
    match diffOldElement elem news with
    | none => none
    | some (elem1, news1) =>
      match outerLoop rest news1 with
      | none => none
      | some (rest1, news2) => some (elem1 :: rest1, news2)

/-- The inner loop of `outer_back`: does some old element carry the given `UID`? -/
def hasUID (uid : String) : List Element → Bool
  | [] => false
  | elem2 :: rest => if uid = elem2.UID then true else hasUID uid rest

/-- The loop `outer_back` over the elements of the new unit. -/
def outerBack (olds : List Element) : List Element → List Element
  | [] => []
  | elem :: rest =>
    (if hasUID elem.UID olds then elem else elem.markAdded) :: outerBack olds rest

/-- Puts updated elements back under the keys of the map entries. -/
def rekey : List (String × Element) → List Element → List (String × Element)
  | kv :: kvs, e :: es => (kv.1, e) :: rekey kvs es
  | _, _ => []

/-- Embeds `POU.CalculateDiff`: returns the old and the new unit after the call,
or `none` when the call panics. -/
def POU.CalculateDiff (p new_pou : POU) : Option (POU × POU) :=
  match outerLoop (p.Elements.map Prod.snd) (new_pou.Elements.map Prod.snd) with
  | none => none
  | some (olds1, news1) =>
    some ({ p with Elements := rekey p.Elements olds1 },
          { new_pou with Elements := rekey new_pou.Elements (outerBack olds1 news1) })

/-! ## The typed tree of the front-end (entities.go)

The Go package `openplc_xml` is imported as `plcxml`; its types keep their names
under that prefix. Slices of pointers are modelled by lists of values. -/

/-- Coordinates as decoded from the document. -/
structure plcxml.Position where
  X : Int := 0
  Y : Int := 0
deriving DecidableEq, Repr, Inhabited

/-- A declared connection. -/
structure plcxml.Connection where
  RefLocalId : String := ""
  FormalParameter : String := ""
  Position : List plcxml.Position := []
deriving DecidableEq, Repr, Inhabited

/-- A declared connection point. -/
structure plcxml.ConnectionPoint where
  FormalParameter : String := ""
  RelPosition : plcxml.Position := {}
  Connection : List plcxml.Connection := []
deriving DecidableEq, Repr, Inhabited

/-- A variable of a block. -/
structure plcxml.BlockVariable where
  FormalParameter : String := ""
  ConnectionPointIn : List plcxml.ConnectionPoint := []
  ConnectionPointOut : List plcxml.ConnectionPoint := []
deriving DecidableEq, Repr, Inhabited

/-- A variable list of a block. -/
structure plcxml.BlockVariables where
  Variable : List plcxml.BlockVariable := []
deriving DecidableEq, Repr, Inhabited

/-- The generic record of a ladder primitive. -/
structure plcxml.Primitive where
  ElemType : String := ""
  LocalId : String := ""
  Name : String := ""
  Expression : String := ""
  Position : plcxml.Position := {}
  ConnectionPointIn : List plcxml.ConnectionPoint := []
  ConnectionPointOut : List plcxml.ConnectionPoint := []
  Variable : String := ""
  Negated : Bool := false
  Storage : String := ""
  Edge : String := ""
  Width : Int := 0
  Height : Int := 0
deriving DecidableEq, Repr, Inhabited

/-- The record of a block. -/
structure plcxml.Block where
  ElemType : String := ""
  LocalId : String := ""
  TypeName : String := ""
  InstanceName : String := ""
  Width : Int := 0
  Height : Int := 0
  Position : plcxml.Position := {}
  InputVariables : plcxml.BlockVariables := {}
  InOutVariables : plcxml.BlockVariables := {}
  OutputVariables : plcxml.BlockVariables := {}
deriving DecidableEq, Repr, Inhabited

/-- A ladder diagram body: one list of records per element kind. -/
structure plcxml.LD where
  LeftPowerRail : List plcxml.Primitive := []
  Contact : List plcxml.Primitive := []
  Coil : List plcxml.Primitive := []
  RightPowerRail : List plcxml.Primitive := []
  Connector : List plcxml.Primitive := []
  Continuation : List plcxml.Primitive := []
  InOutVariable : List plcxml.Primitive := []
  InVariable : List plcxml.Primitive := []
  OutVariable : List plcxml.Primitive := []
  Block : List plcxml.Block := []
deriving DecidableEq, Repr, Inhabited

/-- The body of a unit. -/
structure plcxml.Body where
  LD : plcxml.LD := {}
deriving DecidableEq, Repr, Inhabited

/-- A program organisation unit of the document (its interface is not read here). -/
structure plcxml.POU where
  Name : String := ""
  POUType : String := ""
  Body : plcxml.Body := {}
deriving DecidableEq, Repr, Inhabited

/-- The list of units of the document. -/
structure plcxml.POUs where
  POU : List plcxml.POU := []
deriving DecidableEq, Repr, Inhabited

/-- The `types` section of the document. -/
structure plcxml.Types where
  POUs : plcxml.POUs := {}
deriving DecidableEq, Repr, Inhabited

/-- The document (headers and instances are not read here). -/
structure plcxml.Project where
  Types : plcxml.Types := {}
deriving DecidableEq, Repr, Inhabited

/-- The loop of `Project.GetPouByName` over the units in document order. The result
is the Go pair `(pou, err)`; `none` stands for a nil error. -/
def plcxml.getPouLoop (name : String) : List plcxml.POU → plcxml.POU × Option String
  | [] => ({}, some ("no POU with name " ++ name ++ " available"))
  | pou :: rest => if pou.Name = name then (pou, none) else plcxml.getPouLoop name rest

/-- Embeds `Project.GetPouByName`. -/
def plcxml.Project.GetPouByName (project : plcxml.Project) (name : String) :
    plcxml.POU × Option String :=
  plcxml.getPouLoop name project.Types.POUs.POU

/-- One tagging loop of `ensurePrimitiveTypeLabels`. -/
def plcxml.tagPrimitives (tag : String) (prims : List plcxml.Primitive) :
    List plcxml.Primitive :=
  prims.map fun prim => { prim with ElemType := tag }

/-- Embeds `LD.ensurePrimitiveTypeLabels`: returns the body after the call. -/
def plcxml.LD.ensurePrimitiveTypeLabels (ld : plcxml.LD) : plcxml.LD :=
  { ld with
    Contact := plcxml.tagPrimitives "contact" ld.Contact
    Coil := plcxml.tagPrimitives "coil" ld.Coil
    LeftPowerRail := plcxml.tagPrimitives "leftPowerRail" ld.LeftPowerRail
    RightPowerRail := plcxml.tagPrimitives "rightPowerRail" ld.RightPowerRail
    Connector := plcxml.tagPrimitives "connector" ld.Connector
    Continuation := plcxml.tagPrimitives "continuation" ld.Continuation
    InOutVariable := plcxml.tagPrimitives "inOutVariable" ld.InOutVariable
    InVariable := plcxml.tagPrimitives "inVariable" ld.InVariable
    OutVariable := plcxml.tagPrimitives "outVariable" ld.OutVariable }

/-- Embeds `LD.ensureBlockTypeLabels`: returns the body after the call. -/
def plcxml.LD.ensureBlockTypeLabels (ld : plcxml.LD) : plcxml.LD :=
  { ld with Block := ld.Block.map fun block => { block with ElemType := "block" } }

/-- Embeds `LD.GatherAllPrimitives`: returns the gathered records and the body after
the call (the records are reached through pointers, so the tags written here stay). -/
def plcxml.LD.GatherAllPrimitives (ld : plcxml.LD) : List plcxml.Primitive × plcxml.LD :=
  let ld1 := ld.ensurePrimitiveTypeLabels
  let ld2 := ld1.ensureBlockTypeLabels
  (ld2.LeftPowerRail ++ ld2.Contact ++ ld2.Coil ++ ld2.RightPowerRail ++ ld2.Connector
    ++ ld2.Continuation ++ ld2.InOutVariable ++ ld2.InVariable ++ ld2.OutVariable, ld2)

/-- Embeds `LD.GatherAllBlocks`. -/
def plcxml.LD.GatherAllBlocks (ld : plcxml.LD) : List plcxml.Block := ld.Block

/-! ## Builder (elements.go, lines 74-299) -/

/-- How a run of the builder can end without returning. -/
inductive Failure where
  | indexOutOfRange : Failure
  | exit (code : Int) : Failure
deriving DecidableEq, Repr, Inhabited

/-- Embeds `getPrimitiveText`. The returned `MutableString` has the zero marker. -/
def getPrimitiveText (prim : plcxml.Primitive) : MutableString :=
  let text : String :=
    if prim.ElemType = "contact" then
      if prim.Negated then "/"
      else
        let text1 := if prim.Edge = "rising" then "P" else ""
        if prim.Edge = "falling" then "N" else text1
    else if prim.ElemType = "coil" then
      let text1 := if prim.Negated then "/" else ""
      let text2 := if prim.Edge = "rising" then "P" else text1
      let text3 := if prim.Storage = "set" then "S" else text2
      let text4 := if prim.Storage = "reset" then "R" else text3
      if prim.Edge = "falling" then "N" else text4
    else if prim.ElemType = "connector" ∨ prim.ElemType = "continuation" then prim.Name
    else if prim.ElemType = "inOutVariable" ∨ prim.ElemType = "inVariable"
        ∨ prim.ElemType = "outVariable" then prim.Expression
    else ""
  { Value := text }

/-- The conversion `Position(pos)` between the two position types. -/
def toPosition (pos : plcxml.Position) : Position := { X := pos.X, Y := pos.Y }

/-- The loop over the positions of a declared connection. -/
def buildPoints : List plcxml.Position → List Position
  | [] => []
  | pos :: rest => toPosition pos :: buildPoints rest

/-- The body of the connection loops of the builder: one `Connection` per declared
connection, with `TargetPin` 0 and the zero marker. -/
def buildConnection (conn : plcxml.Connection) : Connection :=
  { TargetRef := conn.RefLocalId
    TargetLabel := conn.FormalParameter
    TargetPin := 0
    Points := buildPoints conn.Position }

/-- The loop over the declared connections of a connection point. -/
def buildConnections : List plcxml.Connection → List Connection
  | [] => []
  | conn :: rest => buildConnection conn :: buildConnections rest

/-- The pin loops of `initPrimitiveFromXML`, started at index `pin_index`. -/
def buildPrimitivePins : Nat → List plcxml.ConnectionPoint → List Pin
  | _, [] => []
  | pin_index, cp :: rest =>
    { Position := toPosition cp.RelPosition
      Order := pin_index
      Connections := buildConnections cp.Connection }
      :: buildPrimitivePins (pin_index + 1) rest

/-- Embeds `initPrimitiveFromXML`: the element and the (always nil) error. -/
def initPrimitiveFromXML (prim : plcxml.Primitive) : Element × Option String :=
  let new_prim : Element :=
    { UID := prim.LocalId
      Type_ := prim.ElemType
      Position := toPosition prim.Position
      Width := prim.Width
      Height := prim.Height
      ElementText := getPrimitiveText prim
      TopLabel := if prim.Variable ≠ "" then { Value := prim.Variable } else {}
      Inputs := buildPrimitivePins 0 prim.ConnectionPointIn
      Outputs := buildPrimitivePins 0 prim.ConnectionPointOut }
  (new_prim, none)

/-- The input pin loop of `initBlockFromXML`, started at index `pin_index`. The slice
access `variable.ConnectionPointIn[0]` panics on an empty list. -/
def buildBlockInputs : Nat → List plcxml.BlockVariable → Except Failure (List Pin)
  | _, [] => .ok []
  | pin_index, blockVar :: rest =>
    match blockVar.ConnectionPointIn[0]? with
    | none => .error Failure.indexOutOfRange
    | some cp =>
      match buildBlockInputs (pin_index + 1) rest with
      | .error f => .error f
      | .ok pins =>
        .ok ({ Position := toPosition cp.RelPosition
               Order := pin_index
               Label := { Value := blockVar.FormalParameter }
               Connections := buildConnections cp.Connection } :: pins)

/-- The output pin loop of `initBlockFromXML`, started at index `pin_index`. The slice
access `variable.ConnectionPointOut[0]` panics on an empty list. -/
def buildBlockOutputs : Nat → List plcxml.BlockVariable → Except Failure (List Pin)
  | _, [] => .ok []
  | pin_index, blockVar :: rest =>
    match blockVar.ConnectionPointOut[0]? with
    | none => .error Failure.indexOutOfRange
    | some cp =>
      match buildBlockOutputs (pin_index + 1) rest with
      | .error f => .error f
      | .ok pins =>
        .ok ({ Position := toPosition cp.RelPosition
               Order := pin_index
               Label := { Value := blockVar.FormalParameter }
               Connections := buildConnections cp.Connection } :: pins)

/-- Embeds `initBlockFromXML`: the element and the (always nil) error, or a panic. -/
def initBlockFromXML (block : plcxml.Block) : Except Failure (Element × Option String) :=
  match buildBlockInputs 0 block.InputVariables.Variable with
  | .error f => .error f
  | .ok ins =>
    match buildBlockOutputs 0 block.OutputVariables.Variable with
    | .error f => .error f
    | .ok outs =>
      .ok ({ UID := block.LocalId
             Type_ := block.ElemType
             Position := toPosition block.Position
             Width := block.Width
             Height := block.Height
             TopLabel := { Value := block.InstanceName }
             BlockLabel := { Value := block.TypeName }
             Inputs := ins
             Outputs := outs }, none)

/-- The map assignment `m[key] = elem`: an existing entry is overwritten in place, a
new entry is put at the end of the visiting order. -/
def mapInsert : List (String × Element) → String → Element → List (String × Element)
  | [], key, elem => [(key, elem)]
  | kv :: rest, key, elem =>
    if kv.1 = key then (key, elem) :: rest else kv :: mapInsert rest key elem

/-- Step 1 of `parseElements`: the loop over the gathered primitives. -/
def parsePrimitives : List plcxml.Primitive → List (String × Element) →
    Except Failure (List (String × Element))
  | [], m => .ok m
  | prim :: rest, m =>
    match initPrimitiveFromXML prim with
    | (_, some _) => .error (Failure.exit 1)
    | (new_prim, none) => parsePrimitives rest (mapInsert m new_prim.UID new_prim)

/-- Step 2 of `parseElements`: the loop over the blocks. -/
def parseBlocks : List plcxml.Block → List (String × Element) →
    Except Failure (List (String × Element))
  | [], m => .ok m
  | block :: rest, m =>
    match initBlockFromXML block with
    | .error f => .error f
    | .ok (_, some _) => .error (Failure.exit 1)
    | .ok (new_block, none) => parseBlocks rest (mapInsert m new_block.UID new_block)

/-- Embeds `POU.parseElements`: the unit after the call and the returned (nil) error. -/
def POU.parseElements (p : POU) (pou : plcxml.POU) : Except Failure (POU × Option String) :=
  match parsePrimitives pou.Body.LD.GatherAllPrimitives.1 [] with
  | .error f => .error f
  | .ok m1 =>
    match parseBlocks pou.Body.LD.GatherAllPrimitives.2.GatherAllBlocks m1 with
    | .error f => .error f
    | .ok m2 => .ok ({ p with Name := pou.Name, Elements := m2 }, none)

/-- Embeds `POU.Parse`: the unit after the call and the returned (nil) error. -/
def POU.Parse (p : POU) (pou : plcxml.POU) : Except Failure (POU × Option String) :=
  match POU.parseElements { p with Name := pou.Name } pou with
  | .error f => .error f
  | .ok (p1, _) => .ok (p1, none)

/-! ## Style tables (svg.go, lines 15-43 and 504-511)

The five package-level maps are modelled by one record of total lookup functions:
every map holds the three markers as keys from its initialisation on. -/

/-- The five marker-to-style maps of package `svg`. -/
structure svg.Tables where
  diff_color : Diff → String
  stroke_width : Diff → Int
  stroke_dasharray : Diff → String
  text_decoration : Diff → String
  font_weight : Diff → String

/-- The maps as initialised at package level. -/
def svg.initial : svg.Tables where
  diff_color
    | DiffAdded => "green"
    | DiffDeleted => "red"
    | DiffUnchanged => "white"
  stroke_width
    | DiffAdded => 5
    | DiffDeleted => 1
    | DiffUnchanged => 1
  stroke_dasharray
    | DiffAdded => ""
    | DiffDeleted => "4"
    | DiffUnchanged => ""
  text_decoration
    | DiffAdded => ""
    | DiffDeleted => "line-through"
    | DiffUnchanged => ""
  font_weight
    | DiffAdded => "bold"
    | DiffDeleted => ""
    | DiffUnchanged => ""

/-- The assignment `diff_color[key] = value`. -/
def svg.setColor (t : svg.Tables) (key : Diff) (value : String) : svg.Tables :=
  { t with diff_color := fun d => if d = key then value else t.diff_color d }

/-- Embeds `setStyle`: the tables after the call. -/
def svg.setStyle (t : svg.Tables) (style : String) : svg.Tables :=
  if style = "dark" then svg.setColor t DiffUnchanged "white"
  else if style = "light" then svg.setColor t DiffUnchanged "black"
  else t

/-- The tables after a sequence of `setStyle` calls from the initial state. -/
def svg.afterCalls (styles : List String) : svg.Tables :=
  styles.foldl svg.setStyle svg.initial

/-! ## Specification vocabulary

The definitions below are not part of the program: they are the closed forms and
the observation functions in which the theorems are stated. -/

/-- The identity test of `connectionsDiff`: same `TargetRef`, same `TargetLabel`. -/
def sameWire (conn conn2 : Connection) : Bool :=
  decide (conn.TargetRef = conn2.TargetRef ∧ conn.TargetLabel = conn2.TargetLabel)

/-- No pin at index `i` of `pins2`, or no connection on it that is the same wire as `conn`. -/
def unmatched (pins2 : List Pin) (i : Nat) (conn : Connection) : Bool :=
  match pins2[i]? with
  | none => true
  | some pin2 => !(pin2.Connections.any (sameWire conn))

/-- Closed form of `diffConnection`. -/
def markConnection (d : Diff) (pins2 : List Pin) (i : Nat) (conn : Connection) : Connection :=
  if unmatched pins2 i conn then { conn with Diff := d } else conn

/-- Closed form of `diffPins`. -/
def markPins (d : Diff) (pins2 : List Pin) : Nat → List Pin → List Pin
  | _, [] => []
  | i, pin :: rest =>
    { pin with Connections := pin.Connections.map (markConnection d pins2 i) }
      :: markPins d pins2 (i + 1) rest

/-- One direction of `connectionsDiff` in closed form: the connections of `e` that
have no counterpart on the pin of `other` with the same index receive `d`. -/
def Element.markWires (d : Difflad.Diff) (e other : Element) : Element :=
  { e with
    Inputs := markPins d other.Inputs 0 e.Inputs
    Outputs := markPins d other.Outputs 0 e.Outputs }

/-- The comparison of the top labels (lines 317-320 and 332-335). -/
def markTop (elem elem2 : Element) : Element × Element :=
  if elem.TopLabel.Value ≠ elem2.TopLabel.Value then
    ({ elem with TopLabel := { elem.TopLabel with Diff := DiffDeleted } },
     { elem2 with TopLabel := { elem2.TopLabel with Diff := DiffAdded } })
  else (elem, elem2)

/-- The comparison of the element texts (lines 337-340). -/
def markText (elem elem2 : Element) : Element × Element :=
  if elem.ElementText.Value ≠ elem2.ElementText.Value then
    ({ elem with ElementText := { elem.ElementText with Diff := DiffDeleted } },
     { elem2 with ElementText := { elem2.ElementText with Diff := DiffAdded } })
  else (elem, elem2)

/-- The marker assignments of `diffMatched` that precede the call of `connectionsDiff`. -/
def labelPhase (elem elem2 : Element) : Element × Element :=
  if elem.Type_ = elem2.Type_ ∧ elem.Type_ = "block" then
    if elem.BlockLabel.Value = elem2.BlockLabel.Value then markTop elem elem2
    else ({ elem with Diff := DiffDeleted }, { elem2 with Diff := DiffAdded })
  else markText (markTop elem elem2).1 (markTop elem elem2).2

/-- Closed form of `diffMatched`. -/
def pairDiff (elem elem2 : Element) : Element × Element :=
  ((labelPhase elem elem2).1.markWires DiffDeleted (labelPhase elem elem2).2,
   (labelPhase elem elem2).2.markWires DiffAdded (labelPhase elem elem2).1)

/-- The markers of a pin list: per pin its label marker, then its connection markers. -/
def pinMarkers : List Pin → List Diff
  | [] => []
  | pin :: rest => (pin.Label.Diff :: pin.Connections.map (fun c => c.Diff)) ++ pinMarkers rest

/-- The markers of the connections of a pin list. -/
def wireMarkers : List Pin → List Diff
  | [] => []
  | pin :: rest => pin.Connections.map (fun c => c.Diff) ++ wireMarkers rest

/-- Every marker of an element: its own, its four labels, its pin labels, its connections. -/
def Element.markers (e : Element) : List Difflad.Diff :=
  e.Diff :: e.ElementText.Diff :: e.TopLabel.Diff :: e.BottomLabel.Diff :: e.BlockLabel.Diff
    :: (pinMarkers e.Inputs ++ pinMarkers e.Outputs)

/-- Every marker of the element is `d`. -/
def Element.AllMarked (d : Difflad.Diff) (e : Element) : Prop := ∀ m ∈ e.markers, m = d

/-- Every marker of every element of the unit is `d`. -/
def POU.AllMarked (d : Diff) (p : POU) : Prop := ∀ kv ∈ p.Elements, kv.2.AllMarked d

/-- The ids of the elements of a unit, in visiting order. -/
def POU.ids (p : POU) : List String := p.Elements.map fun kv => kv.2.UID

/-- The invariant of the data model: no two elements of a unit have the same id. -/
def POU.UniqueIds (p : POU) : Prop := p.ids.Nodup

/-- The identity of a connection: the pair `(TargetRef, TargetLabel)`. -/
def Connection.wire (conn : Connection) : String × String := (conn.TargetRef, conn.TargetLabel)

/-- The identities of the connections of a pin, in order. -/
def Pin.wires (pin : Pin) : List (String × String) := pin.Connections.map Connection.wire

/-- The identities of the connections on the pin with index `i`; empty without such a pin. -/
def wiresAt (pins : List Pin) (i : Nat) : List (String × String) :=
  match pins[i]? with
  | none => []
  | some pin => pin.wires

/-- The structure of a pin: its label text and the identities of its connections. -/
def Pin.shape (pin : Pin) : String × List (String × String) := (pin.Label.Value, pin.wires)

/-- The structure of an element: id, kind, the four label texts, the pin shapes. -/
structure Shape where
  UID : String
  Type_ : String
  ElementText : String
  TopLabel : String
  BottomLabel : String
  BlockLabel : String
  Inputs : List (String × List (String × String))
  Outputs : List (String × List (String × String))
deriving DecidableEq, Repr

/-- The structure of an element (markers, geometry and routing are left out). -/
def Element.shape (e : Element) : Shape :=
  { UID := e.UID, Type_ := e.Type_, ElementText := e.ElementText.Value,
    TopLabel := e.TopLabel.Value, BottomLabel := e.BottomLabel.Value,
    BlockLabel := e.BlockLabel.Value,
    Inputs := e.Inputs.map Pin.shape, Outputs := e.Outputs.map Pin.shape }

/-- The structures of the elements of a unit, in visiting order. -/
def POU.shapes (p : POU) : List Shape := p.Elements.map fun kv => kv.2.shape

/-- The first element with the given id, in visiting order. -/
def findUID (uid : String) : List Element → Option Element
  | [] => none
  | e :: rest => if uid = e.UID then some e else findUID uid rest

/-- Closed form of the old element after its iteration of the loop `outer`. -/
def oldSide (elem : Element) (news : List Element) : Element :=
  match findUID elem.UID news with
  | none => elem.markDeleted
  | some elem2 => (pairDiff elem elem2).1

/-- Closed form of the new unit after the iteration of the loop `outer` for `elem`. -/
def touch (elem : Element) : List Element → List Element
  | [] => []
  | elem2 :: rest =>
    if elem.UID = elem2.UID then (pairDiff elem elem2).2 :: rest else elem2 :: touch elem rest

/-- Closed form of the new unit after the loop `outer`. -/
def outerNews : List Element → List Element → List Element
  | [], news => news
  | elem :: rest, news => outerNews rest (touch elem news)

/-- Closed form of a new element after the loop `outer`, for units with unique ids. -/
def fwdSide (olds : List Element) (elem2 : Element) : Element :=
  match findUID elem2.UID olds with
  | none => elem2
  | some elem => (pairDiff elem elem2).2

/-- The elements of a unit, in visiting order. -/
def POU.elems (p : POU) : List Element := p.Elements.map Prod.snd

/-- Closed form of a new element after `CalculateDiff`, for units with unique ids. -/
def newSide (olds : List Element) (elem2 : Element) : Element :=
  match findUID elem2.UID olds with
  | none => elem2.markAdded
  | some elem => (pairDiff elem elem2).2

/-- The input pins (`out = false`) or the output pins (`out = true`) of an element. -/
def Element.pins (e : Element) (out : Bool) : List Pin := if out then e.Outputs else e.Inputs

/-- The connection at position `m` of the pin with index `n`. -/
def connAt (pins : List Pin) (n m : Nat) : Option Connection :=
  match pins[n]? with
  | none => none
  | some pin => pin.Connections[m]?

/-- The marker of the connection at position `m` of the pin with index `n`. -/
def markerAt (pins : List Pin) (n m : Nat) : Option Diff :=
  (connAt pins n m).map fun c => c.Diff

/-- The connection with its routing points removed. -/
def Connection.eraseRouting (c : Connection) : Connection := { c with Points := [] }

/-- The pin with the routing points of its connections removed. -/
def Pin.eraseRouting (pin : Pin) : Pin :=
  { pin with Connections := pin.Connections.map Connection.eraseRouting }

/-- The element with the routing points of its connections removed. -/
def Element.eraseRouting (e : Element) : Element :=
  { e with
    Inputs := e.Inputs.map Pin.eraseRouting
    Outputs := e.Outputs.map Pin.eraseRouting }

/-- The unit with the routing points of all connections removed: two units have the
same image iff they differ at most in routing points. -/
def POU.eraseRouting (p : POU) : POU :=
  { p with Elements := p.Elements.map fun kv => (kv.1, kv.2.eraseRouting) }

/-- All markers of a unit, element by element in visiting order. -/
def POU.markers (p : POU) : List (List Diff) := p.Elements.map fun kv => kv.2.markers

/-- The connection with its marker reset. -/
def Connection.eraseMarkers (c : Connection) : Connection := { c with Diff := DiffUnchanged }

/-- The text field with its marker reset. -/
def MutableString.eraseMarkers (t : MutableString) : MutableString :=
  { t with Diff := DiffUnchanged }

/-- The pin with all its markers reset. -/
def Pin.eraseMarkers (pin : Pin) : Pin :=
  { pin with
    Label := pin.Label.eraseMarkers
    Connections := pin.Connections.map Connection.eraseMarkers }

/-- The element with all its markers reset: what is left is every field that is not a
marker (id, kind, geometry, label texts, pins with position, order, label text and
connections with target, pin index and routing points). -/
def Element.eraseMarkers (e : Element) : Element :=
  { e with
    ElementText := e.ElementText.eraseMarkers
    TopLabel := e.TopLabel.eraseMarkers
    BottomLabel := e.BottomLabel.eraseMarkers
    BlockLabel := e.BlockLabel.eraseMarkers
    Inputs := e.Inputs.map Pin.eraseMarkers
    Outputs := e.Outputs.map Pin.eraseMarkers
    Diff := DiffUnchanged }

/-- The unit with all markers reset: two units have the same image iff they differ at
most in markers. -/
def POU.eraseMarkers (p : POU) : POU :=
  { p with Elements := p.Elements.map fun kv => (kv.1, kv.2.eraseMarkers) }

/-- The defaults of a built pin: label marker `Unchanged`, and on every connection
marker `Unchanged` and `TargetPin` 0. -/
def Pin.Fresh (pin : Pin) : Prop :=
  pin.Label.Diff = DiffUnchanged ∧
    ∀ c ∈ pin.Connections, c.Diff = DiffUnchanged ∧ c.TargetPin = 0

/-- The defaults of a built element: its own marker and its four label markers are
`Unchanged`, the bottom label is empty, and all its pins have the defaults. -/
def Element.Fresh (e : Element) : Prop :=
  e.Diff = DiffUnchanged ∧ e.ElementText.Diff = DiffUnchanged ∧
    e.TopLabel.Diff = DiffUnchanged ∧ e.BottomLabel.Diff = DiffUnchanged ∧
    e.BlockLabel.Diff = DiffUnchanged ∧ e.BottomLabel.Value = "" ∧
    (∀ pin ∈ e.Inputs, pin.Fresh) ∧ (∀ pin ∈ e.Outputs, pin.Fresh)

/-- The three decisions of `labelPhase` for a matched pair: replace (both blocks, of
different block type), top labels to be marked, element texts to be marked. -/
def conds (a b : Element) : Bool × Bool × Bool :=
  (decide (a.Type_ = b.Type_ ∧ a.Type_ = "block" ∧ a.BlockLabel.Value ≠ b.BlockLabel.Value),
   decide (¬ (a.Type_ = b.Type_ ∧ a.Type_ = "block" ∧ a.BlockLabel.Value ≠ b.BlockLabel.Value)
     ∧ a.TopLabel.Value ≠ b.TopLabel.Value),
   decide (¬ (a.Type_ = b.Type_ ∧ a.Type_ = "block")
     ∧ a.ElementText.Value ≠ b.ElementText.Value))

/-- Writes `d` to the element marker, the top label marker and the element text marker
as the three flags say. -/
def stampLabels (d : Diff) (cs : Bool × Bool × Bool) (x : Element) : Element :=
  { x with
    Diff := if cs.1 then d else x.Diff
    TopLabel := { x.TopLabel with Diff := if cs.2.1 then d else x.TopLabel.Diff }
    ElementText := { x.ElementText with Diff := if cs.2.2 then d else x.ElementText.Diff } }

/-- One side of `pairDiff` in normal form: the unmatched wires against `other`, then
the labels. -/
def stampBy (d : Diff) (cs : Bool × Bool × Bool) (other x : Element) : Element :=
  stampLabels d cs (x.markWires d other)

/-- The body of the loop `outer_back` in closed form. -/
def backSide (olds : List Element) (elem : Element) : Element :=
  if hasUID elem.UID olds then elem else elem.markAdded

instance (d : Diff) (e : Element) : Decidable (e.AllMarked d) :=
  inferInstanceAs (Decidable (∀ m ∈ e.markers, m = d))

instance (d : Diff) (p : POU) : Decidable (p.AllMarked d) :=
  inferInstanceAs (Decidable (∀ kv ∈ p.Elements, kv.2.AllMarked d))

instance (p : POU) : Decidable p.UniqueIds := inferInstanceAs (Decidable p.ids.Nodup)

/-! ## Sample diagrams

A rung `rail - contact - coil` and variants of it, used to instantiate the theorems. -/

/-- A left power rail with one output pin. -/
def sampleRail : Element :=
  { UID := "1", Type_ := "leftPowerRail", Outputs := [{ Position := { X := 2, Y := 10 } }] }

/-- A contact wired to the rail. -/
def sampleContact : Element :=
  { UID := "2", Type_ := "contact", TopLabel := { Value := "start" },
    Inputs := [{ Connections := [{ TargetRef := "1", Points := [{ X := 5, Y := 10 }] }] }],
    Outputs := [{ Position := { X := 21, Y := 8 } }] }

/-- A coil wired to the contact. -/
def sampleCoil : Element :=
  { UID := "3", Type_ := "coil", TopLabel := { Value := "motor" }, ElementText := { Value := "S" },
    Inputs := [{ Connections := [{ TargetRef := "2" }] }] }

/-- The rung as the old unit. -/
def sampleOld : POU :=
  { Name := "main", Elements := [("1", sampleRail), ("2", sampleContact), ("3", sampleCoil)] }

/-- A copy of the rung: visited in another order and routed differently. -/
def sampleCopy : POU :=
  { Name := "main",
    Elements := [("3", sampleCoil),
      ("2", { sampleContact with
        Inputs := [{ Connections := [{ TargetRef := "1", Points := [{ X := 7, Y := 12 }] }] }] }),
      ("1", sampleRail)] }

/-- The rung without its coil. -/
def sampleShort : POU :=
  { Name := "main", Elements := [("2", sampleContact), ("1", sampleRail)] }

/-- A timer block wired to the contact. -/
def sampleTimer : Element :=
  { UID := "4", Type_ := "block", TopLabel := { Value := "T1" }, BlockLabel := { Value := "TON" },
    Inputs := [{ Label := { Value := "IN" }, Connections := [{ TargetRef := "2" }] },
               { Label := { Value := "PT" }, Connections := [{ TargetRef := "5" }] }],
    Outputs := [{ Label := { Value := "Q" }, Connections := [{ TargetRef := "3" }] }] }

/-- The same block instance turned into another block type, renamed, and rewired on `IN`. -/
def sampleTimerRetyped : Element :=
  { sampleTimer with
    TopLabel := { Value := "T2" }, BlockLabel := { Value := "TOF" },
    Inputs := [{ Label := { Value := "IN" }, Connections := [{ TargetRef := "1" }] },
               { Label := { Value := "PT" }, Connections := [{ TargetRef := "5" }] }] }

/-- A unit with the rung and the timer. -/
def sampleTimed : POU :=
  { Name := "main", Elements := [("1", sampleRail), ("2", sampleContact), ("4", sampleTimer)] }

/-- A unit with the rung and the retyped timer. -/
def sampleRetyped : POU :=
  { Name := "main",
    Elements := [("4", sampleTimerRetyped), ("1", sampleRail), ("2", sampleContact)] }

/-- The timer block turned into another block type and renamed, wired as before. -/
def sampleTimerSwapped : Element :=
  { sampleTimer with TopLabel := { Value := "T2" }, BlockLabel := { Value := "TOF" } }

/-- A unit with the rung and the swapped timer. -/
def sampleSwapped : POU :=
  { Name := "main",
    Elements := [("1", sampleRail), ("2", sampleContact), ("4", sampleTimerSwapped)] }

/-- The contact bound to another variable, wired as before. -/
def sampleContactRenamed : Element := { sampleContact with TopLabel := { Value := "stop" } }

/-- The rung with the renamed contact. -/
def sampleRenamed : POU :=
  { Name := "main",
    Elements := [("1", sampleRail), ("3", sampleCoil), ("2", sampleContactRenamed)] }

/-- The timer block with its output `Q` wired to another element. -/
def sampleTimerRewired : Element :=
  { sampleTimer with
    Outputs := [{ Label := { Value := "Q" }, Connections := [{ TargetRef := "6" }] }] }

/-- A unit with the rung and the rewired timer. -/
def sampleRewired : POU :=
  { Name := "main",
    Elements := [("4", sampleTimerRewired), ("2", sampleContact), ("1", sampleRail)] }

/-- The timer block without input pins and with a second output pin. -/
def sampleTimerShrunk : Element :=
  { sampleTimer with
    Inputs := [],
    Outputs := [{ Label := { Value := "Q" }, Connections := [{ TargetRef := "3" }] },
                { Label := { Value := "ET" }, Connections := [{ TargetRef := "7" }] }] }

/-- A unit with the rung and the shrunk timer. -/
def sampleShrunk : POU :=
  { Name := "main",
    Elements := [("1", sampleRail), ("4", sampleTimerShrunk), ("2", sampleContact)] }

/-- The wire into the contact, routed along other points. -/
def sampleWireRerouted : Connection :=
  { TargetRef := "1", Points := [{ X := 7, Y := 12 }, { X := 7, Y := 10 }] }

/-- The contact with its incoming wire rerouted. -/
def sampleContactRerouted : Element :=
  { sampleContact with Inputs := [{ Connections := [sampleWireRerouted] }] }

/-- The rung with the wire into the contact routed along other points. -/
def sampleRerouted : POU :=
  { Name := "main",
    Elements := [("1", sampleRail), ("2", sampleContactRerouted), ("3", sampleCoil)] }

/-- The record of the left power rail. -/
def sampleXmlRail : plcxml.Primitive :=
  { LocalId := "1", ConnectionPointOut := [{ RelPosition := { X := 2, Y := 10 } }] }

/-- The wire from the contact to the rail, as declared. -/
def sampleXmlWire : plcxml.Connection :=
  { RefLocalId := "1", Position := [{ X := 5, Y := 10 }, { X := 2, Y := 10 }] }

/-- The record of a rising-edge contact. -/
def sampleXmlContact : plcxml.Primitive :=
  { LocalId := "2", Variable := "start", Edge := "rising",
    ConnectionPointIn := [{ Connection := [sampleXmlWire] }],
    ConnectionPointOut := [{ RelPosition := { X := 21, Y := 8 } }] }

/-- The wire from the coil to output `Q` of the timer, as declared. -/
def sampleXmlWireQ : plcxml.Connection := { RefLocalId := "4", FormalParameter := "Q" }

/-- The record of a set coil. -/
def sampleXmlCoil : plcxml.Primitive :=
  { LocalId := "3", Variable := "motor", Storage := "set",
    ConnectionPointIn := [{ Connection := [sampleXmlWireQ] }] }

/-- The connection point of input `IN` of the timer. -/
def sampleXmlPointIN : plcxml.ConnectionPoint :=
  { RelPosition := { X := 0, Y := 30 }, Connection := [{ RefLocalId := "2" }] }

/-- The input variables of the timer. -/
def sampleXmlInputs : List plcxml.BlockVariable :=
  [{ FormalParameter := "IN", ConnectionPointIn := [sampleXmlPointIN] },
   { FormalParameter := "PT", ConnectionPointIn := [{ RelPosition := { X := 0, Y := 50 } }] }]

/-- The output variables of the timer. -/
def sampleXmlOutputs : List plcxml.BlockVariable :=
  [{ FormalParameter := "Q", ConnectionPointOut := [{ RelPosition := { X := 40, Y := 30 } }] }]

/-- The record of a timer block. -/
def sampleXmlBlock : plcxml.Block :=
  { LocalId := "4", TypeName := "TON", InstanceName := "T1",
    InputVariables := { Variable := sampleXmlInputs },
    OutputVariables := { Variable := sampleXmlOutputs } }

/-- The ladder body: rail, contact, coil and the timer block. -/
def sampleXmlLD : plcxml.LD :=
  { LeftPowerRail := [sampleXmlRail], Contact := [sampleXmlContact], Coil := [sampleXmlCoil],
    Block := [sampleXmlBlock] }

/-- A document unit with that body. -/
def sampleXml : plcxml.POU :=
  { Name := "main", POUType := "program", Body := { LD := sampleXmlLD } }

/-- A sequence of earlier style tokens, one of them unknown. -/
def sampleStyles : List String := ["light", "solarized", "dark"]

/-- The timer instance renamed, with an inner text, of the same block type. -/
def sampleTimerRenamed : Element :=
  { sampleTimer with TopLabel := { Value := "T2" }, ElementText := { Value := "x" } }

/-- A unit with the rung and the renamed timer. -/
def sampleTimedRenamed : POU :=
  { Name := "main",
    Elements := [("4", sampleTimerRenamed), ("1", sampleRail), ("2", sampleContact)] }

/-- The record of a coil with set storage and a falling edge, tagged as a coil. -/
def sampleXmlCoilBoth : plcxml.Primitive :=
  { ElemType := "coil", LocalId := "9", Storage := "set", Edge := "falling" }

/-- Some declared input variable of the block has no `connectionPointIn`, or some declared
output variable has no `connectionPointOut`. -/
def plcxml.Block.lacksPoint (block : plcxml.Block) : Prop :=
  (∃ v ∈ block.InputVariables.Variable, v.ConnectionPointIn = []) ∨
    (∃ v ∈ block.OutputVariables.Variable, v.ConnectionPointOut = [])

instance (block : plcxml.Block) : Decidable block.lacksPoint :=
  inferInstanceAs (Decidable (_ ∨ _))

/-- The records of a body in the order `parseElements` builds them: the gathered
primitives, then the blocks, both as tagged by `GatherAllPrimitives`. -/
def plcxml.LD.records (ld : plcxml.LD) : List (plcxml.Primitive ⊕ plcxml.Block) :=
  ld.GatherAllPrimitives.1.map Sum.inl ++ ld.GatherAllPrimitives.2.GatherAllBlocks.map Sum.inr

/-- The local identifier of a record. -/
def recordId : plcxml.Primitive ⊕ plcxml.Block → String
  | .inl prim => prim.LocalId
  | .inr block => block.LocalId

/-- The builder call `parseElements` makes for a record. -/
def buildRecord : plcxml.Primitive ⊕ plcxml.Block → Except Failure (Element × Option String)
  | .inl prim => .ok (initPrimitiveFromXML prim)
  | .inr block => initBlockFromXML block

/-- The map after storing each element of a list under its id, in list order. -/
def insertAll (es : List Element) (m : List (String × Element)) : List (String × Element) :=
  es.foldl (fun m e => mapInsert m e.UID e) m

/-- A document unit in which a contact carries the local identifier of the block. -/
def sampleXmlShared : plcxml.POU :=
  { Name := "main", POUType := "program",
    Body := { LD := { sampleXmlLD with
      Contact := [sampleXmlContact, { sampleXmlContact with LocalId := sampleXmlBlock.LocalId }] } } }

/-- The timer block with its two input pins in the other order. -/
def sampleTimerPinsSwapped : Element :=
  { sampleTimer with
    Inputs := [{ Label := { Value := "PT" }, Connections := [{ TargetRef := "5" }] },
               { Label := { Value := "IN" }, Connections := [{ TargetRef := "2" }] }] }

/-- A unit with the rung and the timer with swapped input pins. -/
def samplePinsSwapped : POU :=
  { Name := "main",
    Elements := [("1", sampleRail), ("2", sampleContact), ("4", sampleTimerPinsSwapped)] }

/-- The marker with `Deleted` and `Added` exchanged. -/
def Diff.swap : Diff → Diff
  | DiffUnchanged => DiffUnchanged
  | DiffDeleted => DiffAdded
  | DiffAdded => DiffDeleted

/-- The connection with its marker exchanged. -/
def Connection.swapMarkers (c : Connection) : Connection := { c with Diff := c.Diff.swap }

/-- The text field with its marker exchanged. -/
def MutableString.swapMarkers (t : MutableString) : MutableString :=
  { t with Diff := t.Diff.swap }

/-- The pin with all its markers exchanged. -/
def Pin.swapMarkers (pin : Pin) : Pin :=
  { pin with
    Label := pin.Label.swapMarkers
    Connections := pin.Connections.map Connection.swapMarkers }

/-- The element with `Deleted` and `Added` exchanged in all its markers. -/
def Element.swapMarkers (e : Element) : Element :=
  { e with
    ElementText := e.ElementText.swapMarkers
    TopLabel := e.TopLabel.swapMarkers
    BottomLabel := e.BottomLabel.swapMarkers
    BlockLabel := e.BlockLabel.swapMarkers
    Inputs := e.Inputs.map Pin.swapMarkers
    Outputs := e.Outputs.map Pin.swapMarkers
    Diff := e.Diff.swap }

/-- The unit with `Deleted` and `Added` exchanged in all markers. -/
def POU.swapMarkers (p : POU) : POU :=
  { p with Elements := p.Elements.map fun kv => (kv.1, kv.2.swapMarkers) }

/-- The labels of the input pins and of the output pins of an element, text and marker. -/
def Element.pinLabels (e : Element) : List MutableString × List MutableString :=
  (e.Inputs.map fun pin => pin.Label, e.Outputs.map fun pin => pin.Label)

/-- The kind and the local identifier of every record of a body, read off the list the
record stands in: the nine primitive lists in gather order, then the blocks. -/
def plcxml.LD.kinded (ld : plcxml.LD) : List (String × String) :=
  ld.LeftPowerRail.map (fun prim => ("leftPowerRail", prim.LocalId))
    ++ ld.Contact.map (fun prim => ("contact", prim.LocalId))
    ++ ld.Coil.map (fun prim => ("coil", prim.LocalId))
    ++ ld.RightPowerRail.map (fun prim => ("rightPowerRail", prim.LocalId))
    ++ ld.Connector.map (fun prim => ("connector", prim.LocalId))
    ++ ld.Continuation.map (fun prim => ("continuation", prim.LocalId))
    ++ ld.InOutVariable.map (fun prim => ("inOutVariable", prim.LocalId))
    ++ ld.InVariable.map (fun prim => ("inVariable", prim.LocalId))
    ++ ld.OutVariable.map (fun prim => ("outVariable", prim.LocalId))
    ++ ld.Block.map (fun block => ("block", block.LocalId))

/-- The body with the `ElemType` of every record blanked: two bodies have the same image
iff they differ at most in the `ElemType` values their records carry. -/
def plcxml.LD.eraseKinds (ld : plcxml.LD) : plcxml.LD :=
  { ld with
    LeftPowerRail := plcxml.tagPrimitives "" ld.LeftPowerRail
    Contact := plcxml.tagPrimitives "" ld.Contact
    Coil := plcxml.tagPrimitives "" ld.Coil
    RightPowerRail := plcxml.tagPrimitives "" ld.RightPowerRail
    Connector := plcxml.tagPrimitives "" ld.Connector
    Continuation := plcxml.tagPrimitives "" ld.Continuation
    InOutVariable := plcxml.tagPrimitives "" ld.InOutVariable
    InVariable := plcxml.tagPrimitives "" ld.InVariable
    OutVariable := plcxml.tagPrimitives "" ld.OutVariable
    Block := ld.Block.map fun block => { block with ElemType := "" } }

/-- The `ElemType` a record carries. -/
def recordKind : plcxml.Primitive ⊕ plcxml.Block → String
  | .inl prim => prim.ElemType
  | .inr block => block.ElemType

/-- The sample unit with a contact record that carries the kind of a coil and a block
record that carries the kind of a contact. -/
def sampleXmlMistagged : plcxml.POU :=
  { Name := "main", POUType := "program",
    Body := { LD := { sampleXmlLD with
      Contact := [{ sampleXmlContact with ElemType := "coil" }],
      Block := [{ sampleXmlBlock with ElemType := "contact" }] } } }

/-! ## Theorems -/

/-! ### The connection diff in closed form -/

theorem scanMatched_eq (conn : Connection) (conns2 : List Connection) (b : Bool) :
    scanMatched conn conns2 b = (b || conns2.any (sameWire conn)) := by
  induction conns2 generalizing b with
  | nil => simp [scanMatched]
  | cons c2 rest ih =>
    by_cases h : conn.TargetRef = c2.TargetRef ∧ conn.TargetLabel = c2.TargetLabel
    · simp [scanMatched, h, ih, sameWire]
    · simp [scanMatched, h, ih, sameWire]

theorem diffConnection_eq (d : Diff) (pins2 : List Pin) (i : Nat) (conn : Connection) :
    diffConnection d pins2 i conn = some (markConnection d pins2 i conn) := by
  unfold diffConnection markConnection unmatched
  by_cases h : i ≥ pins2.length
  · rw [if_pos h, List.getElem?_eq_none h]; simp
  · rw [if_neg h]
    obtain ⟨pin2, hp⟩ : ∃ pin2, pins2[i]? = some pin2 :=
      ⟨pins2[i], List.getElem?_eq_getElem (by omega)⟩
    rw [hp]
    simp only [scanMatched_eq, Bool.false_or]
    by_cases hm : pin2.Connections.any (sameWire conn) = true <;> simp [hm]

theorem diffConnections_eq (d : Diff) (pins2 : List Pin) (i : Nat) (conns : List Connection) :
    diffConnections d pins2 i conns = some (conns.map (markConnection d pins2 i)) := by
  induction conns with
  | nil => rfl
  | cons c rest ih => simp [diffConnections, diffConnection_eq, ih]

theorem diffPins_eq (d : Diff) (pins2 : List Pin) (i : Nat) (pins : List Pin) :
    diffPins d pins2 i pins = some (markPins d pins2 i pins) := by
  induction pins generalizing i with
  | nil => rfl
  | cons pin rest ih => simp [diffPins, diffConnections_eq, ih, markPins]

theorem sameWire_iff (conn conn2 : Connection) : sameWire conn conn2 = true ↔ conn.wire = conn2.wire := by
  simp [sameWire, Connection.wire, Prod.ext_iff]

theorem unmatched_iff (pins2 : List Pin) (i : Nat) (conn : Connection) :
    unmatched pins2 i conn = true ↔ conn.wire ∉ wiresAt pins2 i := by
  unfold unmatched wiresAt
  cases pins2[i]? with
  | none => simp
  | some pin2 =>
    simp only [Bool.not_eq_true', Pin.wires, List.mem_map, not_exists, not_and]
    rw [← Bool.not_eq_true, List.any_eq_true]
    simp only [sameWire_iff, not_exists, not_and]
    constructor
    · intro h c hc heq; exact h c hc heq.symm
    · intro h c hc heq; exact h c hc heq.symm

theorem unmatched_congr {pins2 pins3 : List Pin} (h : ∀ i, wiresAt pins2 i = wiresAt pins3 i)
    (i : Nat) (conn : Connection) : unmatched pins2 i conn = unmatched pins3 i conn := by
  rw [Bool.eq_iff_iff, unmatched_iff, unmatched_iff, h i]

theorem markConnection_wire (d : Diff) (pins2 : List Pin) (i : Nat) (conn : Connection) :
    (markConnection d pins2 i conn).wire = conn.wire := by
  unfold markConnection
  split <;> rfl

theorem markPins_length (d : Diff) (pins2 : List Pin) (i : Nat) (pins : List Pin) :
    (markPins d pins2 i pins).length = pins.length := by
  induction pins generalizing i with
  | nil => rfl
  | cons pin rest ih => simp [markPins, ih]

theorem markPins_getElem? (d : Diff) (pins2 : List Pin) (i j : Nat) (pins : List Pin) :
    (markPins d pins2 i pins)[j]? = pins[j]?.map fun pin =>
      { pin with Connections := pin.Connections.map (markConnection d pins2 (i + j)) } := by
  induction pins generalizing i j with
  | nil => simp [markPins]
  | cons pin rest ih =>
    cases j with
    | zero => simp [markPins]
    | succ j =>
      simp only [markPins, List.getElem?_cons_succ, ih]
      have : i + 1 + j = i + (j + 1) := by omega
      rw [this]

theorem wiresAt_markPins (d : Diff) (pins2 : List Pin) (i j : Nat) (pins : List Pin) :
    wiresAt (markPins d pins2 i pins) j = wiresAt pins j := by
  unfold wiresAt
  rw [markPins_getElem?]
  cases pins[j]? with
  | none => rfl
  | some pin =>
    simp only [Option.map_some', Pin.wires, List.map_map]
    congr 1
    funext c
    exact markConnection_wire d pins2 (i + j) c

theorem markPins_congr (d : Diff) {pins2 pins3 : List Pin}
    (h : ∀ i, wiresAt pins2 i = wiresAt pins3 i) (i : Nat) (pins : List Pin) :
    markPins d pins2 i pins = markPins d pins3 i pins := by
  induction pins generalizing i with
  | nil => rfl
  | cons pin rest ih =>
    simp only [markPins, ih]
    congr 3
    funext c
    simp only [markConnection, unmatched_congr h]

theorem connectionsDiff_eq (e new_elem : Element) :
    e.connectionsDiff new_elem
      = some (e.markWires DiffDeleted new_elem, new_elem.markWires DiffAdded e) := by
  simp only [Element.connectionsDiff, diffPins_eq, Element.markWires]
  rw [markPins_congr DiffAdded (wiresAt_markPins DiffDeleted new_elem.Inputs 0 · e.Inputs),
    markPins_congr DiffAdded (wiresAt_markPins DiffDeleted new_elem.Outputs 0 · e.Outputs)]

theorem diffMatched_eq (elem elem2 : Element) :
    diffMatched elem elem2 = some (pairDiff elem elem2) := by
  unfold diffMatched pairDiff labelPhase markText markTop
  simp only [connectionsDiff_eq]
  split_ifs <;> rfl

/-! ### Shapes are preserved; the result on one side reads only the shape of the other -/

theorem wiresAt_of_shape {pins pins2 : List Pin} (h : pins.map Pin.shape = pins2.map Pin.shape)
    (i : Nat) : wiresAt pins i = wiresAt pins2 i := by
  have h2 : (pins.map Pin.shape)[i]? = (pins2.map Pin.shape)[i]? := by rw [h]
  simp only [List.getElem?_map] at h2
  unfold wiresAt
  cases h3 : pins[i]? <;> cases h4 : pins2[i]? <;> simp_all [Pin.shape]

theorem markPins_shape (d : Diff) (pins2 : List Pin) (i : Nat) (pins : List Pin) :
    (markPins d pins2 i pins).map Pin.shape = pins.map Pin.shape := by
  induction pins generalizing i with
  | nil => rfl
  | cons pin rest ih =>
    simp only [markPins, List.map_cons, ih, Pin.shape, Pin.wires, List.map_map]
    congr 3
    funext c
    exact markConnection_wire d pins2 i c

theorem markWires_shape (d : Diff) (e other : Element) : (e.markWires d other).shape = e.shape := by
  simp [Element.markWires, Element.shape, markPins_shape]

theorem markWires_congr (d : Diff) (e : Element) {b c : Element}
    (hi : b.Inputs.map Pin.shape = c.Inputs.map Pin.shape)
    (ho : b.Outputs.map Pin.shape = c.Outputs.map Pin.shape) :
    e.markWires d b = e.markWires d c := by
  simp only [Element.markWires]
  rw [markPins_congr d (wiresAt_of_shape hi), markPins_congr d (wiresAt_of_shape ho)]

theorem markTop_fst_shape (e e2 : Element) : (markTop e e2).1.shape = e.shape := by
  unfold markTop
  split_ifs <;> rfl

theorem markTop_snd_shape (e e2 : Element) : (markTop e e2).2.shape = e2.shape := by
  unfold markTop
  split_ifs <;> rfl

theorem markText_fst_shape (e e2 : Element) : (markText e e2).1.shape = e.shape := by
  unfold markText
  split_ifs <;> rfl

theorem markText_snd_shape (e e2 : Element) : (markText e e2).2.shape = e2.shape := by
  unfold markText
  split_ifs <;> rfl

theorem labelPhase_fst_shape (e e2 : Element) : (labelPhase e e2).1.shape = e.shape := by
  unfold labelPhase
  split_ifs
  · exact markTop_fst_shape e e2
  · rfl
  · rw [markText_fst_shape, markTop_fst_shape]

theorem labelPhase_snd_shape (e e2 : Element) : (labelPhase e e2).2.shape = e2.shape := by
  unfold labelPhase
  split_ifs
  · exact markTop_snd_shape e e2
  · rfl
  · rw [markText_snd_shape, markTop_snd_shape]

theorem markTop_fst_congr (e : Element) {b c : Element} (h : b.TopLabel.Value = c.TopLabel.Value) :
    (markTop e b).1 = (markTop e c).1 := by
  unfold markTop
  rw [h]
  split_ifs <;> rfl

theorem markText_fst_congr (e : Element) {b c : Element}
    (h : b.ElementText.Value = c.ElementText.Value) : (markText e b).1 = (markText e c).1 := by
  unfold markText
  rw [h]
  split_ifs <;> rfl

theorem markTop_snd_text (e e2 : Element) : (markTop e e2).2.ElementText = e2.ElementText := by
  unfold markTop
  split_ifs <;> rfl

theorem labelPhase_fst_congr (e : Element) {b c : Element} (h : b.shape = c.shape) :
    (labelPhase e b).1 = (labelPhase e c).1 := by
  simp only [Element.shape, Shape.mk.injEq] at h
  obtain ⟨-, h2, h3, h4, -, h6, -, -⟩ := h
  unfold labelPhase
  rw [h2, h6]
  split_ifs
  · exact markTop_fst_congr e h4
  · rfl
  · rw [markTop_fst_congr e h4]
    exact markText_fst_congr _ (by rw [markTop_snd_text, markTop_snd_text, h3])

theorem pairDiff_fst_shape (e e2 : Element) : (pairDiff e e2).1.shape = e.shape := by
  simp [pairDiff, markWires_shape, labelPhase_fst_shape]

theorem pairDiff_snd_shape (e e2 : Element) : (pairDiff e e2).2.shape = e2.shape := by
  simp [pairDiff, markWires_shape, labelPhase_snd_shape]

theorem shape_inputs {b c : Element} (h : b.shape = c.shape) :
    b.Inputs.map Pin.shape = c.Inputs.map Pin.shape := by
  simp only [Element.shape, Shape.mk.injEq] at h
  exact h.2.2.2.2.2.2.1

theorem shape_outputs {b c : Element} (h : b.shape = c.shape) :
    b.Outputs.map Pin.shape = c.Outputs.map Pin.shape := by
  simp only [Element.shape, Shape.mk.injEq] at h
  exact h.2.2.2.2.2.2.2

theorem shape_UID {b c : Element} (h : b.shape = c.shape) : b.UID = c.UID := by
  simp only [Element.shape, Shape.mk.injEq] at h
  exact h.1

theorem pairDiff_fst_congr (e : Element) {b c : Element} (h : b.shape = c.shape) :
    (pairDiff e b).1 = (pairDiff e c).1 := by
  have h2 : (labelPhase e b).2.shape = (labelPhase e c).2.shape := by
    rw [labelPhase_snd_shape, labelPhase_snd_shape, h]
  simp only [pairDiff, labelPhase_fst_congr e h]
  exact markWires_congr _ _ (shape_inputs h2) (shape_outputs h2)

/-! ### The element loops in closed form -/

theorem markDeleted_shape (e : Element) : e.markDeleted.shape = e.shape := by
  simp [Element.markDeleted, Element.markAllLabelsDeleted, Element.markAllConnectionsDeleted,
    Element.shape, Pin.shape, Pin.wires, markPin, Function.comp_def, Connection.wire]

theorem markAdded_shape (e : Element) : e.markAdded.shape = e.shape := by
  simp [Element.markAdded, Element.markAllLabelsAdded, Element.markAllConnectionsAdded,
    Element.shape, Pin.shape, Pin.wires, markPin, Function.comp_def, Connection.wire]

theorem pairDiff_snd_UID (e e2 : Element) : (pairDiff e e2).2.UID = e2.UID :=
  shape_UID (pairDiff_snd_shape e e2)

theorem diffOldElement_eq (elem : Element) (news : List Element) :
    diffOldElement elem news = some (oldSide elem news, touch elem news) := by
  induction news with
  | nil => rfl
  | cons e2 rest ih =>
    by_cases h : elem.UID = e2.UID
    · simp [diffOldElement, oldSide, touch, findUID, h, diffMatched_eq]
    · simp only [diffOldElement, ih, oldSide, touch, findUID, h, if_false]

theorem touch_shape (elem : Element) (news : List Element) :
    (touch elem news).map Element.shape = news.map Element.shape := by
  induction news with
  | nil => rfl
  | cons e2 rest ih =>
    by_cases h : elem.UID = e2.UID
    · simp [touch, h, pairDiff_snd_shape]
    · simp [touch, h, ih]

theorem findUID_shape {l l2 : List Element} (h : l.map Element.shape = l2.map Element.shape)
    (uid : String) : (findUID uid l).map Element.shape = (findUID uid l2).map Element.shape := by
  induction l generalizing l2 with
  | nil =>
    cases l2 with
    | nil => rfl
    | cons b t => simp at h
  | cons a t ih =>
    cases l2 with
    | nil => simp at h
    | cons b t2 =>
      simp only [List.map_cons, List.cons.injEq] at h
      have hu : a.UID = b.UID := shape_UID h.1
      by_cases hc : uid = b.UID
      · simp [findUID, hu, hc, h.1]
      · simp only [findUID, hu, hc, if_false]
        exact ih h.2

theorem oldSide_congr (elem : Element) {l l2 : List Element}
    (h : l.map Element.shape = l2.map Element.shape) : oldSide elem l = oldSide elem l2 := by
  have h2 := findUID_shape h elem.UID
  unfold oldSide
  cases h3 : findUID elem.UID l <;> cases h4 : findUID elem.UID l2 <;>
    simp only [h3, h4, Option.map_some', Option.map_none', Option.some.injEq] at h2
  · rfl
  · exact absurd h2 (by simp)
  · exact absurd h2 (by simp)
  · exact pairDiff_fst_congr elem h2

theorem oldSide_shape (elem : Element) (news : List Element) :
    (oldSide elem news).shape = elem.shape := by
  unfold oldSide
  split
  · exact markDeleted_shape elem
  · exact pairDiff_fst_shape elem _

theorem outerNews_shape (olds news : List Element) :
    (outerNews olds news).map Element.shape = news.map Element.shape := by
  induction olds generalizing news with
  | nil => rfl
  | cons e rest ih => rw [outerNews, ih, touch_shape]

theorem outerLoop_eq (olds news : List Element) :
    outerLoop olds news = some (olds.map (oldSide · news), outerNews olds news) := by
  induction olds generalizing news with
  | nil => rfl
  | cons e rest ih =>
    simp only [outerLoop, diffOldElement_eq, ih, List.map_cons, outerNews]
    have : rest.map (oldSide · (touch e news)) = rest.map (oldSide · news) :=
      List.map_congr_left fun a _ => oldSide_congr a (touch_shape e news)
    rw [this]

theorem outerBack_eq (olds news : List Element) :
    outerBack olds news = news.map fun e => if hasUID e.UID olds then e else e.markAdded := by
  induction news with
  | nil => rfl
  | cons e rest ih => simp [outerBack, ih]

theorem hasUID_eq (uid : String) (l : List Element) :
    hasUID uid l = (findUID uid l).isSome := by
  induction l with
  | nil => rfl
  | cons a t ih =>
    by_cases h : uid = a.UID
    · simp [hasUID, findUID, h]
    · simp [hasUID, findUID, h, ih]

theorem hasUID_congr {l l2 : List Element} (h : l.map Element.shape = l2.map Element.shape)
    (uid : String) : hasUID uid l = hasUID uid l2 := by
  have h2 := findUID_shape h uid
  rw [hasUID_eq, hasUID_eq]
  cases h3 : findUID uid l <;> cases h4 : findUID uid l2 <;> simp_all

theorem hasUID_iff (uid : String) (l : List Element) :
    hasUID uid l = true ↔ uid ∈ l.map (fun e => e.UID) := by
  induction l with
  | nil => simp [hasUID]
  | cons a t ih =>
    by_cases h : uid = a.UID
    · simp [hasUID, h]
    · simp [hasUID, h, ih]

theorem findUID_none_iff (uid : String) (l : List Element) :
    findUID uid l = none ↔ uid ∉ l.map (fun e => e.UID) := by
  rw [← hasUID_iff, hasUID_eq]
  cases findUID uid l <;> simp

theorem findUID_some {uid : String} {l : List Element} {e : Element}
    (h : findUID uid l = some e) : e ∈ l ∧ e.UID = uid := by
  induction l with
  | nil => simp [findUID] at h
  | cons a t ih =>
    by_cases hc : uid = a.UID
    · simp only [findUID, hc, if_true, Option.some.injEq] at h
      subst h
      exact ⟨List.mem_cons_self _ _, hc.symm⟩
    · simp only [findUID, hc, if_false] at h
      exact ⟨List.mem_cons_of_mem _ (ih h).1, (ih h).2⟩

theorem findUID_of_mem {l : List Element} (hn : (l.map fun e => e.UID).Nodup) {e : Element}
    (he : e ∈ l) : findUID e.UID l = some e := by
  induction l with
  | nil => simp at he
  | cons a t ih =>
    simp only [List.map_cons, List.nodup_cons, List.mem_map, not_exists, not_and] at hn
    rcases List.mem_cons.mp he with rfl | ht
    · simp [findUID]
    · have hne : ¬ e.UID = a.UID := fun h => hn.1 e ht h
      simp only [findUID, hne, if_false]
      exact ih hn.2 ht

theorem rekey_map (kvs : List (String × Element)) (f : Element → Element) :
    rekey kvs ((kvs.map Prod.snd).map f) = kvs.map fun kv => (kv.1, f kv.2) := by
  induction kvs with
  | nil => rfl
  | cons kv t ih => simp only [List.map_cons, rekey, ih]

theorem touch_eq_map (elem : Element) (news : List Element)
    (hn : (news.map fun e => e.UID).Nodup) :
    touch elem news
      = news.map fun e2 => if elem.UID = e2.UID then (pairDiff elem e2).2 else e2 := by
  induction news with
  | nil => rfl
  | cons e2 rest ih =>
    simp only [List.map_cons, List.nodup_cons, List.mem_map, not_exists, not_and] at hn
    by_cases h : elem.UID = e2.UID
    · simp only [touch, h, if_true, List.map_cons, List.cons.injEq, true_and]
      symm
      calc rest.map (fun x => if e2.UID = x.UID then (pairDiff elem x).2 else x)
          = rest.map id := List.map_congr_left fun a ha => by
            have : ¬ e2.UID = a.UID := fun hc => hn.1 a ha hc.symm
            simp [this]
        _ = rest := List.map_id rest
    · simp only [touch, h, if_false, List.map_cons, ih hn.2]

theorem UIDs_of_shapes {l l2 : List Element} (h : l.map Element.shape = l2.map Element.shape) :
    l.map (fun e => e.UID) = l2.map (fun e => e.UID) := by
  have : (l.map Element.shape).map (fun s => s.UID) = (l2.map Element.shape).map (fun s => s.UID) := by
    rw [h]
  simpa [List.map_map, Function.comp_def, Element.shape] using this

theorem outerNews_eq_map (olds news : List Element)
    (ho : (olds.map fun e => e.UID).Nodup) (hn : (news.map fun e => e.UID).Nodup) :
    outerNews olds news = news.map (fwdSide olds) := by
  induction olds generalizing news with
  | nil =>
    simp only [outerNews, fwdSide, findUID]
    exact (List.map_id news).symm
  | cons e rest ih =>
    simp only [List.map_cons, List.nodup_cons, List.mem_map, not_exists, not_and] at ho
    have hn2 : ((touch e news).map fun x => x.UID).Nodup := by
      rw [UIDs_of_shapes (touch_shape e news)]; exact hn
    rw [outerNews, ih _ ho.2 hn2, touch_eq_map e news hn, List.map_map]
    apply List.map_congr_left
    intro e2 _
    simp only [Function.comp_apply]
    by_cases h : e.UID = e2.UID
    · have hnone : findUID e2.UID rest = none := by
        rw [findUID_none_iff]
        simp only [List.mem_map, not_exists, not_and]
        intro x hx hux
        exact ho.1 x hx (by rw [hux, h])
      simp only [h, if_true, fwdSide, pairDiff_snd_UID, hnone, findUID]
    · have h2 : ¬ e2.UID = e.UID := fun hc => h hc.symm
      simp only [h, if_false, fwdSide, findUID, h2]

theorem CalculateDiff_eq (p q : POU) :
    p.CalculateDiff q = some
      ({ p with Elements := p.Elements.map fun kv => (kv.1, oldSide kv.2 q.elems) },
       { q with Elements := (rekey q.Elements
          ((outerNews p.elems q.elems).map fun e =>
            if hasUID e.UID p.elems then e else e.markAdded)) }) := by
  have hs : (p.elems.map (oldSide · q.elems)).map Element.shape = p.elems.map Element.shape := by
    rw [List.map_map]
    exact List.map_congr_left fun a _ => oldSide_shape a q.elems
  simp only [POU.elems] at hs ⊢
  simp only [POU.CalculateDiff, outerLoop_eq, outerBack_eq, hasUID_congr hs, rekey_map]

theorem CalculateDiff_unique (p q : POU) (hp : p.UniqueIds) (hq : q.UniqueIds) :
    p.CalculateDiff q = some
      ({ p with Elements := p.Elements.map fun kv => (kv.1, oldSide kv.2 q.elems) },
       { q with Elements := q.Elements.map fun kv => (kv.1, newSide p.elems kv.2) }) := by
  have hp2 : (p.elems.map fun e => e.UID).Nodup := by
    simpa [POU.UniqueIds, POU.ids, POU.elems, List.map_map, Function.comp_def] using hp
  have hq2 : (q.elems.map fun e => e.UID).Nodup := by
    simpa [POU.UniqueIds, POU.ids, POU.elems, List.map_map, Function.comp_def] using hq
  rw [CalculateDiff_eq, outerNews_eq_map _ _ hp2 hq2, List.map_map]
  have : (fun e => if hasUID e.UID p.elems then e else e.markAdded) ∘ fwdSide p.elems
      = newSide p.elems := by
    funext e2
    simp only [Function.comp_apply, fwdSide, newSide, hasUID_eq]
    cases h : findUID e2.UID p.elems with
    | none => simp [h]
    | some e => simp [pairDiff_snd_UID, h]
  rw [this]
  simp only [POU.elems, rekey_map]

/-! ### Identity -/

theorem markPins_eq_self (d : Diff) (pins2 : List Pin) (i : Nat) (pins : List Pin)
    (h : ∀ j pin, pins[j]? = some pin → ∀ c ∈ pin.Connections, c.wire ∈ wiresAt pins2 (i + j)) :
    markPins d pins2 i pins = pins := by
  induction pins generalizing i with
  | nil => rfl
  | cons pin rest ih =>
    have h0 : pin.Connections.map (markConnection d pins2 i) = pin.Connections := by
      calc pin.Connections.map (markConnection d pins2 i)
          = pin.Connections.map id := List.map_congr_left fun c hc => by
            have hm : ¬ unmatched pins2 i c = true := by
              rw [unmatched_iff, not_not]
              exact h 0 pin (by simp) c hc
            simp [markConnection, hm]
        _ = pin.Connections := List.map_id _
    have h1 : markPins d pins2 (i + 1) rest = rest :=
      ih (i + 1) fun j pin2 hj c hc => by
        have := h (j + 1) pin2 (by simpa using hj) c hc
        rwa [show i + (j + 1) = i + 1 + j by omega] at this
    simp only [markPins, h0, h1]

theorem mem_wiresAt {pins : List Pin} {j : Nat} {pin : Pin} (hj : pins[j]? = some pin)
    {c : Connection} (hc : c ∈ pin.Connections) : c.wire ∈ wiresAt pins j := by
  simp only [wiresAt, hj, Pin.wires]
  exact List.mem_map_of_mem _ hc

theorem markWires_eq_self (d : Diff) {e e2 : Element} (h : e.shape = e2.shape) :
    e.markWires d e2 = e := by
  have hi : markPins d e2.Inputs 0 e.Inputs = e.Inputs :=
    markPins_eq_self d _ 0 _ fun j pin hj c hc => by
      rw [Nat.zero_add, ← wiresAt_of_shape (shape_inputs h) j]
      exact mem_wiresAt hj hc
  have ho : markPins d e2.Outputs 0 e.Outputs = e.Outputs :=
    markPins_eq_self d _ 0 _ fun j pin hj c hc => by
      rw [Nat.zero_add, ← wiresAt_of_shape (shape_outputs h) j]
      exact mem_wiresAt hj hc
  simp only [Element.markWires, hi, ho]

theorem labelPhase_eq_self {e e2 : Element} (h : e.shape = e2.shape) :
    labelPhase e e2 = (e, e2) := by
  simp only [Element.shape, Shape.mk.injEq] at h
  obtain ⟨-, h2, h3, h4, -, h6, -, -⟩ := h
  simp [labelPhase, markTop, markText, h2, h3, h4, h6]

theorem pairDiff_eq_self {e e2 : Element} (h : e.shape = e2.shape) : pairDiff e e2 = (e, e2) := by
  simp only [pairDiff, labelPhase_eq_self h, markWires_eq_self _ h, markWires_eq_self _ h.symm]

theorem nodup_elems_of_unique {p : POU} (h : p.UniqueIds) :
    (p.elems.map fun e => e.UID).Nodup := by
  simpa [POU.UniqueIds, POU.ids, POU.elems, List.map_map, Function.comp_def] using h

theorem mem_elems {p : POU} {kv : String × Element} (h : kv ∈ p.Elements) : kv.2 ∈ p.elems :=
  List.mem_map_of_mem _ h

theorem mem_shapes {p : POU} {kv : String × Element} (h : kv ∈ p.Elements) :
    kv.2.shape ∈ p.shapes :=
  List.mem_map.mpr ⟨kv, h, rfl⟩

theorem exists_of_mem_shapes {q : POU} {e : Element} (h : e.shape ∈ q.shapes) :
    ∃ e2 ∈ q.elems, e2.shape = e.shape := by
  simp only [POU.shapes, List.mem_map] at h
  obtain ⟨kv, hkv, hs⟩ := h
  exact ⟨kv.2, mem_elems hkv, hs⟩

theorem oldSide_eq_self {q : POU} (hq : q.UniqueIds) {e : Element} (h : e.shape ∈ q.shapes) :
    oldSide e q.elems = e := by
  obtain ⟨e2, he2, hs⟩ := exists_of_mem_shapes h
  have := findUID_of_mem (nodup_elems_of_unique hq) he2
  rw [shape_UID hs] at this
  simp only [oldSide, this, pairDiff_eq_self hs.symm]

theorem newSide_eq_self {p : POU} (hp : p.UniqueIds) {e2 : Element} (h : e2.shape ∈ p.shapes) :
    newSide p.elems e2 = e2 := by
  obtain ⟨e, he, hs⟩ := exists_of_mem_shapes h
  have := findUID_of_mem (nodup_elems_of_unique hp) he
  rw [shape_UID hs] at this
  simp only [newSide, this, pairDiff_eq_self hs]

theorem map_entries_eq_self (l : List (String × Element)) (f : Element → Element)
    (h : ∀ kv ∈ l, f kv.2 = kv.2) : (l.map fun kv => (kv.1, f kv.2)) = l := by
  calc (l.map fun kv => (kv.1, f kv.2)) = l.map id :=
        List.map_congr_left fun kv hkv => by simp [h kv hkv]
    _ = l := List.map_id l

theorem ids_of_shapes (p : POU) : p.ids = p.shapes.map fun s => s.UID := by
  simp [POU.ids, POU.shapes, List.map_map, Function.comp_def, Element.shape]

theorem CalculateDiff_identity (old copy : POU) (hu : old.UniqueIds)
    (hperm : copy.shapes.Perm old.shapes) : old.CalculateDiff copy = some (old, copy) := by
  have hc : copy.UniqueIds := by
    unfold POU.UniqueIds
    rw [ids_of_shapes]
    exact (hperm.map _).nodup_iff.mpr (by rw [← ids_of_shapes]; exact hu)
  have e1 := map_entries_eq_self old.Elements (fun e => oldSide e copy.elems) fun kv hkv =>
    oldSide_eq_self hc (hperm.symm.subset (mem_shapes hkv))
  have e2 := map_entries_eq_self copy.Elements (fun e => newSide old.elems e) fun kv hkv =>
    newSide_eq_self hu (hperm.subset (mem_shapes hkv))
  rw [CalculateDiff_unique old copy hu hc, e1, e2]

/-- C1 (identity). Two units with unique ids, all markers `Unchanged`, where the
structures of the elements of the copy (id, kind, label texts, pin lists, connection
targets) are those of the original up to visiting order: `CalculateDiff` returns,
it has changed nothing, and so every marker of both units is still `Unchanged`. -/
theorem identity_leaves_all_unchanged (old copy : POU) (hu : old.UniqueIds)
    (hperm : copy.shapes.Perm old.shapes)
    (h1 : old.AllMarked DiffUnchanged) (h2 : copy.AllMarked DiffUnchanged) :
    ∃ old1 copy1, old.CalculateDiff copy = some (old1, copy1) ∧
      old1 = old ∧ copy1 = copy ∧
      old1.AllMarked DiffUnchanged ∧ copy1.AllMarked DiffUnchanged :=
  ⟨old, copy, CalculateDiff_identity old copy hu hperm, rfl, rfl, h1, h2⟩

theorem identity_leaves_all_unchanged_witness :
    ∃ old1 copy1, sampleOld.CalculateDiff sampleCopy = some (old1, copy1) ∧
      old1 = sampleOld ∧ copy1 = sampleCopy ∧
      old1.AllMarked DiffUnchanged ∧ copy1.AllMarked DiffUnchanged :=
  identity_leaves_all_unchanged sampleOld sampleCopy (by decide) (by decide) (by decide)
    (by decide)

/-! ### Pure addition and pure deletion -/

theorem pinMarkers_markPin (d : Diff) (pins : List Pin) :
    ∀ m ∈ pinMarkers (pins.map (markPin d)), m = d := by
  induction pins with
  | nil => simp [pinMarkers]
  | cons pin rest ih =>
    intro m hm
    simp only [List.map_cons, pinMarkers, markPin, List.map_map, List.cons_append, List.mem_cons,
      List.mem_append, List.mem_map, Function.comp_apply] at hm
    rcases hm with h | ⟨c, -, h⟩ | h
    · exact h
    · exact h.symm
    · exact ih m h

theorem markAdded_allMarked (e : Element) : e.markAdded.AllMarked DiffAdded := by
  intro m hm
  simp only [Element.markers, Element.markAdded, Element.markAllLabelsAdded,
    Element.markAllConnectionsAdded, List.mem_cons, List.mem_append] at hm
  rcases hm with h | h | h | h | h | h | h
  · exact h
  · exact h
  · exact h
  · exact h
  · exact h
  · exact pinMarkers_markPin _ _ m h
  · exact pinMarkers_markPin _ _ m h

theorem markDeleted_allMarked (e : Element) : e.markDeleted.AllMarked DiffDeleted := by
  intro m hm
  simp only [Element.markers, Element.markDeleted, Element.markAllLabelsDeleted,
    Element.markAllConnectionsDeleted, List.mem_cons, List.mem_append] at hm
  rcases hm with h | h | h | h | h | h | h
  · exact h
  · exact h
  · exact h
  · exact h
  · exact h
  · exact pinMarkers_markPin _ _ m h
  · exact pinMarkers_markPin _ _ m h

theorem unique_of_perm_cons {p q : POU} {x : Shape} (hperm : q.shapes.Perm (x :: p.shapes))
    (hp : p.UniqueIds) (hx : x.UID ∉ p.ids) : q.UniqueIds := by
  unfold POU.UniqueIds
  rw [ids_of_shapes]
  refine (hperm.map _).nodup_iff.mpr ?_
  rw [List.map_cons, List.nodup_cons, ← ids_of_shapes]
  exact ⟨hx, hp⟩

theorem findUID_elems_none {p : POU} {uid : String} (h : uid ∉ p.ids) :
    findUID uid p.elems = none := by
  rw [findUID_none_iff]
  simpa [POU.ids, POU.elems, List.map_map, Function.comp_def] using h

/-- C2 (pure addition). The old unit has unique ids; the structures of the elements
of the new unit are those of the old unit plus one structure `x` whose id does not occur
in the old unit; all markers are `Unchanged`. Then `CalculateDiff` returns, the new
unit still holds an element of structure `x`, every marker of the element with the id
of `x` is `Added`, and every marker of every other element of the new unit and of every
element of the old unit is `Unchanged`. -/
theorem pure_addition (old new : POU) (x : Shape) (hu : old.UniqueIds)
    (hperm : new.shapes.Perm (x :: old.shapes)) (hx : x.UID ∉ old.ids)
    (h1 : old.AllMarked DiffUnchanged) (h2 : new.AllMarked DiffUnchanged) :
    ∃ old1 new1, old.CalculateDiff new = some (old1, new1) ∧
      (∃ kv ∈ new1.Elements, kv.2.shape = x) ∧
      (∀ kv ∈ new1.Elements, kv.2.UID = x.UID → kv.2.AllMarked DiffAdded) ∧
      (∀ kv ∈ new1.Elements, kv.2.UID ≠ x.UID → kv.2.AllMarked DiffUnchanged) ∧
      old1.AllMarked DiffUnchanged := by
  have hn : new.UniqueIds := unique_of_perm_cons hperm hu hx
  have e1 := map_entries_eq_self old.Elements (fun e => oldSide e new.elems) fun kv hkv =>
    oldSide_eq_self hn (hperm.symm.subset (List.mem_cons_of_mem _ (mem_shapes hkv)))
  have key : ∀ kv ∈ new.Elements,
      (kv.2.UID = x.UID → newSide old.elems kv.2 = kv.2.markAdded) ∧
      (kv.2.UID ≠ x.UID → newSide old.elems kv.2 = kv.2) := by
    intro kv hkv
    constructor
    · intro h
      simp only [newSide, findUID_elems_none (h ▸ hx)]
    · intro h
      rcases List.mem_cons.mp (hperm.subset (mem_shapes hkv)) with hs | hs
      · exact absurd (by rw [← hs]; rfl) h
      · exact newSide_eq_self hu hs
  refine ⟨_, _, CalculateDiff_unique old new hu hn, ?_, ?_, ?_, ?_⟩
  · obtain ⟨kv, hkv, hs⟩ := List.mem_map.mp (hperm.symm.subset (List.mem_cons_self x _))
    refine ⟨(kv.1, newSide old.elems kv.2), List.mem_map.mpr ⟨kv, hkv, rfl⟩, ?_⟩
    have hid : kv.2.UID = x.UID := by rw [← hs]; rfl
    simp only [(key kv hkv).1 hid, markAdded_shape, hs]
  · intro kv1 hkv1 hid
    obtain ⟨kv, hkv, rfl⟩ := List.mem_map.mp hkv1
    by_cases h : kv.2.UID = x.UID
    · simp only [(key kv hkv).1 h]
      exact markAdded_allMarked _
    · exact absurd (by simpa only [(key kv hkv).2 h] using hid) h
  · intro kv1 hkv1 hid
    obtain ⟨kv, hkv, rfl⟩ := List.mem_map.mp hkv1
    by_cases h : kv.2.UID = x.UID
    · exact absurd (by simp only [(key kv hkv).1 h]; exact (shape_UID (markAdded_shape _)).trans h) hid
    · simp only [(key kv hkv).2 h]
      exact h2 kv hkv
  · simp only [e1]
    exact h1

theorem pure_addition_witness :
    ∃ old1 new1, sampleShort.CalculateDiff sampleOld = some (old1, new1) ∧
      (∃ kv ∈ new1.Elements, kv.2.shape = sampleCoil.shape) ∧
      (∀ kv ∈ new1.Elements, kv.2.UID = sampleCoil.shape.UID → kv.2.AllMarked DiffAdded) ∧
      (∀ kv ∈ new1.Elements, kv.2.UID ≠ sampleCoil.shape.UID → kv.2.AllMarked DiffUnchanged) ∧
      old1.AllMarked DiffUnchanged :=
  pure_addition sampleShort sampleOld sampleCoil.shape (by decide) (by decide) (by decide)
    (by decide) (by decide)

/-- C3 (pure deletion). The new unit has unique ids; the structures of the elements
of the old unit are those of the new unit plus one structure `x` whose id does not occur
in the new unit; all markers of the new unit are `Unchanged` (those of the old unit may
be anything). Then `CalculateDiff` returns, the old unit still holds an element
of structure `x`, every marker of the element with the id of `x` is `Deleted` in the
old unit, and no marker of the new unit is `Added`. -/
theorem pure_deletion (old new : POU) (x : Shape) (hu : new.UniqueIds)
    (hperm : old.shapes.Perm (x :: new.shapes)) (hx : x.UID ∉ new.ids)
    (h2 : new.AllMarked DiffUnchanged) :
    ∃ old1 new1, old.CalculateDiff new = some (old1, new1) ∧
      (∃ kv ∈ old1.Elements, kv.2.shape = x) ∧
      (∀ kv ∈ old1.Elements, kv.2.UID = x.UID → kv.2.AllMarked DiffDeleted) ∧
      (∀ kv ∈ new1.Elements, DiffAdded ∉ kv.2.markers) := by
  have ho : old.UniqueIds := unique_of_perm_cons hperm hu hx
  have e2 := map_entries_eq_self new.Elements (fun e => newSide old.elems e) fun kv hkv =>
    newSide_eq_self ho (hperm.symm.subset (List.mem_cons_of_mem _ (mem_shapes hkv)))
  have key : ∀ kv ∈ old.Elements,
      kv.2.UID = x.UID → oldSide kv.2 new.elems = kv.2.markDeleted := by
    intro kv _ h
    simp only [oldSide, findUID_elems_none (h ▸ hx)]
  refine ⟨_, _, CalculateDiff_unique old new ho hu, ?_, ?_, ?_⟩
  · obtain ⟨kv, hkv, hs⟩ := List.mem_map.mp (hperm.symm.subset (List.mem_cons_self x _))
    refine ⟨(kv.1, oldSide kv.2 new.elems), List.mem_map.mpr ⟨kv, hkv, rfl⟩, ?_⟩
    simp only [oldSide_shape, hs]
  · intro kv1 hkv1 hid
    obtain ⟨kv, hkv, rfl⟩ := List.mem_map.mp hkv1
    have h : kv.2.UID = x.UID := (shape_UID (oldSide_shape kv.2 new.elems)).symm.trans hid
    simp only [key kv hkv h]
    exact markDeleted_allMarked _
  · simp only [e2]
    intro kv hkv hmem
    exact absurd (h2 kv hkv _ hmem) (by decide)

theorem pure_deletion_witness :
    ∃ old1 new1, sampleOld.CalculateDiff sampleShort = some (old1, new1) ∧
      (∃ kv ∈ old1.Elements, kv.2.shape = sampleCoil.shape) ∧
      (∀ kv ∈ old1.Elements, kv.2.UID = sampleCoil.shape.UID → kv.2.AllMarked DiffDeleted) ∧
      (∀ kv ∈ new1.Elements, DiffAdded ∉ kv.2.markers) :=
  pure_deletion sampleOld sampleShort sampleCoil.shape (by decide) (by decide) (by decide)
    (by decide)

/-! ### The cascades of the two passes -/

theorem mem_pinMarkers_iff (pins : List Pin) (m : Diff) :
    m ∈ pinMarkers pins ↔ ∃ pin ∈ pins, m = pin.Label.Diff ∨ ∃ c ∈ pin.Connections, m = c.Diff := by
  induction pins with
  | nil => simp [pinMarkers]
  | cons pin rest ih =>
    simp only [pinMarkers, List.cons_append, List.mem_cons, List.mem_append, List.mem_map, ih]
    constructor
    · rintro (h | ⟨c, hc, h⟩ | ⟨pin2, hp, h⟩)
      · exact ⟨pin, Or.inl rfl, Or.inl h⟩
      · exact ⟨pin, Or.inl rfl, Or.inr ⟨c, hc, h.symm⟩⟩
      · exact ⟨pin2, Or.inr hp, h⟩
    · rintro ⟨pin2, rfl | hp, h⟩
      · rcases h with h | ⟨c, hc, h⟩
        · exact Or.inl h
        · exact Or.inr (Or.inl ⟨c, hc, h.symm⟩)
      · exact Or.inr (Or.inr ⟨pin2, hp, h⟩)

theorem allMarked_iff (d : Diff) (e : Element) :
    e.AllMarked d ↔
      e.Diff = d ∧ e.ElementText.Diff = d ∧ e.TopLabel.Diff = d ∧ e.BottomLabel.Diff = d ∧
      e.BlockLabel.Diff = d ∧
      (∀ pin ∈ e.Inputs, pin.Label.Diff = d ∧ ∀ c ∈ pin.Connections, c.Diff = d) ∧
      (∀ pin ∈ e.Outputs, pin.Label.Diff = d ∧ ∀ c ∈ pin.Connections, c.Diff = d) := by
  unfold Element.AllMarked Element.markers
  simp only [List.mem_cons, List.mem_append, mem_pinMarkers_iff]
  constructor
  · intro h
    refine ⟨h _ (Or.inl rfl), h _ (Or.inr (Or.inl rfl)), h _ (Or.inr (Or.inr (Or.inl rfl))),
      h _ (Or.inr (Or.inr (Or.inr (Or.inl rfl)))),
      h _ (Or.inr (Or.inr (Or.inr (Or.inr (Or.inl rfl))))), ?_, ?_⟩
    · intro pin hp
      exact ⟨h _ (Or.inr (Or.inr (Or.inr (Or.inr (Or.inr (Or.inl ⟨pin, hp, Or.inl rfl⟩)))))),
        fun c hc =>
          h _ (Or.inr (Or.inr (Or.inr (Or.inr (Or.inr (Or.inl ⟨pin, hp, Or.inr ⟨c, hc, rfl⟩⟩))))))⟩
    · intro pin hp
      exact ⟨h _ (Or.inr (Or.inr (Or.inr (Or.inr (Or.inr (Or.inr ⟨pin, hp, Or.inl rfl⟩)))))),
        fun c hc =>
          h _ (Or.inr (Or.inr (Or.inr (Or.inr (Or.inr (Or.inr ⟨pin, hp, Or.inr ⟨c, hc, rfl⟩⟩))))))⟩
  · rintro ⟨h1, h2, h3, h4, h5, h6, h7⟩ m
      (rfl | rfl | rfl | rfl | rfl | ⟨pin, hp, rfl | ⟨c, hc, rfl⟩⟩ | ⟨pin, hp, rfl | ⟨c, hc, rfl⟩⟩)
    · exact h1
    · exact h2
    · exact h3
    · exact h4
    · exact h5
    · exact (h6 pin hp).1
    · exact (h6 pin hp).2 c hc
    · exact (h7 pin hp).1
    · exact (h7 pin hp).2 c hc

theorem rekey_getElem? {kvs : List (String × Element)} {es : List Element} {j : Nat}
    {k : String} {e e1 : Element} (h1 : kvs[j]? = some (k, e)) (h2 : es[j]? = some e1) :
    (rekey kvs es)[j]? = some (k, e1) := by
  induction kvs generalizing es j with
  | nil => simp at h1
  | cons kv t ih =>
    cases es with
    | nil => simp at h2
    | cons a es =>
      cases j with
      | zero =>
        simp only [List.getElem?_cons_zero, Option.some.injEq] at h1 h2
        simp [rekey, h1, h2]
      | succ j =>
        simp only [List.getElem?_cons_succ] at h1 h2
        simpa [rekey] using ih h1 h2

theorem touch_getElem?_of_ne (elem : Element) {news : List Element} {j : Nat} {e2 : Element}
    (hj : news[j]? = some e2) (hne : elem.UID ≠ e2.UID) : (touch elem news)[j]? = some e2 := by
  induction news generalizing j with
  | nil => simp at hj
  | cons a t ih =>
    cases j with
    | zero =>
      simp only [List.getElem?_cons_zero, Option.some.injEq] at hj
      subst hj
      simp [touch, hne]
    | succ j =>
      simp only [List.getElem?_cons_succ] at hj
      by_cases h : elem.UID = a.UID
      · simp [touch, h, hj]
      · simp [touch, h, ih hj]

theorem outerNews_getElem?_of_not_mem {olds news : List Element} {j : Nat} {e2 : Element}
    (hj : news[j]? = some e2) (hno : ∀ e ∈ olds, e.UID ≠ e2.UID) :
    (outerNews olds news)[j]? = some e2 := by
  induction olds generalizing news with
  | nil => exact hj
  | cons e rest ih =>
    rw [outerNews]
    exact ih (touch_getElem?_of_ne e hj (hno e (List.mem_cons_self _ _)))
      fun a ha => hno a (List.mem_cons_of_mem _ ha)

theorem elems_getElem? {p : POU} {i : Nat} {k : String} {e : Element}
    (h : p.Elements[i]? = some (k, e)) : p.elems[i]? = some e := by
  simp [POU.elems, List.getElem?_map, h]

/-- C4 (layer 0, deletion cascade). For any two units and any element of the old
unit (entry `i`, key `k`) whose id is carried by no element of the new unit:
`CalculateDiff` returns and afterwards entry `i` of the old unit holds, under the same
key, an element of the same structure whose own marker, four label markers, pin label
markers and connection markers on all input and output pins are `Deleted`. -/
theorem deletion_cascade (p q : POU) (i : Nat) (k : String) (e : Element)
    (hi : p.Elements[i]? = some (k, e)) (hno : ∀ kv ∈ q.Elements, kv.2.UID ≠ e.UID) :
    ∃ p1 q1 e1, p.CalculateDiff q = some (p1, q1) ∧ p1.Elements[i]? = some (k, e1) ∧
      e1.shape = e.shape ∧
      e1.Diff = DiffDeleted ∧ e1.ElementText.Diff = DiffDeleted ∧
      e1.TopLabel.Diff = DiffDeleted ∧ e1.BottomLabel.Diff = DiffDeleted ∧
      e1.BlockLabel.Diff = DiffDeleted ∧
      (∀ pin ∈ e1.Inputs, pin.Label.Diff = DiffDeleted ∧
        ∀ c ∈ pin.Connections, c.Diff = DiffDeleted) ∧
      (∀ pin ∈ e1.Outputs, pin.Label.Diff = DiffDeleted ∧
        ∀ c ∈ pin.Connections, c.Diff = DiffDeleted) := by
  have hnone : findUID e.UID q.elems = none := by
    rw [findUID_none_iff]
    simp only [POU.elems, List.map_map, List.mem_map, Function.comp_apply, not_exists, not_and]
    intro kv hkv h
    exact hno kv hkv h
  refine ⟨_, _, e.markDeleted, CalculateDiff_eq p q, ?_, markDeleted_shape e,
    (allMarked_iff _ _).mp (markDeleted_allMarked e)⟩
  simp [List.getElem?_map, hi, oldSide, hnone]

theorem deletion_cascade_witness :
    ∃ p1 q1 e1, sampleOld.CalculateDiff sampleShort = some (p1, q1) ∧
      p1.Elements[2]? = some ("3", e1) ∧
      e1.shape = sampleCoil.shape ∧
      e1.Diff = DiffDeleted ∧ e1.ElementText.Diff = DiffDeleted ∧
      e1.TopLabel.Diff = DiffDeleted ∧ e1.BottomLabel.Diff = DiffDeleted ∧
      e1.BlockLabel.Diff = DiffDeleted ∧
      (∀ pin ∈ e1.Inputs, pin.Label.Diff = DiffDeleted ∧
        ∀ c ∈ pin.Connections, c.Diff = DiffDeleted) ∧
      (∀ pin ∈ e1.Outputs, pin.Label.Diff = DiffDeleted ∧
        ∀ c ∈ pin.Connections, c.Diff = DiffDeleted) :=
  deletion_cascade sampleOld sampleShort 2 "3" sampleCoil (by decide) (by decide)

theorem getElem?_of_shapes_eq {l l2 : List Element} (h : l.map Element.shape = l2.map Element.shape)
    {j : Nat} {e : Element} (hj : l2[j]? = some e) : ∃ e1, l[j]? = some e1 ∧ e1.shape = e.shape := by
  have h2 : (l.map Element.shape)[j]? = (l2.map Element.shape)[j]? := by rw [h]
  simp only [List.getElem?_map, hj, Option.map_some'] at h2
  cases h3 : l[j]? with
  | none => simp [h3] at h2
  | some e1 =>
    simp only [h3, Option.map_some', Option.some.injEq] at h2
    exact ⟨e1, rfl, h2⟩

/-- C5 (symmetric pass). For any two units and any element of the new unit (entry
`j`, key `k`) whose id is carried by no element of the old unit: `CalculateDiff`
returns and afterwards entry `j` of the new unit holds, under the same key, an element
of the same structure whose own marker, four label markers, pin label markers and
connection markers on all pins are `Added`. Moreover every entry of the new unit whose
id is carried by some element of the old unit holds after `CalculateDiff` exactly the
element that the loop `outer` left there: the second pass does not touch it. -/
theorem addition_cascade (p q : POU) (j : Nat) (k : String) (e2 : Element)
    (hj : q.Elements[j]? = some (k, e2)) (hno : ∀ kv ∈ p.Elements, kv.2.UID ≠ e2.UID) :
    ∃ p1 q1 olds1 news1 e21, p.CalculateDiff q = some (p1, q1) ∧
      outerLoop p.elems q.elems = some (olds1, news1) ∧
      q1.Elements[j]? = some (k, e21) ∧ e21.shape = e2.shape ∧
      e21.Diff = DiffAdded ∧ e21.ElementText.Diff = DiffAdded ∧
      e21.TopLabel.Diff = DiffAdded ∧ e21.BottomLabel.Diff = DiffAdded ∧
      e21.BlockLabel.Diff = DiffAdded ∧
      (∀ pin ∈ e21.Inputs, pin.Label.Diff = DiffAdded ∧
        ∀ c ∈ pin.Connections, c.Diff = DiffAdded) ∧
      (∀ pin ∈ e21.Outputs, pin.Label.Diff = DiffAdded ∧
        ∀ c ∈ pin.Connections, c.Diff = DiffAdded) ∧
      (∀ (j2 : Nat) (k2 : String) (e3 : Element), q.Elements[j2]? = some (k2, e3) →
        (∃ kv ∈ p.Elements, kv.2.UID = e3.UID) →
        ∃ e4, news1[j2]? = some e4 ∧ q1.Elements[j2]? = some (k2, e4)) := by
  have hno2 : ∀ e ∈ p.elems, e.UID ≠ e2.UID := by
    intro e he
    obtain ⟨kv, hkv, rfl⟩ := List.mem_map.mp he
    exact hno kv hkv
  have hnot : hasUID e2.UID p.elems = false := by
    rw [← Bool.not_eq_true, hasUID_iff]
    simp only [List.mem_map, not_exists, not_and]
    intro e he h
    exact hno2 e he h
  have h1 := outerNews_getElem?_of_not_mem (elems_getElem? hj) hno2
  refine ⟨_, _, _, _, e2.markAdded, CalculateDiff_eq p q, outerLoop_eq _ _, ?_, markAdded_shape e2,
    ?_⟩
  · exact rekey_getElem? hj (by simp [List.getElem?_map, h1, hnot])
  · obtain ⟨a1, a2, a3, a4, a5, a6, a7⟩ := (allMarked_iff _ _).mp (markAdded_allMarked e2)
    refine ⟨a1, a2, a3, a4, a5, a6, a7, ?_⟩
    intro j2 k2 e3 hj2 ⟨kv, hkv, hid⟩
    obtain ⟨e4, he4, hs⟩ :=
      getElem?_of_shapes_eq (outerNews_shape p.elems q.elems) (elems_getElem? hj2)
    have hyes : hasUID e4.UID p.elems = true := by
      rw [hasUID_iff, shape_UID hs, ← hid]
      exact List.mem_map.mpr ⟨kv.2, mem_elems hkv, rfl⟩
    exact ⟨e4, he4, rekey_getElem? hj2 (by simp [List.getElem?_map, he4, hyes])⟩

theorem addition_cascade_witness :
    ∃ p1 q1 olds1 news1 e21, sampleShort.CalculateDiff sampleOld = some (p1, q1) ∧
      outerLoop sampleShort.elems sampleOld.elems = some (olds1, news1) ∧
      q1.Elements[2]? = some ("3", e21) ∧ e21.shape = sampleCoil.shape ∧
      e21.Diff = DiffAdded ∧ e21.ElementText.Diff = DiffAdded ∧
      e21.TopLabel.Diff = DiffAdded ∧ e21.BottomLabel.Diff = DiffAdded ∧
      e21.BlockLabel.Diff = DiffAdded ∧
      (∀ pin ∈ e21.Inputs, pin.Label.Diff = DiffAdded ∧
        ∀ c ∈ pin.Connections, c.Diff = DiffAdded) ∧
      (∀ pin ∈ e21.Outputs, pin.Label.Diff = DiffAdded ∧
        ∀ c ∈ pin.Connections, c.Diff = DiffAdded) ∧
      (∀ (j2 : Nat) (k2 : String) (e3 : Element), sampleOld.Elements[j2]? = some (k2, e3) →
        (∃ kv ∈ sampleShort.Elements, kv.2.UID = e3.UID) →
        ∃ e4, news1[j2]? = some e4 ∧ q1.Elements[j2]? = some (k2, e4)) :=
  addition_cascade sampleShort sampleOld 2 "3" sampleCoil (by decide) (by decide)

/-! ### A matched pair inside two units with unique ids -/

theorem mem_of_getElem?_entry {p : POU} {i : Nat} {k : String} {e : Element}
    (h : p.Elements[i]? = some (k, e)) : e ∈ p.elems :=
  List.mem_map.mpr ⟨(k, e), List.getElem?_mem h, rfl⟩

theorem CalculateDiff_pair (p q : POU) (hp : p.UniqueIds) (hq : q.UniqueIds) {i j : Nat}
    {k k2 : String} {e e2 : Element} (hi : p.Elements[i]? = some (k, e))
    (hj : q.Elements[j]? = some (k2, e2)) (hid : e.UID = e2.UID) :
    ∃ p1 q1, p.CalculateDiff q = some (p1, q1) ∧
      p1.Elements[i]? = some (k, (pairDiff e e2).1) ∧
      q1.Elements[j]? = some (k2, (pairDiff e e2).2) := by
  have h1 : findUID e.UID q.elems = some e2 := by
    rw [hid]
    exact findUID_of_mem (nodup_elems_of_unique hq) (mem_of_getElem?_entry hj)
  have h2 : findUID e2.UID p.elems = some e := by
    rw [← hid]
    exact findUID_of_mem (nodup_elems_of_unique hp) (mem_of_getElem?_entry hi)
  refine ⟨_, _, CalculateDiff_unique p q hp hq, ?_, ?_⟩
  · simp [List.getElem?_map, hi, oldSide, h1]
  · simp [List.getElem?_map, hj, newSide, h2]

theorem markTop_pins (e e2 : Element) (out : Bool) :
    (markTop e e2).1.pins out = e.pins out ∧ (markTop e e2).2.pins out = e2.pins out := by
  unfold markTop
  split_ifs <;> exact ⟨rfl, rfl⟩

theorem markText_pins (e e2 : Element) (out : Bool) :
    (markText e e2).1.pins out = e.pins out ∧ (markText e e2).2.pins out = e2.pins out := by
  unfold markText
  split_ifs <;> exact ⟨rfl, rfl⟩

theorem labelPhase_pins (e e2 : Element) (out : Bool) :
    (labelPhase e e2).1.pins out = e.pins out ∧ (labelPhase e e2).2.pins out = e2.pins out := by
  unfold labelPhase
  split_ifs
  · exact markTop_pins e e2 out
  · exact ⟨rfl, rfl⟩
  · exact ⟨(markText_pins _ _ out).1.trans (markTop_pins e e2 out).1,
      (markText_pins _ _ out).2.trans (markTop_pins e e2 out).2⟩

theorem markWires_pins (d : Diff) (e other : Element) (out : Bool) :
    (e.markWires d other).pins out = markPins d (other.pins out) 0 (e.pins out) := by
  cases out <;> rfl

theorem pairDiff_fst_pins (e e2 : Element) (out : Bool) :
    (pairDiff e e2).1.pins out = markPins DiffDeleted (e2.pins out) 0 (e.pins out) := by
  simp only [pairDiff, markWires_pins, labelPhase_pins]

theorem pairDiff_snd_pins (e e2 : Element) (out : Bool) :
    (pairDiff e e2).2.pins out = markPins DiffAdded (e.pins out) 0 (e2.pins out) := by
  simp only [pairDiff, markWires_pins, labelPhase_pins]

theorem connAt_markPins (d : Diff) (pins2 pins : List Pin) (n m : Nat) :
    connAt (markPins d pins2 0 pins) n m = (connAt pins n m).map (markConnection d pins2 n) := by
  unfold connAt
  rw [markPins_getElem?]
  cases pins[n]? with
  | none => rfl
  | some pin => simp [List.getElem?_map]

theorem markConnection_of_not_mem (d : Diff) {pins2 : List Pin} {n : Nat} {c : Connection}
    (h : c.wire ∉ wiresAt pins2 n) : (markConnection d pins2 n c).Diff = d := by
  simp [markConnection, (unmatched_iff pins2 n c).mpr h]

theorem markConnection_of_mem (d : Diff) {pins2 : List Pin} {n : Nat} {c : Connection}
    (h : c.wire ∈ wiresAt pins2 n) : markConnection d pins2 n c = c := by
  have : ¬ unmatched pins2 n c = true := by rw [unmatched_iff, not_not]; exact h
  simp [markConnection, this]

theorem markerAt_markPins_of_not_mem (d : Diff) {pins2 pins : List Pin} {n m : Nat}
    {c : Connection} (hc : connAt pins n m = some c) (h : c.wire ∉ wiresAt pins2 n) :
    markerAt (markPins d pins2 0 pins) n m = some d := by
  simp [markerAt, connAt_markPins, hc, markConnection_of_not_mem d h]

theorem markerAt_markPins_of_mem (d : Diff) {pins2 pins : List Pin} {n m : Nat}
    {c : Connection} (hc : connAt pins n m = some c) (h : c.wire ∈ wiresAt pins2 n) :
    markerAt (markPins d pins2 0 pins) n m = some c.Diff := by
  simp [markerAt, connAt_markPins, hc, markConnection_of_mem d h]

/-! ### Block type replace -/

theorem labelPhase_replace {e e2 : Element} (hb : e.Type_ = "block") (hb2 : e2.Type_ = "block")
    (hne : e.BlockLabel.Value ≠ e2.BlockLabel.Value) :
    labelPhase e e2 = ({ e with Diff := DiffDeleted }, { e2 with Diff := DiffAdded }) := by
  simp [labelPhase, hb, hb2, hne]

/-- C6 (block type replace). Two units with unique ids, an element `e` of the old
one and an element `e2` of the new one with the same id, both of kind `block`, whose
block type names differ. `CalculateDiff` returns; afterwards the element-level marker
of the old element is `Deleted` and that of the new one `Added`; the two elements are
exactly what `connectionsDiff` returns for the pair with these two markers set; and so
every connection of the old element whose `(TargetRef, TargetLabel)` occurs on no
connection of the new pin with the same index (or which sits on a pin the new element
lacks) is `Deleted`, and symmetrically for the new element with `Added`. -/
theorem block_type_replace (p q : POU) (hp : p.UniqueIds) (hq : q.UniqueIds) (i j : Nat)
    (k k2 : String) (e e2 : Element) (hi : p.Elements[i]? = some (k, e))
    (hj : q.Elements[j]? = some (k2, e2)) (hid : e.UID = e2.UID)
    (hb : e.Type_ = "block") (hb2 : e2.Type_ = "block")
    (hne : e.BlockLabel.Value ≠ e2.BlockLabel.Value) :
    ∃ p1 q1 e1 e21, p.CalculateDiff q = some (p1, q1) ∧
      p1.Elements[i]? = some (k, e1) ∧ q1.Elements[j]? = some (k2, e21) ∧
      e1.Diff = DiffDeleted ∧ e21.Diff = DiffAdded ∧
      Element.connectionsDiff { e with Diff := DiffDeleted } { e2 with Diff := DiffAdded }
        = some (e1, e21) ∧
      (∀ (out : Bool) (n m : Nat) (c : Connection), connAt (e.pins out) n m = some c →
        c.wire ∉ wiresAt (e2.pins out) n → markerAt (e1.pins out) n m = some DiffDeleted) ∧
      (∀ (out : Bool) (n m : Nat) (c : Connection), connAt (e2.pins out) n m = some c →
        c.wire ∉ wiresAt (e.pins out) n → markerAt (e21.pins out) n m = some DiffAdded) := by
  obtain ⟨p1, q1, h, h1, h2⟩ := CalculateDiff_pair p q hp hq hi hj hid
  refine ⟨p1, q1, _, _, h, h1, h2, ?_, ?_, ?_, ?_, ?_⟩
  · simp only [pairDiff, labelPhase_replace hb hb2 hne, Element.markWires]
  · simp only [pairDiff, labelPhase_replace hb hb2 hne, Element.markWires]
  · simp only [connectionsDiff_eq, pairDiff, labelPhase_replace hb hb2 hne]
  · intro out n m c hc hno
    rw [pairDiff_fst_pins]
    exact markerAt_markPins_of_not_mem _ hc hno
  · intro out n m c hc hno
    rw [pairDiff_snd_pins]
    exact markerAt_markPins_of_not_mem _ hc hno

theorem block_type_replace_witness :
    ∃ p1 q1 e1 e21, sampleTimed.CalculateDiff sampleRetyped = some (p1, q1) ∧
      p1.Elements[2]? = some ("4", e1) ∧ q1.Elements[0]? = some ("4", e21) ∧
      e1.Diff = DiffDeleted ∧ e21.Diff = DiffAdded ∧
      Element.connectionsDiff { sampleTimer with Diff := DiffDeleted }
        { sampleTimerRetyped with Diff := DiffAdded } = some (e1, e21) ∧
      (∀ (out : Bool) (n m : Nat) (c : Connection),
        connAt (sampleTimer.pins out) n m = some c →
        c.wire ∉ wiresAt (sampleTimerRetyped.pins out) n →
        markerAt (e1.pins out) n m = some DiffDeleted) ∧
      (∀ (out : Bool) (n m : Nat) (c : Connection),
        connAt (sampleTimerRetyped.pins out) n m = some c →
        c.wire ∉ wiresAt (sampleTimer.pins out) n →
        markerAt (e21.pins out) n m = some DiffAdded) :=
  block_type_replace sampleTimed sampleRetyped (by decide) (by decide) 2 0 "4" "4" sampleTimer
    sampleTimerRetyped (by decide) (by decide) (by decide) (by decide) (by decide) (by decide)

/-! ### Label-only change -/

theorem wiresAt_of_wires {pins pins2 : List Pin} (h : pins.map Pin.wires = pins2.map Pin.wires)
    (i : Nat) : wiresAt pins i = wiresAt pins2 i := by
  have h2 : (pins.map Pin.wires)[i]? = (pins2.map Pin.wires)[i]? := by rw [h]
  simp only [List.getElem?_map] at h2
  unfold wiresAt
  cases h3 : pins[i]? <;> cases h4 : pins2[i]? <;> simp_all

theorem markPins_eq_self_of_wires (d : Diff) {pins pins2 : List Pin}
    (h : pins.map Pin.wires = pins2.map Pin.wires) : markPins d pins2 0 pins = pins :=
  markPins_eq_self d _ 0 _ fun j pin hj c hc => by
    rw [Nat.zero_add, ← wiresAt_of_wires h j]
    exact mem_wiresAt hj hc

theorem pins_wires_eq {e e2 : Element} (hin : e.Inputs.map Pin.wires = e2.Inputs.map Pin.wires)
    (hout : e.Outputs.map Pin.wires = e2.Outputs.map Pin.wires) (out : Bool) :
    (e.pins out).map Pin.wires = (e2.pins out).map Pin.wires := by
  cases out
  · exact hin
  · exact hout

theorem mem_pins_unchanged {e : Element} (hf : e.AllMarked DiffUnchanged) (out : Bool) :
    ∀ pin ∈ e.pins out, ∀ c ∈ pin.Connections, c.Diff = DiffUnchanged := by
  obtain ⟨-, -, -, -, -, h6, h7⟩ := (allMarked_iff _ _).mp hf
  cases out
  · exact fun pin hp => (h6 pin hp).2
  · exact fun pin hp => (h7 pin hp).2

theorem markWires_top (d : Diff) (e other : Element) :
    (e.markWires d other).TopLabel = e.TopLabel := rfl

theorem labelPhase_top {e e2 : Element} (htop : e.TopLabel.Value ≠ e2.TopLabel.Value)
    (hblk : ¬ (e.Type_ = e2.Type_ ∧ e.Type_ = "block" ∧
      e.BlockLabel.Value ≠ e2.BlockLabel.Value)) :
    (labelPhase e e2).1.TopLabel.Diff = DiffDeleted ∧
      (labelPhase e e2).2.TopLabel.Diff = DiffAdded := by
  unfold labelPhase markText markTop
  simp only [htop, ne_eq, not_false_eq_true, if_true]
  split_ifs with h1 h2 h3
  · exact ⟨rfl, rfl⟩
  · exact absurd ⟨h1.1, h1.2, h2⟩ hblk
  · exact ⟨rfl, rfl⟩
  · exact ⟨rfl, rfl⟩

/-- C7, as stated, fails: two timer blocks with the same id, the same kind and the
same connections but different instance names keep `Unchanged` top label markers when
their block type names differ too. -/
theorem label_only_change_counterexample :
    sampleTimer.UID = sampleTimerSwapped.UID ∧ sampleTimer.Type_ = sampleTimerSwapped.Type_ ∧
    sampleTimer.Inputs = sampleTimerSwapped.Inputs ∧
    sampleTimer.Outputs = sampleTimerSwapped.Outputs ∧
    sampleTimer.TopLabel.Value ≠ sampleTimerSwapped.TopLabel.Value ∧
    sampleTimed.UniqueIds ∧ sampleSwapped.UniqueIds ∧
    sampleTimed.AllMarked DiffUnchanged ∧ sampleSwapped.AllMarked DiffUnchanged ∧
    ∃ p1 q1 e1 e21, sampleTimed.CalculateDiff sampleSwapped = some (p1, q1) ∧
      p1.Elements[2]? = some ("4", e1) ∧ q1.Elements[2]? = some ("4", e21) ∧
      e1.TopLabel.Diff = DiffUnchanged ∧ e21.TopLabel.Diff = DiffUnchanged :=
  ⟨by decide, by decide, by decide, by decide, by decide, by decide, by decide, by decide,
    by decide, _, _, _, _, rfl, rfl, rfl, rfl, rfl⟩

/-- C7, amended (label-only change). Two units with unique ids, an element `e` of
the old one and an element `e2` of the new one with the same id, the same wires on every
pin, different top label texts, all markers `Unchanged`, and not both of kind `block`
with different block type names. `CalculateDiff` returns; afterwards the top label
marker of the old element is `Deleted`, that of the new element is `Added`, and every
connection marker of both elements is `Unchanged`. -/
theorem label_only_change (p q : POU) (hp : p.UniqueIds) (hq : q.UniqueIds) (i j : Nat)
    (k k2 : String) (e e2 : Element) (hi : p.Elements[i]? = some (k, e))
    (hj : q.Elements[j]? = some (k2, e2)) (hid : e.UID = e2.UID)
    (hin : e.Inputs.map Pin.wires = e2.Inputs.map Pin.wires)
    (hout : e.Outputs.map Pin.wires = e2.Outputs.map Pin.wires)
    (htop : e.TopLabel.Value ≠ e2.TopLabel.Value)
    (hblk : ¬ (e.Type_ = e2.Type_ ∧ e.Type_ = "block" ∧
      e.BlockLabel.Value ≠ e2.BlockLabel.Value))
    (hf : e.AllMarked DiffUnchanged) (hf2 : e2.AllMarked DiffUnchanged) :
    ∃ p1 q1 e1 e21, p.CalculateDiff q = some (p1, q1) ∧
      p1.Elements[i]? = some (k, e1) ∧ q1.Elements[j]? = some (k2, e21) ∧
      e1.TopLabel.Diff = DiffDeleted ∧ e21.TopLabel.Diff = DiffAdded ∧
      (∀ out, ∀ pin ∈ e1.pins out, ∀ c ∈ pin.Connections, c.Diff = DiffUnchanged) ∧
      (∀ out, ∀ pin ∈ e21.pins out, ∀ c ∈ pin.Connections, c.Diff = DiffUnchanged) := by
  obtain ⟨p1, q1, h, h1, h2⟩ := CalculateDiff_pair p q hp hq hi hj hid
  refine ⟨p1, q1, _, _, h, h1, h2, ?_, ?_, ?_, ?_⟩
  · simp only [pairDiff, markWires_top, (labelPhase_top htop hblk).1]
  · simp only [pairDiff, markWires_top, (labelPhase_top htop hblk).2]
  · intro out
    rw [pairDiff_fst_pins, markPins_eq_self_of_wires _ (pins_wires_eq hin hout out)]
    exact mem_pins_unchanged hf out
  · intro out
    rw [pairDiff_snd_pins, markPins_eq_self_of_wires _ (pins_wires_eq hin hout out).symm]
    exact mem_pins_unchanged hf2 out

theorem label_only_change_witness :
    ∃ p1 q1 e1 e21, sampleOld.CalculateDiff sampleRenamed = some (p1, q1) ∧
      p1.Elements[1]? = some ("2", e1) ∧ q1.Elements[2]? = some ("2", e21) ∧
      e1.TopLabel.Diff = DiffDeleted ∧ e21.TopLabel.Diff = DiffAdded ∧
      (∀ out, ∀ pin ∈ e1.pins out, ∀ c ∈ pin.Connections, c.Diff = DiffUnchanged) ∧
      (∀ out, ∀ pin ∈ e21.pins out, ∀ c ∈ pin.Connections, c.Diff = DiffUnchanged) :=
  label_only_change sampleOld sampleRenamed (by decide) (by decide) 1 2 "2" "2" sampleContact
    sampleContactRenamed (by decide) (by decide) (by decide) (by decide) (by decide) (by decide)
    (by decide) (by decide) (by decide)

/-! ### Connection rewire -/

theorem wiresAt_cons_succ (pin : Pin) (pins : List Pin) (j : Nat) :
    wiresAt (pin :: pins) (1 + j) = wiresAt pins j := by
  simp [wiresAt, Nat.add_comm 1 j]

theorem markPins_tail_eq_self (d : Diff) (pin2 : Pin) {pins pins2 : List Pin}
    (h : pins.map Pin.wires = pins2.map Pin.wires) :
    markPins d (pin2 :: pins2) 1 pins = pins :=
  markPins_eq_self d _ 1 _ fun j pin hj c hc => by
    rw [wiresAt_cons_succ, ← wiresAt_of_wires h j]
    exact mem_wiresAt hj hc

theorem markPins_rewired (d : Diff) {po po2 : Pin} {ro ro2 : List Pin} {c c2 : Connection}
    (hc : po.Connections = [c]) (hc2 : po2.Connections = [c2])
    (hne : c.TargetRef ≠ c2.TargetRef) (hro : ro.map Pin.wires = ro2.map Pin.wires) :
    markPins d (po2 :: ro2) 0 (po :: ro)
      = { po with Connections := [{ c with Diff := d }] } :: ro := by
  have hun : unmatched (po2 :: ro2) 0 c = true := by
    rw [unmatched_iff]
    simp only [wiresAt, List.getElem?_cons_zero, Pin.wires, hc2, List.map_cons, List.map_nil,
      List.mem_singleton, Connection.wire, Prod.mk.injEq, not_and]
    exact fun h => absurd h hne
  simp only [markPins, hc, List.map_cons, List.map_nil, markConnection, hun, if_true,
    Nat.zero_add, markPins_tail_eq_self d po2 hro]

theorem mem_inputs_unchanged {e : Element} (hf : e.AllMarked DiffUnchanged) :
    ∀ pin ∈ e.Inputs, ∀ c ∈ pin.Connections, c.Diff = DiffUnchanged :=
  mem_pins_unchanged hf false

theorem mem_outputs_unchanged {e : Element} (hf : e.AllMarked DiffUnchanged) :
    ∀ pin ∈ e.Outputs, ∀ c ∈ pin.Connections, c.Diff = DiffUnchanged :=
  mem_pins_unchanged hf true

/-- C8 (connection rewire). Two units with unique ids, an element `e` of the old
one and an element `e2` of the new one with the same id, all markers `Unchanged`, the
same wires on every input pin and on every output pin but the first, and on output pin 0
one connection each, `c` in the old and `c2` in the new element, with different
`TargetRef`. `CalculateDiff` returns; afterwards the connection on output pin 0 of the
old element is `Deleted`, the one of the new element is `Added`, and every connection on
every input pin and on every other output pin of both elements is `Unchanged`. -/
theorem connection_rewire (p q : POU) (hp : p.UniqueIds) (hq : q.UniqueIds) (i j : Nat)
    (k k2 : String) (e e2 : Element) (hi : p.Elements[i]? = some (k, e))
    (hj : q.Elements[j]? = some (k2, e2)) (hid : e.UID = e2.UID)
    (hin : e.Inputs.map Pin.wires = e2.Inputs.map Pin.wires)
    (po po2 : Pin) (ro ro2 : List Pin) (ho : e.Outputs = po :: ro) (ho2 : e2.Outputs = po2 :: ro2)
    (hro : ro.map Pin.wires = ro2.map Pin.wires)
    (c c2 : Connection) (hc : po.Connections = [c]) (hc2 : po2.Connections = [c2])
    (hne : c.TargetRef ≠ c2.TargetRef)
    (hf : e.AllMarked DiffUnchanged) (hf2 : e2.AllMarked DiffUnchanged) :
    ∃ p1 q1 e1 e21 po1 po21 ro1 ro21, p.CalculateDiff q = some (p1, q1) ∧
      p1.Elements[i]? = some (k, e1) ∧ q1.Elements[j]? = some (k2, e21) ∧
      e1.Outputs = po1 :: ro1 ∧ e21.Outputs = po21 :: ro21 ∧
      po1.Connections = [{ c with Diff := DiffDeleted }] ∧
      po21.Connections = [{ c2 with Diff := DiffAdded }] ∧
      (∀ pin ∈ e1.Inputs ++ ro1, ∀ c ∈ pin.Connections, c.Diff = DiffUnchanged) ∧
      (∀ pin ∈ e21.Inputs ++ ro21, ∀ c ∈ pin.Connections, c.Diff = DiffUnchanged) := by
  obtain ⟨p1, q1, h, h1, h2⟩ := CalculateDiff_pair p q hp hq hi hj hid
  have a1 : (pairDiff e e2).1.Outputs
      = { po with Connections := [{ c with Diff := DiffDeleted }] } :: ro := by
    have := pairDiff_fst_pins e e2 true
    simp only [Element.pins, if_true, ho, ho2] at this
    rw [this, markPins_rewired _ hc hc2 hne hro]
  have a2 : (pairDiff e e2).2.Outputs
      = { po2 with Connections := [{ c2 with Diff := DiffAdded }] } :: ro2 := by
    have := pairDiff_snd_pins e e2 true
    simp only [Element.pins, if_true, ho, ho2] at this
    rw [this, markPins_rewired _ hc2 hc (Ne.symm hne) hro.symm]
  have b1 : (pairDiff e e2).1.Inputs = e.Inputs := by
    have := pairDiff_fst_pins e e2 false
    simp only [Element.pins, Bool.false_eq_true, if_false] at this
    rw [this, markPins_eq_self_of_wires _ hin]
  have b2 : (pairDiff e e2).2.Inputs = e2.Inputs := by
    have := pairDiff_snd_pins e e2 false
    simp only [Element.pins, Bool.false_eq_true, if_false] at this
    rw [this, markPins_eq_self_of_wires _ hin.symm]
  refine ⟨p1, q1, _, _, _, _, _, _, h, h1, h2, a1, a2, rfl, rfl, ?_, ?_⟩
  · intro pin hpin
    rcases List.mem_append.mp hpin with hm | hm
    · exact mem_inputs_unchanged hf pin (b1 ▸ hm)
    · exact mem_outputs_unchanged hf pin (ho ▸ List.mem_cons_of_mem _ hm)
  · intro pin hpin
    rcases List.mem_append.mp hpin with hm | hm
    · exact mem_inputs_unchanged hf2 pin (b2 ▸ hm)
    · exact mem_outputs_unchanged hf2 pin (ho2 ▸ List.mem_cons_of_mem _ hm)

theorem connection_rewire_witness :
    ∃ p1 q1 e1 e21 po1 po21 ro1 ro21, sampleTimed.CalculateDiff sampleRewired = some (p1, q1) ∧
      p1.Elements[2]? = some ("4", e1) ∧ q1.Elements[0]? = some ("4", e21) ∧
      e1.Outputs = po1 :: ro1 ∧ e21.Outputs = po21 :: ro21 ∧
      po1.Connections = [{ ({ TargetRef := "3" } : Connection) with Diff := DiffDeleted }] ∧
      po21.Connections = [{ ({ TargetRef := "6" } : Connection) with Diff := DiffAdded }] ∧
      (∀ pin ∈ e1.Inputs ++ ro1, ∀ c ∈ pin.Connections, c.Diff = DiffUnchanged) ∧
      (∀ pin ∈ e21.Inputs ++ ro21, ∀ c ∈ pin.Connections, c.Diff = DiffUnchanged) :=
  connection_rewire sampleTimed sampleRewired (by decide) (by decide) 2 0 "4" "4" sampleTimer
    sampleTimerRewired (by decide) (by decide) (by decide) (by decide)
    { Label := { Value := "Q" }, Connections := [{ TargetRef := "3" }] }
    { Label := { Value := "Q" }, Connections := [{ TargetRef := "6" }] } [] []
    (by decide) (by decide) (by decide) { TargetRef := "3" } { TargetRef := "6" }
    (by decide) (by decide) (by decide) (by decide) (by decide)

/-! ### Pin-count shrink -/

theorem wiresAt_of_length_le {pins : List Pin} {n : Nat} (h : pins.length ≤ n) :
    wiresAt pins n = [] := by
  simp [wiresAt, List.getElem?_eq_none h]

theorem markPins_surplus (d : Diff) {pins2 pins : List Pin} {n : Nat} {pin : Pin}
    (hn : (markPins d pins2 0 pins)[n]? = some pin) (hlen : pins2.length ≤ n) :
    ∀ c ∈ pin.Connections, c.Diff = d := by
  rw [markPins_getElem?] at hn
  cases h : pins[n]? with
  | none => simp [h] at hn
  | some pin0 =>
    simp only [h, Option.map_some', Option.some.injEq, Nat.zero_add] at hn
    subst hn
    intro c hc
    obtain ⟨c0, -, rfl⟩ := List.mem_map.mp hc
    exact markConnection_of_not_mem d (by simp [wiresAt_of_length_le hlen])

/-- C9 (pin-count shrink). `connectionsDiff` returns for every pair of elements and
`CalculateDiff` for every pair of units: no slice access is out of range. For two units
with unique ids and elements `e` (old) and `e2` (new) with the same id, afterwards every
connection on an input pin of the old element whose index is at least the number of
input pins of the new element is `Deleted`, likewise for output pins, and every
connection on a pin of the new element whose index is at least the number of pins of
the old element on that side is `Added`. -/
theorem pin_count_shrink (p q : POU) (hp : p.UniqueIds) (hq : q.UniqueIds) (i j : Nat)
    (k k2 : String) (e e2 : Element) (hi : p.Elements[i]? = some (k, e))
    (hj : q.Elements[j]? = some (k2, e2)) (hid : e.UID = e2.UID) :
    (∀ a b : Element, ∃ r, a.connectionsDiff b = some r) ∧
    (∀ a b : POU, ∃ r, a.CalculateDiff b = some r) ∧
    ∃ p1 q1 e1 e21, p.CalculateDiff q = some (p1, q1) ∧
      p1.Elements[i]? = some (k, e1) ∧ q1.Elements[j]? = some (k2, e21) ∧
      e1.shape = e.shape ∧ e21.shape = e2.shape ∧
      (∀ (n : Nat) (pin : Pin), e1.Inputs[n]? = some pin → e2.Inputs.length ≤ n →
        ∀ c ∈ pin.Connections, c.Diff = DiffDeleted) ∧
      (∀ (n : Nat) (pin : Pin), e1.Outputs[n]? = some pin → e2.Outputs.length ≤ n →
        ∀ c ∈ pin.Connections, c.Diff = DiffDeleted) ∧
      (∀ (n : Nat) (pin : Pin), e21.Inputs[n]? = some pin → e.Inputs.length ≤ n →
        ∀ c ∈ pin.Connections, c.Diff = DiffAdded) ∧
      (∀ (n : Nat) (pin : Pin), e21.Outputs[n]? = some pin → e.Outputs.length ≤ n →
        ∀ c ∈ pin.Connections, c.Diff = DiffAdded) := by
  obtain ⟨p1, q1, h, h1, h2⟩ := CalculateDiff_pair p q hp hq hi hj hid
  refine ⟨fun a b => ⟨_, connectionsDiff_eq a b⟩, fun a b => ⟨_, CalculateDiff_eq a b⟩,
    p1, q1, _, _, h, h1, h2, pairDiff_fst_shape e e2, pairDiff_snd_shape e e2, ?_, ?_, ?_, ?_⟩
  · intro n pin hn hlen
    have := pairDiff_fst_pins e e2 false
    simp only [Element.pins, Bool.false_eq_true, if_false] at this
    rw [this] at hn
    exact markPins_surplus _ hn hlen
  · intro n pin hn hlen
    have := pairDiff_fst_pins e e2 true
    simp only [Element.pins, if_true] at this
    rw [this] at hn
    exact markPins_surplus _ hn hlen
  · intro n pin hn hlen
    have := pairDiff_snd_pins e e2 false
    simp only [Element.pins, Bool.false_eq_true, if_false] at this
    rw [this] at hn
    exact markPins_surplus _ hn hlen
  · intro n pin hn hlen
    have := pairDiff_snd_pins e e2 true
    simp only [Element.pins, if_true] at this
    rw [this] at hn
    exact markPins_surplus _ hn hlen

theorem pin_count_shrink_witness :
    (∀ a b : Element, ∃ r, a.connectionsDiff b = some r) ∧
    (∀ a b : POU, ∃ r, a.CalculateDiff b = some r) ∧
    ∃ p1 q1 e1 e21, sampleTimed.CalculateDiff sampleShrunk = some (p1, q1) ∧
      p1.Elements[2]? = some ("4", e1) ∧ q1.Elements[1]? = some ("4", e21) ∧
      e1.shape = sampleTimer.shape ∧ e21.shape = sampleTimerShrunk.shape ∧
      (∀ (n : Nat) (pin : Pin), e1.Inputs[n]? = some pin →
        sampleTimerShrunk.Inputs.length ≤ n → ∀ c ∈ pin.Connections, c.Diff = DiffDeleted) ∧
      (∀ (n : Nat) (pin : Pin), e1.Outputs[n]? = some pin →
        sampleTimerShrunk.Outputs.length ≤ n → ∀ c ∈ pin.Connections, c.Diff = DiffDeleted) ∧
      (∀ (n : Nat) (pin : Pin), e21.Inputs[n]? = some pin →
        sampleTimer.Inputs.length ≤ n → ∀ c ∈ pin.Connections, c.Diff = DiffAdded) ∧
      (∀ (n : Nat) (pin : Pin), e21.Outputs[n]? = some pin →
        sampleTimer.Outputs.length ≤ n → ∀ c ∈ pin.Connections, c.Diff = DiffAdded) :=
  pin_count_shrink sampleTimed sampleShrunk (by decide) (by decide) 2 1 "4" "4" sampleTimer
    sampleTimerShrunk (by decide) (by decide) (by decide)

/-! ### Routing points are invisible to the diff -/

theorem wiresAt_erase (pins : List Pin) (i : Nat) :
    wiresAt (pins.map Pin.eraseRouting) i = wiresAt pins i := by
  unfold wiresAt
  rw [List.getElem?_map]
  cases pins[i]? with
  | none => rfl
  | some pin =>
    simp [Pin.wires, Pin.eraseRouting, List.map_map, Function.comp_def, Connection.wire,
      Connection.eraseRouting]

theorem unmatched_erase (pins2 : List Pin) (i : Nat) (c : Connection) :
    unmatched (pins2.map Pin.eraseRouting) i c.eraseRouting = unmatched pins2 i c := by
  rw [Bool.eq_iff_iff, unmatched_iff, unmatched_iff, wiresAt_erase]
  rfl

theorem markConnection_erase (d : Diff) (pins2 : List Pin) (i : Nat) (c : Connection) :
    markConnection d (pins2.map Pin.eraseRouting) i c.eraseRouting
      = (markConnection d pins2 i c).eraseRouting := by
  unfold markConnection
  rw [unmatched_erase]
  split <;> rfl

theorem markPins_erase (d : Diff) (pins2 : List Pin) (i : Nat) (pins : List Pin) :
    markPins d (pins2.map Pin.eraseRouting) i (pins.map Pin.eraseRouting)
      = (markPins d pins2 i pins).map Pin.eraseRouting := by
  induction pins generalizing i with
  | nil => rfl
  | cons pin rest ih =>
    simp only [List.map_cons, markPins, ih, Pin.eraseRouting, List.map_map, List.cons.injEq,
      and_true, Pin.mk.injEq, true_and]
    apply List.map_congr_left
    intro c _
    exact markConnection_erase d pins2 i c

theorem markWires_erase (d : Diff) (e other : Element) :
    e.eraseRouting.markWires d other.eraseRouting = (e.markWires d other).eraseRouting := by
  simp only [Element.markWires, Element.eraseRouting, markPins_erase]

theorem markTop_erase (e e2 : Element) :
    markTop e.eraseRouting e2.eraseRouting
      = ((markTop e e2).1.eraseRouting, (markTop e e2).2.eraseRouting) := by
  unfold markTop
  simp only [Element.eraseRouting]
  split_ifs <;> rfl

theorem markText_erase (e e2 : Element) :
    markText e.eraseRouting e2.eraseRouting
      = ((markText e e2).1.eraseRouting, (markText e e2).2.eraseRouting) := by
  unfold markText
  simp only [Element.eraseRouting]
  split_ifs <;> rfl

theorem labelPhase_erase (e e2 : Element) :
    labelPhase e.eraseRouting e2.eraseRouting
      = ((labelPhase e e2).1.eraseRouting, (labelPhase e e2).2.eraseRouting) := by
  unfold labelPhase
  simp only [markTop_erase, markText_erase]
  simp only [Element.eraseRouting]
  split_ifs <;> rfl

theorem pairDiff_erase (e e2 : Element) :
    pairDiff e.eraseRouting e2.eraseRouting
      = ((pairDiff e e2).1.eraseRouting, (pairDiff e e2).2.eraseRouting) := by
  simp only [pairDiff, labelPhase_erase, markWires_erase]

theorem markPin_erase (d : Diff) (pin : Pin) :
    markPin d pin.eraseRouting = (markPin d pin).eraseRouting := by
  simp [markPin, Pin.eraseRouting, Connection.eraseRouting, Function.comp_def]

theorem markDeleted_erase (e : Element) :
    e.eraseRouting.markDeleted = e.markDeleted.eraseRouting := by
  simp [Element.markDeleted, Element.markAllLabelsDeleted, Element.markAllConnectionsDeleted,
    Element.eraseRouting, Function.comp_def, markPin_erase]

theorem markAdded_erase (e : Element) :
    e.eraseRouting.markAdded = e.markAdded.eraseRouting := by
  simp [Element.markAdded, Element.markAllLabelsAdded, Element.markAllConnectionsAdded,
    Element.eraseRouting, Function.comp_def, markPin_erase]

theorem findUID_erase (uid : String) (l : List Element) :
    findUID uid (l.map Element.eraseRouting) = (findUID uid l).map Element.eraseRouting := by
  induction l with
  | nil => rfl
  | cons a t ih =>
    by_cases h : uid = a.UID
    · simp [findUID, h, Element.eraseRouting]
    · have h2 : ¬ uid = a.eraseRouting.UID := h
      simp only [List.map_cons, findUID, h, h2, if_false, ih]

theorem oldSide_erase (e : Element) (l : List Element) :
    oldSide e.eraseRouting (l.map Element.eraseRouting) = (oldSide e l).eraseRouting := by
  unfold oldSide
  have : e.eraseRouting.UID = e.UID := rfl
  rw [this, findUID_erase]
  cases findUID e.UID l with
  | none => exact markDeleted_erase e
  | some e2 => simp only [Option.map_some', pairDiff_erase]

theorem touch_erase (e : Element) (l : List Element) :
    touch e.eraseRouting (l.map Element.eraseRouting) = (touch e l).map Element.eraseRouting := by
  induction l with
  | nil => rfl
  | cons a t ih =>
    have h1 : e.eraseRouting.UID = e.UID := rfl
    have h2 : a.eraseRouting.UID = a.UID := rfl
    by_cases h : e.UID = a.UID
    · simp only [List.map_cons, touch, h1, h2, h, if_true, pairDiff_erase]
    · simp only [List.map_cons, touch, h1, h2, h, if_false, ih]

theorem outerNews_erase (olds news : List Element) :
    outerNews (olds.map Element.eraseRouting) (news.map Element.eraseRouting)
      = (outerNews olds news).map Element.eraseRouting := by
  induction olds generalizing news with
  | nil => rfl
  | cons e rest ih => simp only [List.map_cons, outerNews, touch_erase, ih]

theorem hasUID_erase (uid : String) (l : List Element) :
    hasUID uid (l.map Element.eraseRouting) = hasUID uid l := by
  rw [hasUID_eq, hasUID_eq, findUID_erase]
  cases findUID uid l <;> rfl

theorem rekey_erase (kvs : List (String × Element)) (es : List Element) :
    rekey (kvs.map fun kv => (kv.1, kv.2.eraseRouting)) (es.map Element.eraseRouting)
      = (rekey kvs es).map fun kv => (kv.1, kv.2.eraseRouting) := by
  induction kvs generalizing es with
  | nil => cases es <;> rfl
  | cons kv t ih =>
    cases es with
    | nil => rfl
    | cons a es => simp only [List.map_cons, rekey, ih]

theorem elems_erase (p : POU) : p.eraseRouting.elems = p.elems.map Element.eraseRouting := by
  simp [POU.elems, POU.eraseRouting, List.map_map, Function.comp_def]

theorem CalculateDiff_erase (p q : POU) :
    p.eraseRouting.CalculateDiff q.eraseRouting
      = (p.CalculateDiff q).map fun r => (r.1.eraseRouting, r.2.eraseRouting) := by
  rw [CalculateDiff_eq, CalculateDiff_eq]
  simp only [Option.map_some', elems_erase, outerNews_erase, hasUID_erase]
  have hold : (p.eraseRouting.Elements.map fun kv =>
        (kv.1, oldSide kv.2 (q.elems.map Element.eraseRouting)))
      = (p.Elements.map fun kv => (kv.1, oldSide kv.2 q.elems)).map
        fun kv => (kv.1, kv.2.eraseRouting) := by
    simp only [POU.eraseRouting, List.map_map, Function.comp_def, oldSide_erase]
  have hmap : ((outerNews p.elems q.elems).map Element.eraseRouting).map
        (fun e => if hasUID e.UID p.elems then e else e.markAdded)
      = ((outerNews p.elems q.elems).map
        (fun e => if hasUID e.UID p.elems then e else e.markAdded)).map Element.eraseRouting := by
    rw [List.map_map, List.map_map]
    apply List.map_congr_left
    intro e _
    have h1 : e.eraseRouting.UID = e.UID := rfl
    simp only [Function.comp_apply, h1]
    split
    · rfl
    · exact markAdded_erase e
  rw [hmap, hold]
  simp only [POU.eraseRouting, rekey_erase]

theorem pinMarkers_erase (pins : List Pin) :
    pinMarkers (pins.map Pin.eraseRouting) = pinMarkers pins := by
  induction pins with
  | nil => rfl
  | cons pin rest ih =>
    simp [pinMarkers, ih, Pin.eraseRouting, Connection.eraseRouting, Function.comp_def]

theorem markers_erase (e : Element) : e.eraseRouting.markers = e.markers := by
  simp [Element.markers, Element.eraseRouting, pinMarkers_erase]

theorem POU_markers_erase (p : POU) : p.eraseRouting.markers = p.markers := by
  simp [POU.markers, POU.eraseRouting, List.map_map, Function.comp_def, markers_erase]

theorem wire_mem_of_connAt {pins : List Pin} {n m : Nat} {c : Connection}
    (h : connAt pins n m = some c) : c.wire ∈ wiresAt pins n := by
  unfold connAt at h
  cases hp : pins[n]? with
  | none => simp [hp] at h
  | some pin =>
    simp only [hp] at h
    exact mem_wiresAt hp (List.getElem?_mem h)

/-- C10 (routing-only change is invisible). If `(p, q)` and `(p2, q2)` differ at
most in the routing points of their connections, then `CalculateDiff` returns on both
pairs and the results again differ at most in routing points; in particular they carry
the same markers on every element, label and connection. Moreover, in units with unique
ids, a connection of an old element and a connection of the same-id new element that sit
on pins of the same index and side and agree in `TargetRef` and `TargetLabel` keep the
markers they had (so stay `Unchanged` when fresh), whatever their routing points are. -/
theorem routing_only_change_invisible (p q p2 q2 : POU)
    (h1 : p.eraseRouting = p2.eraseRouting) (h2 : q.eraseRouting = q2.eraseRouting) :
    ∃ a b a2 b2, p.CalculateDiff q = some (a, b) ∧ p2.CalculateDiff q2 = some (a2, b2) ∧
      a.eraseRouting = a2.eraseRouting ∧ b.eraseRouting = b2.eraseRouting ∧
      a.markers = a2.markers ∧ b.markers = b2.markers ∧
      (p.UniqueIds → q.UniqueIds →
        ∀ (i j : Nat) (k k2 : String) (e e2 : Element) (out : Bool) (n m m2 : Nat)
          (c c2 : Connection),
          p.Elements[i]? = some (k, e) → q.Elements[j]? = some (k2, e2) → e.UID = e2.UID →
          connAt (e.pins out) n m = some c → connAt (e2.pins out) n m2 = some c2 →
          c.TargetRef = c2.TargetRef → c.TargetLabel = c2.TargetLabel →
          ∃ e1 e21, a.Elements[i]? = some (k, e1) ∧ b.Elements[j]? = some (k2, e21) ∧
            markerAt (e1.pins out) n m = some c.Diff ∧
            markerAt (e21.pins out) n m2 = some c2.Diff) := by
  obtain ⟨⟨a, b⟩, hab⟩ : ∃ r, p.CalculateDiff q = some r := ⟨_, CalculateDiff_eq p q⟩
  obtain ⟨⟨a2, b2⟩, hab2⟩ : ∃ r, p2.CalculateDiff q2 = some r := ⟨_, CalculateDiff_eq p2 q2⟩
  have e1 := CalculateDiff_erase p q
  have e2 := CalculateDiff_erase p2 q2
  rw [h1, h2, e2, hab, hab2] at e1
  simp only [Option.map_some', Option.some.injEq, Prod.mk.injEq] at e1
  refine ⟨a, b, a2, b2, hab, hab2, e1.1.symm, e1.2.symm, ?_, ?_, ?_⟩
  · rw [← POU_markers_erase a, ← POU_markers_erase a2, e1.1]
  · rw [← POU_markers_erase b, ← POU_markers_erase b2, e1.2]
  · intro hp hq i j k k2 e e2 out n m m2 c c2 hi hj hid hc hc2 href hlab
    obtain ⟨p1, q1, h, g1, g2⟩ := CalculateDiff_pair p q hp hq hi hj hid
    rw [hab, Option.some.injEq, Prod.mk.injEq] at h
    obtain ⟨rfl, rfl⟩ := h
    have hw : c.wire = c2.wire := by simp [Connection.wire, href, hlab]
    refine ⟨_, _, g1, g2, ?_, ?_⟩
    · rw [pairDiff_fst_pins]
      exact markerAt_markPins_of_mem _ hc (hw ▸ wire_mem_of_connAt hc2)
    · rw [pairDiff_snd_pins]
      exact markerAt_markPins_of_mem _ hc2 (hw ▸ wire_mem_of_connAt hc)

theorem routing_only_change_invisible_witness :
    ∃ a b a2 b2, sampleOld.CalculateDiff sampleRerouted = some (a, b) ∧
      sampleRerouted.CalculateDiff sampleOld = some (a2, b2) ∧
      a.eraseRouting = a2.eraseRouting ∧ b.eraseRouting = b2.eraseRouting ∧
      a.markers = a2.markers ∧ b.markers = b2.markers ∧
      ∃ e1 e21, a.Elements[1]? = some ("2", e1) ∧ b.Elements[1]? = some ("2", e21) ∧
        markerAt (e1.pins false) 0 0 = some DiffUnchanged ∧
        markerAt (e21.pins false) 0 0 = some DiffUnchanged := by
  obtain ⟨a, b, a2, b2, g1, g2, g3, g4, g5, g6, g7⟩ :=
    routing_only_change_invisible sampleOld sampleRerouted sampleRerouted sampleOld
      (by decide) (by decide)
  exact ⟨a, b, a2, b2, g1, g2, g3, g4, g5, g6,
    g7 (by decide) (by decide) 1 1 "2" "2" sampleContact sampleContactRerouted
      false 0 0 0 { TargetRef := "1", Points := [{ X := 5, Y := 10 }] } sampleWireRerouted
      (by decide) (by decide) (by decide) (by decide) (by decide) (by decide) (by decide)⟩

/-! ### Frame: only markers change -/

theorem markConnection_em (d : Diff) (pins2 : List Pin) (i : Nat) (c : Connection) :
    (markConnection d pins2 i c).eraseMarkers = c.eraseMarkers := by
  unfold markConnection
  split <;> rfl

theorem markPins_em (d : Diff) (pins2 : List Pin) (i : Nat) (pins : List Pin) :
    (markPins d pins2 i pins).map Pin.eraseMarkers = pins.map Pin.eraseMarkers := by
  induction pins generalizing i with
  | nil => rfl
  | cons pin rest ih =>
    simp only [markPins, List.map_cons, ih, Pin.eraseMarkers, List.map_map, List.cons.injEq,
      and_true, Pin.mk.injEq, true_and]
    apply List.map_congr_left
    intro c _
    exact markConnection_em d pins2 i c

theorem markWires_em (d : Diff) (e other : Element) :
    (e.markWires d other).eraseMarkers = e.eraseMarkers := by
  simp only [Element.markWires, Element.eraseMarkers, markPins_em]

theorem markTop_em (e e2 : Element) :
    (markTop e e2).1.eraseMarkers = e.eraseMarkers ∧
      (markTop e e2).2.eraseMarkers = e2.eraseMarkers := by
  unfold markTop
  split_ifs <;> exact ⟨rfl, rfl⟩

theorem markText_em (e e2 : Element) :
    (markText e e2).1.eraseMarkers = e.eraseMarkers ∧
      (markText e e2).2.eraseMarkers = e2.eraseMarkers := by
  unfold markText
  split_ifs <;> exact ⟨rfl, rfl⟩

theorem labelPhase_em (e e2 : Element) :
    (labelPhase e e2).1.eraseMarkers = e.eraseMarkers ∧
      (labelPhase e e2).2.eraseMarkers = e2.eraseMarkers := by
  unfold labelPhase
  split_ifs
  · exact markTop_em e e2
  · exact ⟨rfl, rfl⟩
  · exact ⟨(markText_em _ _).1.trans (markTop_em e e2).1,
      (markText_em _ _).2.trans (markTop_em e e2).2⟩

theorem pairDiff_em (e e2 : Element) :
    (pairDiff e e2).1.eraseMarkers = e.eraseMarkers ∧
      (pairDiff e e2).2.eraseMarkers = e2.eraseMarkers := by
  simp only [pairDiff, markWires_em, labelPhase_em, and_self]

theorem markPin_em (d : Diff) (pin : Pin) : (markPin d pin).eraseMarkers = pin.eraseMarkers := by
  simp [markPin, Pin.eraseMarkers, MutableString.eraseMarkers, Connection.eraseMarkers,
    Function.comp_def]

theorem markDeleted_em (e : Element) : e.markDeleted.eraseMarkers = e.eraseMarkers := by
  simp [Element.markDeleted, Element.markAllLabelsDeleted, Element.markAllConnectionsDeleted,
    Element.eraseMarkers, MutableString.eraseMarkers, Function.comp_def, markPin_em]

theorem markAdded_em (e : Element) : e.markAdded.eraseMarkers = e.eraseMarkers := by
  simp [Element.markAdded, Element.markAllLabelsAdded, Element.markAllConnectionsAdded,
    Element.eraseMarkers, MutableString.eraseMarkers, Function.comp_def, markPin_em]

theorem oldSide_em (e : Element) (news : List Element) :
    (oldSide e news).eraseMarkers = e.eraseMarkers := by
  unfold oldSide
  split
  · exact markDeleted_em e
  · exact (pairDiff_em e _).1

theorem touch_em (e : Element) (news : List Element) :
    (touch e news).map Element.eraseMarkers = news.map Element.eraseMarkers := by
  induction news with
  | nil => rfl
  | cons a t ih =>
    by_cases h : e.UID = a.UID
    · simp only [touch, h, if_true, List.map_cons, (pairDiff_em e a).2]
    · simp only [touch, h, if_false, List.map_cons, ih]

theorem outerNews_em (olds news : List Element) :
    (outerNews olds news).map Element.eraseMarkers = news.map Element.eraseMarkers := by
  induction olds generalizing news with
  | nil => rfl
  | cons e rest ih => rw [outerNews, ih, touch_em]

theorem rekey_em (kvs : List (String × Element)) (es : List Element)
    (h : es.map Element.eraseMarkers = (kvs.map Prod.snd).map Element.eraseMarkers) :
    (rekey kvs es).map (fun kv => (kv.1, kv.2.eraseMarkers))
      = kvs.map fun kv => (kv.1, kv.2.eraseMarkers) := by
  induction kvs generalizing es with
  | nil => cases es <;> rfl
  | cons kv t ih =>
    cases es with
    | nil => simp at h
    | cons a es =>
      simp only [List.map_cons, List.cons.injEq] at h
      simp only [rekey, List.map_cons, h.1, ih es h.2]

theorem ids_eraseMarkers (p : POU) : p.eraseMarkers.ids = p.ids := by
  simp [POU.ids, POU.eraseMarkers, List.map_map, Function.comp_def, Element.eraseMarkers]

/-- C11 (frame). For any two units `CalculateDiff` returns, and each of the two units
differs from what it was at most in marker fields: with all markers reset the unit
after the call equals the unit before the call (same name and comment, same keys in the
same order, and per element the same id, kind, position, width, height, label texts and
pin lists, per pin the same position, order, label text and connection sequence, per
connection the same `TargetRef`, `TargetLabel`, `TargetPin` and `Points`). In
particular the ids are the same. -/
theorem frame_only_markers_change (p q : POU) :
    ∃ p1 q1, p.CalculateDiff q = some (p1, q1) ∧
      p1.eraseMarkers = p.eraseMarkers ∧ q1.eraseMarkers = q.eraseMarkers ∧
      p1.ids = p.ids ∧ q1.ids = q.ids := by
  have hp : ({ p with Elements := p.Elements.map fun kv => (kv.1, oldSide kv.2 q.elems) }
      : POU).eraseMarkers = p.eraseMarkers := by
    simp only [POU.eraseMarkers, List.map_map, Function.comp_def, oldSide_em]
  have hq : ({ q with Elements := (rekey q.Elements
      ((outerNews p.elems q.elems).map fun e =>
        if hasUID e.UID p.elems then e else e.markAdded)) } : POU).eraseMarkers
      = q.eraseMarkers := by
    simp only [POU.eraseMarkers]
    rw [rekey_em]
    have h0 := outerNews_em p.elems q.elems
    simp only [POU.elems] at h0 ⊢
    rw [List.map_map, ← h0]
    apply List.map_congr_left
    intro e _
    simp only [Function.comp_apply]
    split
    · rfl
    · exact markAdded_em e
  refine ⟨_, _, CalculateDiff_eq p q, hp, hq, ?_, ?_⟩
  · rw [← ids_eraseMarkers, hp, ids_eraseMarkers]
  · rw [← ids_eraseMarkers, hq, ids_eraseMarkers]

/-! ### Builder defaults -/

theorem buildConnections_fresh (l : List plcxml.Connection) :
    ∀ c ∈ buildConnections l, c.Diff = DiffUnchanged ∧ c.TargetPin = 0 := by
  induction l with
  | nil => simp [buildConnections]
  | cons conn rest ih =>
    intro c hc
    rcases List.mem_cons.mp hc with rfl | h
    · exact ⟨rfl, rfl⟩
    · exact ih c h

theorem buildPrimitivePins_fresh (i : Nat) (l : List plcxml.ConnectionPoint) :
    ∀ pin ∈ buildPrimitivePins i l, pin.Fresh := by
  induction l generalizing i with
  | nil => simp [buildPrimitivePins]
  | cons cp rest ih =>
    intro pin hp
    rcases List.mem_cons.mp hp with rfl | h
    · exact ⟨rfl, buildConnections_fresh _⟩
    · exact ih (i + 1) pin h

theorem buildBlockInputs_fresh (i : Nat) (l : List plcxml.BlockVariable) (pins : List Pin)
    (h : buildBlockInputs i l = .ok pins) : ∀ pin ∈ pins, pin.Fresh := by
  induction l generalizing i pins with
  | nil =>
    simp only [buildBlockInputs, Except.ok.injEq] at h
    subst h
    simp
  | cons v rest ih =>
    unfold buildBlockInputs at h
    split at h
    · cases h
    · split at h
      · cases h
      · rename_i pins1 hrest
        simp only [Except.ok.injEq] at h
        subst h
        intro pin hp
        rcases List.mem_cons.mp hp with rfl | h
        · exact ⟨rfl, buildConnections_fresh _⟩
        · exact ih (i + 1) pins1 hrest pin h

theorem buildBlockOutputs_fresh (i : Nat) (l : List plcxml.BlockVariable) (pins : List Pin)
    (h : buildBlockOutputs i l = .ok pins) : ∀ pin ∈ pins, pin.Fresh := by
  induction l generalizing i pins with
  | nil =>
    simp only [buildBlockOutputs, Except.ok.injEq] at h
    subst h
    simp
  | cons v rest ih =>
    unfold buildBlockOutputs at h
    split at h
    · cases h
    · split at h
      · cases h
      · rename_i pins1 hrest
        simp only [Except.ok.injEq] at h
        subst h
        intro pin hp
        rcases List.mem_cons.mp hp with rfl | h
        · exact ⟨rfl, buildConnections_fresh _⟩
        · exact ih (i + 1) pins1 hrest pin h

theorem initPrimitiveFromXML_fresh (prim : plcxml.Primitive) :
    (initPrimitiveFromXML prim).1.Fresh := by
  refine ⟨rfl, rfl, ?_, rfl, rfl, rfl, buildPrimitivePins_fresh 0 _, buildPrimitivePins_fresh 0 _⟩
  simp only [initPrimitiveFromXML]
  split <;> rfl

theorem initBlockFromXML_fresh (block : plcxml.Block) (e : Element) (err : Option String)
    (h : initBlockFromXML block = .ok (e, err)) : e.Fresh := by
  unfold initBlockFromXML at h
  split at h
  · cases h
  · rename_i ins hins
    split at h
    · cases h
    · rename_i outs houts
      simp only [Except.ok.injEq, Prod.mk.injEq] at h
      obtain ⟨rfl, -⟩ := h
      exact ⟨rfl, rfl, rfl, rfl, rfl, rfl, buildBlockInputs_fresh 0 _ ins hins,
        buildBlockOutputs_fresh 0 _ outs houts⟩

theorem mapInsert_all {P : Element → Prop} (m : List (String × Element)) (key : String)
    (e : Element) (hm : ∀ kv ∈ m, P kv.2) (he : P e) : ∀ kv ∈ mapInsert m key e, P kv.2 := by
  induction m with
  | nil =>
    intro kv hkv
    simp only [mapInsert, List.mem_singleton] at hkv
    subst hkv
    exact he
  | cons a t ih =>
    intro kv hkv
    unfold mapInsert at hkv
    split at hkv
    · rcases List.mem_cons.mp hkv with rfl | h
      · exact he
      · exact hm kv (List.mem_cons_of_mem _ h)
    · rcases List.mem_cons.mp hkv with rfl | h
      · exact hm _ (List.mem_cons_self _ _)
      · exact ih (fun kv hkv => hm kv (List.mem_cons_of_mem _ hkv)) kv h

theorem parsePrimitives_all {P : Element → Prop} (hP : ∀ prim, P (initPrimitiveFromXML prim).1)
    (prims : List plcxml.Primitive) (m m1 : List (String × Element))
    (h : parsePrimitives prims m = .ok m1) (hm : ∀ kv ∈ m, P kv.2) : ∀ kv ∈ m1, P kv.2 := by
  induction prims generalizing m with
  | nil =>
    simp only [parsePrimitives, Except.ok.injEq] at h
    subst h
    exact hm
  | cons prim rest ih =>
    simp only [parsePrimitives, initPrimitiveFromXML] at h
    exact ih _ h (mapInsert_all m _ _ hm (hP prim))

theorem parseBlocks_all {P : Element → Prop}
    (hP : ∀ block e err, initBlockFromXML block = .ok (e, err) → P e)
    (blocks : List plcxml.Block) (m m1 : List (String × Element))
    (h : parseBlocks blocks m = .ok m1) (hm : ∀ kv ∈ m, P kv.2) : ∀ kv ∈ m1, P kv.2 := by
  induction blocks generalizing m with
  | nil =>
    simp only [parseBlocks, Except.ok.injEq] at h
    subst h
    exact hm
  | cons block rest ih =>
    unfold parseBlocks at h
    split at h
    · cases h
    · cases h
    · rename_i new_block hb
      exact ih _ h (mapInsert_all m _ _ hm (hP block new_block none hb))

theorem Parse_all {P : Element → Prop} (hP1 : ∀ prim, P (initPrimitiveFromXML prim).1)
    (hP2 : ∀ block e err, initBlockFromXML block = .ok (e, err) → P e)
    (p0 : POU) (pou : plcxml.POU) (p : POU) (err : Option String)
    (h : POU.Parse p0 pou = .ok (p, err)) : ∀ kv ∈ p.Elements, P kv.2 := by
  unfold POU.Parse at h
  split at h
  · cases h
  · rename_i p1 e1 hpe
    simp only [Except.ok.injEq, Prod.mk.injEq] at h
    obtain ⟨rfl, -⟩ := h
    unfold POU.parseElements at hpe
    split at hpe
    · cases hpe
    · rename_i m1 hm1
      split at hpe
      · cases hpe
      · rename_i m2 hm2
        simp only [Except.ok.injEq, Prod.mk.injEq] at hpe
        obtain ⟨rfl, -⟩ := hpe
        exact parseBlocks_all hP2 _ _ _ hm2
          (parsePrimitives_all hP1 _ _ _ hm1 (by simp))

theorem allMarked_of_fresh {e : Element} (h : e.Fresh) : e.AllMarked DiffUnchanged := by
  obtain ⟨h1, h2, h3, h4, h5, -, h7, h8⟩ := h
  exact (allMarked_iff _ _).mpr ⟨h1, h2, h3, h4, h5,
    fun pin hp => ⟨(h7 pin hp).1, fun c hc => ((h7 pin hp).2 c hc).1⟩,
    fun pin hp => ⟨(h8 pin hp).1, fun c hc => ((h8 pin hp).2 c hc).1⟩⟩

/-- C13 (builder defaults). Whenever `POU.Parse` returns, starting from any receiver,
every marker of the resulting unit is `Unchanged` (element markers, the four label
markers, pin label markers, connection markers), every bottom label is empty and every
connection has `TargetPin` 0. -/
theorem builder_defaults (p0 : POU) (pou : plcxml.POU) (p : POU) (err : Option String)
    (h : POU.Parse p0 pou = .ok (p, err)) :
    p.AllMarked DiffUnchanged ∧
      ∀ kv ∈ p.Elements, kv.2.BottomLabel.Value = "" ∧
        ∀ pin ∈ kv.2.Inputs ++ kv.2.Outputs, ∀ c ∈ pin.Connections, c.TargetPin = 0 := by
  have hf : ∀ kv ∈ p.Elements, kv.2.Fresh :=
    Parse_all initPrimitiveFromXML_fresh initBlockFromXML_fresh p0 pou p err h
  refine ⟨fun kv hkv => allMarked_of_fresh (hf kv hkv), fun kv hkv => ?_⟩
  obtain ⟨-, -, -, -, -, h6, h7, h8⟩ := hf kv hkv
  refine ⟨h6, fun pin hp c hc => ?_⟩
  rcases List.mem_append.mp hp with h | h
  · exact ((h7 pin h).2 c hc).2
  · exact ((h8 pin h).2 c hc).2

theorem builder_defaults_witness :
    ∃ p err, POU.Parse {} sampleXml = .ok (p, err) ∧ p.Elements.length = 4 ∧
      p.AllMarked DiffUnchanged ∧
      ∀ kv ∈ p.Elements, kv.2.BottomLabel.Value = "" ∧
        ∀ pin ∈ kv.2.Inputs ++ kv.2.Outputs, ∀ c ∈ pin.Connections, c.TargetPin = 0 :=
  ⟨_, _, rfl, rfl, builder_defaults {} sampleXml _ _ rfl⟩

/-! ### Looking up a unit by name -/

theorem getPouLoop_err (name : String) (l : List plcxml.POU) :
    (plcxml.getPouLoop name l).2 ≠ none ↔ ∀ pou ∈ l, pou.Name ≠ name := by
  induction l with
  | nil => simp [plcxml.getPouLoop]
  | cons a t ih =>
    by_cases h : a.Name = name
    · simp [plcxml.getPouLoop, h]
    · simp [plcxml.getPouLoop, h, ih]

theorem getPouLoop_first (name : String) (pre : List plcxml.POU) (pou : plcxml.POU)
    (post : List plcxml.POU) (hn : pou.Name = name) (hpre : ∀ x ∈ pre, x.Name ≠ name) :
    plcxml.getPouLoop name (pre ++ pou :: post) = (pou, none) := by
  induction pre with
  | nil => simp [plcxml.getPouLoop, hn]
  | cons a t ih =>
    have ha : ¬ a.Name = name := hpre a (List.mem_cons_self _ _)
    simp only [List.cons_append, plcxml.getPouLoop, ha, if_false]
    exact ih fun x hx => hpre x (List.mem_cons_of_mem _ hx)

/-- C14 (NotFound). `Project.GetPouByName` returns a non-nil error exactly when no
unit of the project carries the requested name, the error it then returns comes with
the zero unit, and when some unit carries the name it returns, with a nil error, the
first such unit in document order. -/
theorem getPouByName_notFound (project : plcxml.Project) (name : String) :
    ((project.GetPouByName name).2 ≠ none ↔
      ∀ pou ∈ project.Types.POUs.POU, pou.Name ≠ name) ∧
    ((project.GetPouByName name).2 ≠ none → (project.GetPouByName name).1 = {}) ∧
    (∀ (pre : List plcxml.POU) (pou : plcxml.POU) (post : List plcxml.POU),
      project.Types.POUs.POU = pre ++ pou :: post → pou.Name = name →
      (∀ x ∈ pre, x.Name ≠ name) → project.GetPouByName name = (pou, none)) := by
  refine ⟨getPouLoop_err name _, ?_, ?_⟩
  · intro h
    have hall := (getPouLoop_err name _).mp h
    unfold plcxml.Project.GetPouByName
    generalize project.Types.POUs.POU = l at hall
    induction l with
    | nil => rfl
    | cons a t ih =>
      have ha : ¬ a.Name = name := hall a (List.mem_cons_self _ _)
      simp only [plcxml.getPouLoop, ha, if_false]
      exact ih fun x hx => hall x (List.mem_cons_of_mem _ hx)
  · intro pre pou post hl hn hpre
    unfold plcxml.Project.GetPouByName
    rw [hl]
    exact getPouLoop_first name pre pou post hn hpre

/-! ### Inner text -/

/-- C15 at the failing input: a coil that is negated and rising-edge gets the text
`P`, not `/`. -/
theorem coil_negated_rising_text :
    getPrimitiveText { ElemType := "coil", Negated := true, Edge := "rising" }
      = { Value := "P", Diff := DiffUnchanged } := by
  decide

/-- C16 (inner text of the kinds other than coil). `getPrimitiveText` returns a field
with marker `Unchanged`; its value is, for a contact, `/` if negated, otherwise `P` for
a rising edge, `N` for a falling edge and empty otherwise; for a connector or a
continuation the declared name; for the three variable kinds the expression; and empty
for every kind that is none of these nor `coil`. -/
theorem inner_text_non_coil (prim : plcxml.Primitive) :
    (getPrimitiveText prim).Diff = DiffUnchanged ∧
    (prim.ElemType = "contact" →
      (getPrimitiveText prim).Value =
        if prim.Negated then "/" else if prim.Edge = "rising" then "P"
        else if prim.Edge = "falling" then "N" else "") ∧
    (prim.ElemType = "connector" ∨ prim.ElemType = "continuation" →
      (getPrimitiveText prim).Value = prim.Name) ∧
    (prim.ElemType = "inOutVariable" ∨ prim.ElemType = "inVariable" ∨
      prim.ElemType = "outVariable" → (getPrimitiveText prim).Value = prim.Expression) ∧
    (prim.ElemType ∉ ["contact", "coil", "connector", "continuation", "inOutVariable",
      "inVariable", "outVariable"] → (getPrimitiveText prim).Value = "") := by
  refine ⟨rfl, ?_, ?_, ?_, ?_⟩
  · intro h
    simp only [getPrimitiveText, h, if_true]
    by_cases hn : prim.Negated = true
    · simp [hn]
    · by_cases hr : prim.Edge = "rising"
      · have hf : ¬ prim.Edge = "falling" := by rw [hr]; decide
        simp [hn, hr]
      · by_cases hf : prim.Edge = "falling" <;> simp [hn, hr, hf]
  · intro h
    have h1 : ¬ prim.ElemType = "contact" := by rcases h with h | h <;> rw [h] <;> decide
    have h2 : ¬ prim.ElemType = "coil" := by rcases h with h | h <;> rw [h] <;> decide
    simp only [getPrimitiveText, h1, h2, h, if_true, if_false]
  · intro h
    have h1 : ¬ prim.ElemType = "contact" := by rcases h with h | h | h <;> rw [h] <;> decide
    have h2 : ¬ prim.ElemType = "coil" := by rcases h with h | h | h <;> rw [h] <;> decide
    have h3 : ¬ (prim.ElemType = "connector" ∨ prim.ElemType = "continuation") := by
      rcases h with h | h | h <;> rw [h] <;> decide
    simp only [getPrimitiveText, h1, h2, h3, h, if_true, if_false]
  · intro h
    simp only [List.mem_cons, List.mem_singleton, List.not_mem_nil, or_false, not_or] at h
    obtain ⟨h1, h2, h3, h4, h5, h6, h7⟩ := h
    simp only [getPrimitiveText, h1, h2, h3, h4, h5, h6, h7, or_self, if_false]

/-! ### Pins and connection endpoints of built elements -/

theorem buildPoints_eq (l : List plcxml.Position) :
    buildPoints l = l.map fun pos => { X := pos.X, Y := pos.Y } := by
  induction l with
  | nil => rfl
  | cons a t ih => simp [buildPoints, ih, toPosition]

theorem buildConnections_eq (l : List plcxml.Connection) :
    buildConnections l = l.map fun conn =>
      { TargetRef := conn.RefLocalId, TargetLabel := conn.FormalParameter, TargetPin := 0,
        Points := conn.Position.map fun pos => { X := pos.X, Y := pos.Y },
        Diff := DiffUnchanged } := by
  induction l with
  | nil => rfl
  | cons a t ih => simp [buildConnections, ih, buildConnection, buildPoints_eq]

theorem buildPrimitivePins_getElem? (i j : Nat) (l : List plcxml.ConnectionPoint) :
    (buildPrimitivePins i l)[j]? = l[j]?.map fun cp =>
      { Position := toPosition cp.RelPosition, Order := ((i + j : Nat) : Int),
        Connections := buildConnections cp.Connection } := by
  induction l generalizing i j with
  | nil => simp [buildPrimitivePins]
  | cons cp rest ih =>
    cases j with
    | zero => simp [buildPrimitivePins]
    | succ j =>
      simp only [buildPrimitivePins, List.getElem?_cons_succ, ih]
      have : i + 1 + j = i + (j + 1) := by omega
      rw [this]

theorem buildBlockInputs_ok (i : Nat) (l : List plcxml.BlockVariable)
    (h : ∀ v ∈ l, v.ConnectionPointIn ≠ []) :
    ∃ pins, buildBlockInputs i l = .ok pins ∧ pins.length = l.length ∧
      ∀ (j : Nat) (v : plcxml.BlockVariable) (cp : plcxml.ConnectionPoint), l[j]? = some v →
        v.ConnectionPointIn.head? = some cp →
        pins[j]? = some
          { Position := toPosition cp.RelPosition, Order := ((i + j : Nat) : Int),
            Label := { Value := v.FormalParameter },
            Connections := buildConnections cp.Connection } := by
  induction l generalizing i with
  | nil => exact ⟨[], rfl, rfl, fun j v cp hj => by simp at hj⟩
  | cons a t ih =>
    obtain ⟨pins, hp, hlen, hget⟩ := ih (i + 1) fun v hv => h v (List.mem_cons_of_mem _ hv)
    obtain ⟨cp0, rest0, hcp⟩ : ∃ cp0 rest0, a.ConnectionPointIn = cp0 :: rest0 := by
      cases hc : a.ConnectionPointIn with
      | nil => exact absurd hc (h a (List.mem_cons_self _ _))
      | cons c r => exact ⟨c, r, rfl⟩
    refine ⟨_, by simp only [buildBlockInputs, hcp, List.getElem?_cons_zero, hp]; rfl, by simp [hlen], ?_⟩
    intro j v cp hj hhead
    cases j with
    | zero =>
      simp only [List.getElem?_cons_zero, Option.some.injEq] at hj
      subst hj
      simp only [hcp, List.head?_cons, Option.some.injEq] at hhead
      subst hhead
      simp
    | succ j =>
      simp only [List.getElem?_cons_succ] at hj ⊢
      rw [hget j v cp hj hhead]
      have : i + 1 + j = i + (j + 1) := by omega
      rw [this]

theorem buildBlockOutputs_ok (i : Nat) (l : List plcxml.BlockVariable)
    (h : ∀ v ∈ l, v.ConnectionPointOut ≠ []) :
    ∃ pins, buildBlockOutputs i l = .ok pins ∧ pins.length = l.length ∧
      ∀ (j : Nat) (v : plcxml.BlockVariable) (cp : plcxml.ConnectionPoint), l[j]? = some v →
        v.ConnectionPointOut.head? = some cp →
        pins[j]? = some
          { Position := toPosition cp.RelPosition, Order := ((i + j : Nat) : Int),
            Label := { Value := v.FormalParameter },
            Connections := buildConnections cp.Connection } := by
  induction l generalizing i with
  | nil => exact ⟨[], rfl, rfl, fun j v cp hj => by simp at hj⟩
  | cons a t ih =>
    obtain ⟨pins, hp, hlen, hget⟩ := ih (i + 1) fun v hv => h v (List.mem_cons_of_mem _ hv)
    obtain ⟨cp0, rest0, hcp⟩ : ∃ cp0 rest0, a.ConnectionPointOut = cp0 :: rest0 := by
      cases hc : a.ConnectionPointOut with
      | nil => exact absurd hc (h a (List.mem_cons_self _ _))
      | cons c r => exact ⟨c, r, rfl⟩
    refine ⟨_, by simp only [buildBlockOutputs, hcp, List.getElem?_cons_zero, hp]; rfl, by simp [hlen], ?_⟩
    intro j v cp hj hhead
    cases j with
    | zero =>
      simp only [List.getElem?_cons_zero, Option.some.injEq] at hj
      subst hj
      simp only [hcp, List.head?_cons, Option.some.injEq] at hhead
      subst hhead
      simp
    | succ j =>
      simp only [List.getElem?_cons_succ] at hj ⊢
      rw [hget j v cp hj hhead]
      have : i + 1 + j = i + (j + 1) := by omega
      rw [this]

/-- C17 (block pins). For a block each of whose input variables declares at least
one `connectionPointIn` and each of whose output variables at least one
`connectionPointOut`, `initBlockFromXML` returns an element with a nil error. Its top
label is the instance name and its block label the type name; it has as many input pins
as input variables and as many output pins as output variables; and pin `j` of either
list has order `j`, the formal parameter of variable `j` as label text, the relative
position of the first connection point of variable `j`, and one connection per declared
connection of that connection point, in order, with target id, target label, pin index
0 and the declared positions. -/
theorem block_pins (block : plcxml.Block)
    (hin : ∀ v ∈ block.InputVariables.Variable, v.ConnectionPointIn ≠ [])
    (hout : ∀ v ∈ block.OutputVariables.Variable, v.ConnectionPointOut ≠ []) :
    ∃ e, initBlockFromXML block = .ok (e, none) ∧
      e.TopLabel.Value = block.InstanceName ∧ e.BlockLabel.Value = block.TypeName ∧
      e.Inputs.length = block.InputVariables.Variable.length ∧
      e.Outputs.length = block.OutputVariables.Variable.length ∧
      (∀ (j : Nat) (v : plcxml.BlockVariable) (cp : plcxml.ConnectionPoint),
        block.InputVariables.Variable[j]? = some v → v.ConnectionPointIn.head? = some cp →
        e.Inputs[j]? = some
          { Position := { X := cp.RelPosition.X, Y := cp.RelPosition.Y }, Order := (j : Int),
            Label := { Value := v.FormalParameter, Diff := DiffUnchanged },
            Connections := cp.Connection.map fun conn =>
              { TargetRef := conn.RefLocalId, TargetLabel := conn.FormalParameter,
                TargetPin := 0,
                Points := conn.Position.map fun pos => { X := pos.X, Y := pos.Y },
                Diff := DiffUnchanged } }) ∧
      (∀ (j : Nat) (v : plcxml.BlockVariable) (cp : plcxml.ConnectionPoint),
        block.OutputVariables.Variable[j]? = some v → v.ConnectionPointOut.head? = some cp →
        e.Outputs[j]? = some
          { Position := { X := cp.RelPosition.X, Y := cp.RelPosition.Y }, Order := (j : Int),
            Label := { Value := v.FormalParameter, Diff := DiffUnchanged },
            Connections := cp.Connection.map fun conn =>
              { TargetRef := conn.RefLocalId, TargetLabel := conn.FormalParameter,
                TargetPin := 0,
                Points := conn.Position.map fun pos => { X := pos.X, Y := pos.Y },
                Diff := DiffUnchanged } }) := by
  obtain ⟨ins, hi, hilen, higet⟩ := buildBlockInputs_ok 0 _ hin
  obtain ⟨outs, ho, holen, hoget⟩ := buildBlockOutputs_ok 0 _ hout
  have he : initBlockFromXML block = .ok
      ({ UID := block.LocalId, Type_ := block.ElemType, Position := toPosition block.Position,
         Width := block.Width, Height := block.Height,
         TopLabel := { Value := block.InstanceName },
         BlockLabel := { Value := block.TypeName }, Inputs := ins, Outputs := outs }, none) := by
    simp only [initBlockFromXML, hi, ho]
  refine ⟨_, he, rfl, rfl, hilen, holen, ?_, ?_⟩
  · intro j v cp hj hh
    have := higet j v cp hj hh
    simpa only [Nat.zero_add, buildConnections_eq, toPosition] using this
  · intro j v cp hj hh
    have := hoget j v cp hj hh
    simpa only [Nat.zero_add, buildConnections_eq, toPosition] using this

/-- C18 (connection endpoints of primitives). `initPrimitiveFromXML` returns a nil
error, and pin `i` of the inputs (outputs) of its element is built from the `i`-th
`connectionPointIn` (`connectionPointOut`) of the record: order `i`, empty label, and at
each position of its connection sequence the endpoint of the declared connection at that
position, with `TargetRef` the `refLocalId`, `TargetLabel` the `formalParameter`, and as
`Points` the declared positions in the same order; no other pins exist. -/
theorem primitive_connection_endpoints (prim : plcxml.Primitive) :
    (initPrimitiveFromXML prim).2 = none ∧
    (initPrimitiveFromXML prim).1.Inputs.length = prim.ConnectionPointIn.length ∧
    (initPrimitiveFromXML prim).1.Outputs.length = prim.ConnectionPointOut.length ∧
    (∀ (i : Nat) (cp : plcxml.ConnectionPoint), prim.ConnectionPointIn[i]? = some cp →
      (initPrimitiveFromXML prim).1.Inputs[i]? = some
        { Position := { X := cp.RelPosition.X, Y := cp.RelPosition.Y }, Order := (i : Int),
          Label := { Value := "", Diff := DiffUnchanged },
          Connections := cp.Connection.map fun conn =>
            { TargetRef := conn.RefLocalId, TargetLabel := conn.FormalParameter,
              TargetPin := 0,
              Points := conn.Position.map fun pos => { X := pos.X, Y := pos.Y },
              Diff := DiffUnchanged } }) ∧
    (∀ (i : Nat) (cp : plcxml.ConnectionPoint), prim.ConnectionPointOut[i]? = some cp →
      (initPrimitiveFromXML prim).1.Outputs[i]? = some
        { Position := { X := cp.RelPosition.X, Y := cp.RelPosition.Y }, Order := (i : Int),
          Label := { Value := "", Diff := DiffUnchanged },
          Connections := cp.Connection.map fun conn =>
            { TargetRef := conn.RefLocalId, TargetLabel := conn.FormalParameter,
              TargetPin := 0,
              Points := conn.Position.map fun pos => { X := pos.X, Y := pos.Y },
              Diff := DiffUnchanged } }) := by
  have hlen : ∀ (i : Nat) (l : List plcxml.ConnectionPoint),
      (buildPrimitivePins i l).length = l.length := by
    intro i l
    induction l generalizing i with
    | nil => rfl
    | cons a t ih => simp [buildPrimitivePins, ih]
  refine ⟨rfl, hlen 0 _, hlen 0 _, ?_, ?_⟩
  · intro i cp hi
    simp only [initPrimitiveFromXML, buildPrimitivePins_getElem?, hi, Option.map_some',
      Nat.zero_add, buildConnections_eq, toPosition]
  · intro i cp hi
    simp only [initPrimitiveFromXML, buildPrimitivePins_getElem?, hi, Option.map_some',
      Nat.zero_add, buildConnections_eq, toPosition]

theorem block_pins_witness :
    ∃ e, initBlockFromXML sampleXmlBlock = .ok (e, none) ∧
      e.TopLabel.Value = sampleXmlBlock.InstanceName ∧
      e.BlockLabel.Value = sampleXmlBlock.TypeName ∧
      e.Inputs.length = sampleXmlBlock.InputVariables.Variable.length ∧
      e.Outputs.length = sampleXmlBlock.OutputVariables.Variable.length ∧
      (∀ (j : Nat) (v : plcxml.BlockVariable) (cp : plcxml.ConnectionPoint),
        sampleXmlBlock.InputVariables.Variable[j]? = some v →
        v.ConnectionPointIn.head? = some cp →
        e.Inputs[j]? = some
          { Position := { X := cp.RelPosition.X, Y := cp.RelPosition.Y }, Order := (j : Int),
            Label := { Value := v.FormalParameter, Diff := DiffUnchanged },
            Connections := cp.Connection.map fun conn =>
              { TargetRef := conn.RefLocalId, TargetLabel := conn.FormalParameter,
                TargetPin := 0,
                Points := conn.Position.map fun pos => { X := pos.X, Y := pos.Y },
                Diff := DiffUnchanged } }) ∧
      (∀ (j : Nat) (v : plcxml.BlockVariable) (cp : plcxml.ConnectionPoint),
        sampleXmlBlock.OutputVariables.Variable[j]? = some v →
        v.ConnectionPointOut.head? = some cp →
        e.Outputs[j]? = some
          { Position := { X := cp.RelPosition.X, Y := cp.RelPosition.Y }, Order := (j : Int),
            Label := { Value := v.FormalParameter, Diff := DiffUnchanged },
            Connections := cp.Connection.map fun conn =>
              { TargetRef := conn.RefLocalId, TargetLabel := conn.FormalParameter,
                TargetPin := 0,
                Points := conn.Position.map fun pos => { X := pos.X, Y := pos.Y },
                Diff := DiffUnchanged } }) :=
  block_pins sampleXmlBlock (by decide) (by decide)

/-! ### Style tables -/

theorem setStyle_frame (t : svg.Tables) (style : String) :
    (svg.setStyle t style).stroke_width = t.stroke_width ∧
    (svg.setStyle t style).stroke_dasharray = t.stroke_dasharray ∧
    (svg.setStyle t style).text_decoration = t.text_decoration ∧
    (svg.setStyle t style).font_weight = t.font_weight ∧
    ∀ d, d ≠ DiffUnchanged → (svg.setStyle t style).diff_color d = t.diff_color d := by
  unfold svg.setStyle svg.setColor
  split_ifs
  · exact ⟨rfl, rfl, rfl, rfl, fun d hd => by simp [hd]⟩
  · exact ⟨rfl, rfl, rfl, rfl, fun d hd => by simp [hd]⟩
  · exact ⟨rfl, rfl, rfl, rfl, fun d _ => rfl⟩

theorem foldl_setStyle_frame (styles : List String) (t : svg.Tables) :
    (styles.foldl svg.setStyle t).stroke_width = t.stroke_width ∧
    (styles.foldl svg.setStyle t).stroke_dasharray = t.stroke_dasharray ∧
    (styles.foldl svg.setStyle t).text_decoration = t.text_decoration ∧
    (styles.foldl svg.setStyle t).font_weight = t.font_weight ∧
    ∀ d, d ≠ DiffUnchanged → (styles.foldl svg.setStyle t).diff_color d = t.diff_color d := by
  induction styles generalizing t with
  | nil => exact ⟨rfl, rfl, rfl, rfl, fun _ _ => rfl⟩
  | cons s rest ih =>
    obtain ⟨a1, a2, a3, a4, a5⟩ := ih (svg.setStyle t s)
    obtain ⟨b1, b2, b3, b4, b5⟩ := setStyle_frame t s
    exact ⟨a1.trans b1, a2.trans b2, a3.trans b3, a4.trans b4,
      fun d hd => (a5 d hd).trans (b5 d hd)⟩

/-- C19 (style lookup). Let `t` be the tables after `setStyle s` with `s` one of
`dark` and `light`, called in any state reached from the initial tables by earlier
`setStyle` calls with arbitrary tokens. Then `t` maps `Added`, `Deleted`, `Unchanged`
to the colours green, red and white (dark) or black (light), to the stroke widths 5, 1,
1, to the dash patterns none, `4`, none, to the text decorations none, `line-through`,
none and to the font weights `bold`, none, none. Moreover a `setStyle` call with any
token in any state changes nothing but possibly the colour of `Unchanged`. -/
theorem style_lookup (styles : List String) (s : String) (hs : s = "dark" ∨ s = "light") :
    ((svg.setStyle (svg.afterCalls styles) s).diff_color DiffAdded = "green" ∧
     (svg.setStyle (svg.afterCalls styles) s).diff_color DiffDeleted = "red" ∧
     (svg.setStyle (svg.afterCalls styles) s).diff_color DiffUnchanged
        = if s = "dark" then "white" else "black") ∧
    ((svg.setStyle (svg.afterCalls styles) s).stroke_width DiffAdded = 5 ∧
     (svg.setStyle (svg.afterCalls styles) s).stroke_width DiffDeleted = 1 ∧
     (svg.setStyle (svg.afterCalls styles) s).stroke_width DiffUnchanged = 1) ∧
    ((svg.setStyle (svg.afterCalls styles) s).stroke_dasharray DiffAdded = "" ∧
     (svg.setStyle (svg.afterCalls styles) s).stroke_dasharray DiffDeleted = "4" ∧
     (svg.setStyle (svg.afterCalls styles) s).stroke_dasharray DiffUnchanged = "") ∧
    ((svg.setStyle (svg.afterCalls styles) s).text_decoration DiffAdded = "" ∧
     (svg.setStyle (svg.afterCalls styles) s).text_decoration DiffDeleted = "line-through" ∧
     (svg.setStyle (svg.afterCalls styles) s).text_decoration DiffUnchanged = "") ∧
    ((svg.setStyle (svg.afterCalls styles) s).font_weight DiffAdded = "bold" ∧
     (svg.setStyle (svg.afterCalls styles) s).font_weight DiffDeleted = "" ∧
     (svg.setStyle (svg.afterCalls styles) s).font_weight DiffUnchanged = "") ∧
    (∀ (t : svg.Tables) (style : String),
      (svg.setStyle t style).stroke_width = t.stroke_width ∧
      (svg.setStyle t style).stroke_dasharray = t.stroke_dasharray ∧
      (svg.setStyle t style).text_decoration = t.text_decoration ∧
      (svg.setStyle t style).font_weight = t.font_weight ∧
      ∀ d, d ≠ DiffUnchanged → (svg.setStyle t style).diff_color d = t.diff_color d) := by
  obtain ⟨b1, b2, b3, b4, b5⟩ := setStyle_frame (svg.afterCalls styles) s
  obtain ⟨a1, a2, a3, a4, a5⟩ := foldl_setStyle_frame styles svg.initial
  have c1 : (svg.afterCalls styles).stroke_width = svg.initial.stroke_width := a1
  have c2 : (svg.afterCalls styles).stroke_dasharray = svg.initial.stroke_dasharray := a2
  have c3 : (svg.afterCalls styles).text_decoration = svg.initial.text_decoration := a3
  have c4 : (svg.afterCalls styles).font_weight = svg.initial.font_weight := a4
  have c5 : ∀ d, d ≠ DiffUnchanged →
      (svg.afterCalls styles).diff_color d = svg.initial.diff_color d := a5
  refine ⟨⟨?_, ?_, ?_⟩, ?_, ?_, ?_, ?_, setStyle_frame⟩
  · rw [b5 _ (by decide), c5 _ (by decide)]; rfl
  · rw [b5 _ (by decide), c5 _ (by decide)]; rfl
  · rcases hs with rfl | rfl
    · simp [svg.setStyle, svg.setColor]
    · simp [svg.setStyle, svg.setColor]
  · rw [b1, c1]; exact ⟨rfl, rfl, rfl⟩
  · rw [b2, c2]; exact ⟨rfl, rfl, rfl⟩
  · rw [b3, c3]; exact ⟨rfl, rfl, rfl⟩
  · rw [b4, c4]; exact ⟨rfl, rfl, rfl⟩

theorem style_lookup_witness :
    ((svg.setStyle (svg.afterCalls sampleStyles) "light").diff_color DiffAdded = "green" ∧
     (svg.setStyle (svg.afterCalls sampleStyles) "light").diff_color DiffDeleted = "red" ∧
     (svg.setStyle (svg.afterCalls sampleStyles) "light").diff_color DiffUnchanged
        = if "light" = "dark" then "white" else "black") ∧
    ((svg.setStyle (svg.afterCalls sampleStyles) "light").stroke_width DiffAdded = 5 ∧
     (svg.setStyle (svg.afterCalls sampleStyles) "light").stroke_width DiffDeleted = 1 ∧
     (svg.setStyle (svg.afterCalls sampleStyles) "light").stroke_width DiffUnchanged = 1) ∧
    ((svg.setStyle (svg.afterCalls sampleStyles) "light").stroke_dasharray DiffAdded = "" ∧
     (svg.setStyle (svg.afterCalls sampleStyles) "light").stroke_dasharray DiffDeleted = "4" ∧
     (svg.setStyle (svg.afterCalls sampleStyles) "light").stroke_dasharray DiffUnchanged = "") ∧
    ((svg.setStyle (svg.afterCalls sampleStyles) "light").text_decoration DiffAdded = "" ∧
     (svg.setStyle (svg.afterCalls sampleStyles) "light").text_decoration DiffDeleted = "line-through" ∧
     (svg.setStyle (svg.afterCalls sampleStyles) "light").text_decoration DiffUnchanged = "") ∧
    ((svg.setStyle (svg.afterCalls sampleStyles) "light").font_weight DiffAdded = "bold" ∧
     (svg.setStyle (svg.afterCalls sampleStyles) "light").font_weight DiffDeleted = "" ∧
     (svg.setStyle (svg.afterCalls sampleStyles) "light").font_weight DiffUnchanged = "") ∧
    (∀ (t : svg.Tables) (style : String),
      (svg.setStyle t style).stroke_width = t.stroke_width ∧
      (svg.setStyle t style).stroke_dasharray = t.stroke_dasharray ∧
      (svg.setStyle t style).text_decoration = t.text_decoration ∧
      (svg.setStyle t style).font_weight = t.font_weight ∧
      ∀ d, d ≠ DiffUnchanged → (svg.setStyle t style).diff_color d = t.diff_color d) :=
  style_lookup sampleStyles "light" (by decide)

/-! ### Layer 1 characterised -/

theorem unmatched_iff_noMatch (pins2 : List Pin) (i : Nat) (c : Connection) :
    unmatched pins2 i c = true ↔
      (pins2[i]? = none ∨ ∃ pin2, pins2[i]? = some pin2 ∧
        ∀ c2 ∈ pin2.Connections, ¬ (c.TargetRef = c2.TargetRef ∧ c.TargetLabel = c2.TargetLabel)) := by
  unfold unmatched
  cases pins2[i]? with
  | none => simp
  | some pin2 =>
    simp only [Bool.not_eq_true', reduceCtorEq, Option.some.injEq, exists_eq_left', false_or]
    rw [← Bool.not_eq_true, List.any_eq_true]
    simp only [sameWire, decide_eq_true_eq, not_exists, not_and]

theorem mem_of_connAt {pins : List Pin} {i m : Nat} {c : Connection}
    (h : connAt pins i m = some c) : ∃ pin ∈ pins, c ∈ pin.Connections := by
  unfold connAt at h
  cases hp : pins[i]? with
  | none => simp [hp] at h
  | some pin =>
    simp only [hp] at h
    exact ⟨pin, List.getElem?_mem hp, List.getElem?_mem h⟩

theorem markerAt_markPins_fresh (d : Diff) {pins2 pins : List Pin} {i m : Nat} {c : Connection}
    (hc : connAt pins i m = some c) (hu : c.Diff = DiffUnchanged) :
    markerAt (markPins d pins2 0 pins) i m
      = some (if unmatched pins2 i c = true then d else DiffUnchanged) := by
  simp only [markerAt, connAt_markPins, hc, Option.map_some', markConnection]
  split <;> simp [hu]

/-- C20 (layer 1 characterised). Let all connection markers of `old` and `new` be
`Unchanged`. Then `old.connectionsDiff new` returns two elements that differ from `old`
and `new` at most in markers, and for every connection `c` of `old`, on pin `i` of
either side: its marker afterwards is `Deleted` or `Unchanged`, and it is `Deleted` if
and only if `new` has no pin `i` on that side or no connection on that pin of `new` has
the `TargetRef` and the `TargetLabel` of `c`. Symmetrically every connection of `new`
ends `Added` or `Unchanged`, and `Added` if and only if `old` has no pin of that index
and side or no connection on it with the same `TargetRef` and `TargetLabel`. -/
theorem layer1_characterisation (old new : Element)
    (ho : ∀ out, ∀ pin ∈ old.pins out, ∀ c ∈ pin.Connections, c.Diff = DiffUnchanged)
    (hn : ∀ out, ∀ pin ∈ new.pins out, ∀ c ∈ pin.Connections, c.Diff = DiffUnchanged) :
    ∃ old1 new1, old.connectionsDiff new = some (old1, new1) ∧
      old1.eraseMarkers = old.eraseMarkers ∧ new1.eraseMarkers = new.eraseMarkers ∧
      (∀ (out : Bool) (i m : Nat) (c : Connection), connAt (old.pins out) i m = some c →
        (markerAt (old1.pins out) i m = some DiffDeleted ∨
          markerAt (old1.pins out) i m = some DiffUnchanged) ∧
        (markerAt (old1.pins out) i m = some DiffDeleted ↔
          ((new.pins out)[i]? = none ∨ ∃ pin2, (new.pins out)[i]? = some pin2 ∧
            ∀ c2 ∈ pin2.Connections,
              ¬ (c.TargetRef = c2.TargetRef ∧ c.TargetLabel = c2.TargetLabel)))) ∧
      (∀ (out : Bool) (i m : Nat) (c : Connection), connAt (new.pins out) i m = some c →
        (markerAt (new1.pins out) i m = some DiffAdded ∨
          markerAt (new1.pins out) i m = some DiffUnchanged) ∧
        (markerAt (new1.pins out) i m = some DiffAdded ↔
          ((old.pins out)[i]? = none ∨ ∃ pin2, (old.pins out)[i]? = some pin2 ∧
            ∀ c2 ∈ pin2.Connections,
              ¬ (c.TargetRef = c2.TargetRef ∧ c.TargetLabel = c2.TargetLabel)))) := by
  refine ⟨_, _, connectionsDiff_eq old new, markWires_em _ _ _, markWires_em _ _ _, ?_, ?_⟩
  · intro out i m c hc
    obtain ⟨pin, hp, hcp⟩ := mem_of_connAt hc
    rw [markWires_pins, markerAt_markPins_fresh _ hc (ho out pin hp c hcp),
      ← unmatched_iff_noMatch]
    by_cases hu : unmatched (new.pins out) i c = true <;> simp [hu]
  · intro out i m c hc
    obtain ⟨pin, hp, hcp⟩ := mem_of_connAt hc
    rw [markWires_pins, markerAt_markPins_fresh _ hc (hn out pin hp c hcp),
      ← unmatched_iff_noMatch]
    by_cases hu : unmatched (old.pins out) i c = true <;> simp [hu]

theorem layer1_characterisation_witness :
    ∃ old1 new1, sampleTimer.connectionsDiff sampleTimerShrunk = some (old1, new1) ∧
      old1.eraseMarkers = sampleTimer.eraseMarkers ∧
      new1.eraseMarkers = sampleTimerShrunk.eraseMarkers ∧
      (∀ (out : Bool) (i m : Nat) (c : Connection),
        connAt (sampleTimer.pins out) i m = some c →
        (markerAt (old1.pins out) i m = some DiffDeleted ∨
          markerAt (old1.pins out) i m = some DiffUnchanged) ∧
        (markerAt (old1.pins out) i m = some DiffDeleted ↔
          ((sampleTimerShrunk.pins out)[i]? = none ∨
            ∃ pin2, (sampleTimerShrunk.pins out)[i]? = some pin2 ∧
            ∀ c2 ∈ pin2.Connections,
              ¬ (c.TargetRef = c2.TargetRef ∧ c.TargetLabel = c2.TargetLabel)))) ∧
      (∀ (out : Bool) (i m : Nat) (c : Connection),
        connAt (sampleTimerShrunk.pins out) i m = some c →
        (markerAt (new1.pins out) i m = some DiffAdded ∨
          markerAt (new1.pins out) i m = some DiffUnchanged) ∧
        (markerAt (new1.pins out) i m = some DiffAdded ↔
          ((sampleTimer.pins out)[i]? = none ∨
            ∃ pin2, (sampleTimer.pins out)[i]? = some pin2 ∧
            ∀ c2 ∈ pin2.Connections,
              ¬ (c.TargetRef = c2.TargetRef ∧ c.TargetLabel = c2.TargetLabel)))) :=
  layer1_characterisation sampleTimer sampleTimerShrunk (by decide) (by decide)

/-! ### Idempotence -/

theorem labelPhase_eq (e x : Element) :
    labelPhase e x = (stampLabels DiffDeleted (conds e x) e, stampLabels DiffAdded (conds e x) x) := by
  unfold labelPhase markText markTop
  split_ifs with hA hB hT hT hX hX
  · have cs : conds e x = (false, true, false) := by
      simp only [conds, Prod.mk.injEq, decide_eq_false_iff_not, decide_eq_true_eq]; tauto
    rw [cs]; rfl
  · have cs : conds e x = (false, false, false) := by
      simp only [conds, Prod.mk.injEq, decide_eq_false_iff_not, decide_eq_true_eq]; tauto
    rw [cs]; rfl
  · have cs : conds e x = (true, false, false) := by
      simp only [conds, Prod.mk.injEq, decide_eq_false_iff_not, decide_eq_true_eq]; tauto
    rw [cs]; rfl
  · have cs : conds e x = (false, true, true) := by
      simp only [conds, Prod.mk.injEq, decide_eq_false_iff_not, decide_eq_true_eq]; tauto
    rw [cs]; rfl
  · have cs : conds e x = (false, true, false) := by
      simp only [conds, Prod.mk.injEq, decide_eq_false_iff_not, decide_eq_true_eq]
      simp only [ne_eq, not_not] at *; tauto
    rw [cs]; rfl
  · have cs : conds e x = (false, false, true) := by
      simp only [conds, Prod.mk.injEq, decide_eq_false_iff_not, decide_eq_true_eq]
      simp only [ne_eq, not_not] at *; tauto
    rw [cs]; rfl
  · have cs : conds e x = (false, false, false) := by
      simp only [conds, Prod.mk.injEq, decide_eq_false_iff_not, decide_eq_true_eq]
      simp only [ne_eq, not_not] at *; tauto
    rw [cs]; rfl
theorem unmatched_set (d : Diff) (pins2 : List Pin) (i : Nat) (c : Connection) :
    unmatched pins2 i { c with Diff := d } = unmatched pins2 i c := by
  rw [Bool.eq_iff_iff, unmatched_iff, unmatched_iff]
  rfl

theorem markConnection_idem (d : Diff) (pins2 : List Pin) (i : Nat) (c : Connection) :
    markConnection d pins2 i (markConnection d pins2 i c) = markConnection d pins2 i c := by
  cases h : unmatched pins2 i c <;>
    simp only [markConnection, h, unmatched_set, if_true, Bool.false_eq_true, if_false]

theorem markConnection_comm (d : Diff) (pins2 pins3 : List Pin) (i : Nat) (c : Connection) :
    markConnection d pins2 i (markConnection d pins3 i c)
      = markConnection d pins3 i (markConnection d pins2 i c) := by
  cases ha : unmatched pins2 i c <;> cases hb : unmatched pins3 i c <;>
    simp only [markConnection, ha, hb, unmatched_set, if_true, Bool.false_eq_true, if_false]

theorem markPins_idem (d : Diff) (pins2 : List Pin) (i : Nat) (pins : List Pin) :
    markPins d pins2 i (markPins d pins2 i pins) = markPins d pins2 i pins := by
  induction pins generalizing i with
  | nil => rfl
  | cons pin rest ih =>
    simp only [markPins, ih, List.map_map, List.cons.injEq, and_true, Pin.mk.injEq, true_and]
    apply List.map_congr_left
    intro c _
    exact markConnection_idem d pins2 i c

theorem markPins_comm (d : Diff) (pins2 pins3 : List Pin) (i : Nat) (pins : List Pin) :
    markPins d pins2 i (markPins d pins3 i pins) = markPins d pins3 i (markPins d pins2 i pins) := by
  induction pins generalizing i with
  | nil => rfl
  | cons pin rest ih =>
    simp only [markPins, ih, List.map_map, List.cons.injEq, and_true, Pin.mk.injEq, true_and]
    apply List.map_congr_left
    intro c _
    exact markConnection_comm d pins2 pins3 i c

theorem markWires_idem (d : Diff) (x o : Element) :
    (x.markWires d o).markWires d o = x.markWires d o := by
  simp only [Element.markWires, markPins_idem]

theorem markWires_comm (d : Diff) (x o o2 : Element) :
    (x.markWires d o2).markWires d o = (x.markWires d o).markWires d o2 := by
  simp only [Element.markWires, markPins_comm d o.Inputs o2.Inputs,
    markPins_comm d o.Outputs o2.Outputs]

theorem stampLabels_idem (d : Diff) (cs : Bool × Bool × Bool) (x : Element) :
    stampLabels d cs (stampLabels d cs x) = stampLabels d cs x := by
  obtain ⟨a, b, c⟩ := cs
  cases a <;> cases b <;> cases c <;> rfl

theorem stampLabels_comm (d : Diff) (cs cs2 : Bool × Bool × Bool) (x : Element) :
    stampLabels d cs (stampLabels d cs2 x) = stampLabels d cs2 (stampLabels d cs x) := by
  obtain ⟨a, b, c⟩ := cs
  obtain ⟨a2, b2, c2⟩ := cs2
  cases a <;> cases b <;> cases c <;> cases a2 <;> cases b2 <;> cases c2 <;> rfl

theorem stampLabels_markWires (d : Diff) (cs : Bool × Bool × Bool) (x o : Element) :
    (stampLabels d cs x).markWires d o = stampLabels d cs (x.markWires d o) := rfl

theorem stampBy_idem (d : Diff) (cs : Bool × Bool × Bool) (o x : Element) :
    stampBy d cs o (stampBy d cs o x) = stampBy d cs o x := by
  simp only [stampBy, stampLabels_markWires, markWires_idem, stampLabels_idem]

theorem stampBy_comm (d : Diff) (cs cs2 : Bool × Bool × Bool) (o o2 x : Element) :
    stampBy d cs o (stampBy d cs2 o2 x) = stampBy d cs2 o2 (stampBy d cs o x) := by
  simp only [stampBy, stampLabels_markWires, markWires_comm d x o o2]
  exact stampLabels_comm d cs cs2 _

theorem markPin_idem (d : Diff) (pin : Pin) : markPin d (markPin d pin) = markPin d pin := by
  simp [markPin, Function.comp_def]

theorem markAdded_idem (e : Element) : e.markAdded.markAdded = e.markAdded := by
  simp [Element.markAdded, Element.markAllLabelsAdded, Element.markAllConnectionsAdded,
    Function.comp_def, markPin_idem]

theorem markDeleted_idem (e : Element) : e.markDeleted.markDeleted = e.markDeleted := by
  simp [Element.markDeleted, Element.markAllLabelsDeleted, Element.markAllConnectionsDeleted,
    Function.comp_def, markPin_idem]

theorem pairDiff_eq_stamp (e x : Element) :
    pairDiff e x = (stampBy DiffDeleted (conds e x) x e, stampBy DiffAdded (conds e x) e x) := by
  simp only [pairDiff, labelPhase_eq]
  rfl

theorem conds_congr {a a2 b b2 : Element} (ha : a.shape = a2.shape) (hb : b.shape = b2.shape) :
    conds a b = conds a2 b2 := by
  simp only [Element.shape, Shape.mk.injEq] at ha hb
  obtain ⟨-, a2', a3, a4, -, a6, -, -⟩ := ha
  obtain ⟨-, b2', b3, b4, -, b6, -, -⟩ := hb
  simp only [conds, a2', a3, a4, a6, b2', b3, b4, b6]

theorem stampBy_shape (d : Diff) (cs : Bool × Bool × Bool) (o x : Element) :
    (stampBy d cs o x).shape = x.shape := by
  rw [stampBy]
  exact markWires_shape d x o

theorem stampBy_congr (d : Diff) (cs : Bool × Bool × Bool) {o o2 : Element} (x : Element)
    (h : o.shape = o2.shape) : stampBy d cs o x = stampBy d cs o2 x := by
  rw [stampBy, stampBy, markWires_congr d x (shape_inputs h) (shape_outputs h)]

theorem pairDiff_snd_idem (e x : Element) :
    (pairDiff e (pairDiff e x).2).2 = (pairDiff e x).2 := by
  simp only [pairDiff_eq_stamp]
  rw [conds_congr rfl (stampBy_shape DiffAdded (conds e x) e x), stampBy_idem]

theorem pairDiff_fst_idem (e x : Element) :
    (pairDiff (pairDiff e x).1 x).1 = (pairDiff e x).1 := by
  simp only [pairDiff_eq_stamp]
  rw [conds_congr (stampBy_shape DiffDeleted (conds e x) x e) rfl, stampBy_idem]

theorem pairDiff_snd_comm (e e0 x : Element) :
    (pairDiff e (pairDiff e0 x).2).2 = (pairDiff e0 (pairDiff e x).2).2 := by
  simp only [pairDiff_eq_stamp]
  rw [conds_congr rfl (stampBy_shape DiffAdded (conds e0 x) e0 x),
    conds_congr rfl (stampBy_shape DiffAdded (conds e x) e x), stampBy_comm]

theorem pairDiff_snd_congr {e e2 : Element} (h : e.shape = e2.shape) (x : Element) :
    (pairDiff e x).2 = (pairDiff e2 x).2 := by
  simp only [pairDiff_eq_stamp]
  rw [conds_congr h rfl, stampBy_congr _ _ x h]

theorem touch_idem (e : Element) (l : List Element) : touch e (touch e l) = touch e l := by
  induction l with
  | nil => rfl
  | cons a t ih =>
    by_cases h : e.UID = a.UID
    · simp only [touch, pairDiff_snd_UID, if_pos h, pairDiff_snd_idem]
    · simp only [touch, if_neg h, ih]

theorem touch_comm (e e0 : Element) (l : List Element) :
    touch e (touch e0 l) = touch e0 (touch e l) := by
  induction l with
  | nil => rfl
  | cons a t ih =>
    by_cases h : e.UID = a.UID <;> by_cases h0 : e0.UID = a.UID
    · simp only [touch, pairDiff_snd_UID, if_pos h, if_pos h0, pairDiff_snd_comm e e0 a]
    · simp only [touch, pairDiff_snd_UID, if_pos h, if_neg h0]
    · simp only [touch, pairDiff_snd_UID, if_neg h, if_pos h0]
    · simp only [touch, if_neg h, if_neg h0, ih]

theorem touch_congr {e e2 : Element} (h : e.shape = e2.shape) (l : List Element) :
    touch e l = touch e2 l := by
  induction l with
  | nil => rfl
  | cons a t ih =>
    simp only [touch, ih, shape_UID h, pairDiff_snd_congr h a]

theorem outerNews_keeps_fixed (e : Element) (olds l : List Element) (h : touch e l = l) :
    touch e (outerNews olds l) = outerNews olds l := by
  induction olds generalizing l with
  | nil => exact h
  | cons a r ih =>
    rw [outerNews]
    exact ih _ (by rw [touch_comm, h])

theorem outerNews_fixed (olds l : List Element) :
    ∀ e ∈ olds, touch e (outerNews olds l) = outerNews olds l := by
  induction olds generalizing l with
  | nil => simp
  | cons a r ih =>
    intro e he
    rw [outerNews]
    rcases List.mem_cons.mp he with rfl | h
    · exact outerNews_keeps_fixed _ r _ (touch_idem _ l)
    · exact ih _ e h

theorem outerNews_eq_self (olds l : List Element) (h : ∀ e ∈ olds, touch e l = l) :
    outerNews olds l = l := by
  induction olds with
  | nil => rfl
  | cons a r ih =>
    rw [outerNews, h a (List.mem_cons_self _ _)]
    exact ih fun e he => h e (List.mem_cons_of_mem _ he)

theorem outerNews_congr (f : Element → Element) (hf : ∀ e, (f e).shape = e.shape)
    (olds l : List Element) : outerNews (olds.map f) l = outerNews olds l := by
  induction olds generalizing l with
  | nil => rfl
  | cons a r ih => simp only [List.map_cons, outerNews, touch_congr (hf a), ih]

theorem backSide_UID (olds : List Element) (x : Element) : (backSide olds x).UID = x.UID := by
  unfold backSide
  split
  · rfl
  · exact shape_UID (markAdded_shape x)

theorem touch_backSide (olds : List Element) (e : Element) (he : hasUID e.UID olds = true)
    (l : List Element) : touch e (l.map (backSide olds)) = (touch e l).map (backSide olds) := by
  induction l with
  | nil => rfl
  | cons a t ih =>
    by_cases h : e.UID = a.UID
    · have ha : hasUID a.UID olds = true := h ▸ he
      have h2 : backSide olds a = a := by simp [backSide, ha]
      have ha2 : hasUID (pairDiff e a).2.UID olds = true := by rw [pairDiff_snd_UID]; exact ha
      have h3 : backSide olds (pairDiff e a).2 = (pairDiff e a).2 := by simp [backSide, ha2]
      simp only [List.map_cons, touch, h2, if_pos h, h3]
    · simp only [List.map_cons, touch, backSide_UID, if_neg h, ih]

theorem backSide_idem (olds : List Element) (x : Element) :
    backSide olds (backSide olds x) = backSide olds x := by
  by_cases h : hasUID x.UID olds = true
  · simp [backSide, h]
  · have h2 : ¬ hasUID x.markAdded.UID olds = true := by
      rw [shape_UID (markAdded_shape x)]; exact h
    simp [backSide, h, h2, markAdded_idem]

theorem oldSide_idem (e : Element) (news : List Element) :
    oldSide (oldSide e news) news = oldSide e news := by
  have hu : (oldSide e news).UID = e.UID := shape_UID (oldSide_shape e news)
  unfold oldSide at hu ⊢
  cases h : findUID e.UID news with
  | none =>
    simp only [h] at hu ⊢
    rw [hu, h]
    exact markDeleted_idem e
  | some x =>
    simp only [h] at hu ⊢
    rw [hu, h]
    exact pairDiff_fst_idem e x

theorem rekey_rekey (kvs : List (String × Element)) (es : List Element) :
    rekey (rekey kvs es) es = rekey kvs es := by
  induction kvs generalizing es with
  | nil => cases es <;> rfl
  | cons kv t ih =>
    cases es with
    | nil => rfl
    | cons a es => simp only [rekey, ih]

theorem rekey_snd (kvs : List (String × Element)) (es : List Element)
    (h : es.length = kvs.length) : (rekey kvs es).map Prod.snd = es := by
  induction kvs generalizing es with
  | nil =>
    cases es with
    | nil => rfl
    | cons a es => simp at h
  | cons kv t ih =>
    cases es with
    | nil => simp at h
    | cons a es =>
      simp only [List.length_cons, Nat.add_right_cancel_iff] at h
      simp only [rekey, List.map_cons, ih es h]

theorem backSide_shape (olds : List Element) (x : Element) :
    (backSide olds x).shape = x.shape := by
  unfold backSide
  split
  · rfl
  · exact markAdded_shape x

theorem backSide_congr {olds olds2 : List Element}
    (h : olds.map Element.shape = olds2.map Element.shape) :
    backSide olds = backSide olds2 := by
  funext x
  simp only [backSide, hasUID_congr h]

theorem hasUID_of_mem {e : Element} {olds : List Element} (h : e ∈ olds) :
    hasUID e.UID olds = true :=
  (hasUID_iff _ _).mpr (List.mem_map_of_mem _ h)

theorem CalculateDiff_eq_backSide (p q : POU) :
    p.CalculateDiff q = some
      ({ p with Elements := p.Elements.map fun kv => (kv.1, oldSide kv.2 q.elems) },
       { q with Elements := (rekey q.Elements
          ((outerNews p.elems q.elems).map (backSide p.elems))) }) :=
  CalculateDiff_eq p q

theorem secondRun_news (olds news : List Element) :
    (outerNews (olds.map (oldSide · news)) ((outerNews olds news).map (backSide olds))).map
        (backSide (olds.map (oldSide · news)))
      = (outerNews olds news).map (backSide olds) := by
  have hs : (olds.map (oldSide · news)).map Element.shape = olds.map Element.shape := by
    rw [List.map_map]
    exact List.map_congr_left fun a _ => oldSide_shape a news
  rw [backSide_congr hs, outerNews_congr (oldSide · news) (fun e => oldSide_shape e news)]
  rw [outerNews_eq_self olds _ fun e he => by
    rw [touch_backSide olds e (hasUID_of_mem he), outerNews_fixed olds news e he]]
  rw [List.map_map]
  exact List.map_congr_left fun x _ => backSide_idem olds x

theorem findUID_perm {l l2 : List Element} (hn : (l.map fun e => e.UID).Nodup)
    (h : l2.Perm l) (uid : String) : findUID uid l2 = findUID uid l := by
  have hn2 : (l2.map fun e => e.UID).Nodup := ((h.map _).nodup_iff).mpr hn
  cases hf : findUID uid l with
  | none =>
    rw [findUID_none_iff] at hf ⊢
    exact fun hm => hf (((h.map _).mem_iff).mp hm)
  | some e =>
    obtain ⟨he, hu⟩ := findUID_some hf
    rw [← hu]
    exact findUID_of_mem hn2 (h.mem_iff.mpr he)

theorem CalculateDiff_twice (p q : POU) :
    ∃ p1 q1, p.CalculateDiff q = some (p1, q1) ∧ p1.CalculateDiff q1 = some (p1, q1) := by
  refine ⟨_, _, CalculateDiff_eq_backSide p q, ?_⟩
  rw [CalculateDiff_eq_backSide]
  have hlen : ((outerNews p.elems q.elems).map (backSide p.elems)).length = q.Elements.length := by
    have := congrArg List.length (outerNews_shape p.elems q.elems)
    simpa [POU.elems] using this
  have hshape : ((outerNews p.elems q.elems).map (backSide p.elems)).map Element.shape
      = q.elems.map Element.shape := by
    rw [List.map_map, ← outerNews_shape p.elems q.elems]
    exact List.map_congr_left fun x _ => backSide_shape p.elems x
  have hq1 : POU.elems { q with Elements := (rekey q.Elements
      ((outerNews p.elems q.elems).map (backSide p.elems))) }
      = (outerNews p.elems q.elems).map (backSide p.elems) := rekey_snd _ _ hlen
  have hp1 : POU.elems { p with Elements := p.Elements.map fun kv => (kv.1, oldSide kv.2 q.elems) }
      = p.elems.map (oldSide · q.elems) := by
    simp only [POU.elems, List.map_map, Function.comp_def]
  rw [hq1, hp1, secondRun_news, rekey_rekey]
  simp only [List.map_map, Function.comp_def, oldSide_congr _ hshape, oldSide_idem]

theorem newSide_shape (olds : List Element) (e2 : Element) :
    (newSide olds e2).shape = e2.shape := by
  unfold newSide
  split
  · exact markAdded_shape e2
  · exact pairDiff_snd_shape _ e2

theorem mem_fixed_of_map_eq_self {α : Type} {f : α → α} {l : List α} (h : l.map f = l) :
    ∀ x ∈ l, f x = x := by
  induction l with
  | nil => simp
  | cons a t ih =>
    simp only [List.map_cons, List.cons.injEq] at h
    intro x hx
    rcases List.mem_cons.mp hx with rfl | hx
    · exact h.1
    · exact ih h.2 x hx

/-- C12 (idempotence). For two units with unique ids, `CalculateDiff` returns two units
with unique ids, and called again on the two units it has returned (nothing changed in
between) it returns these very units: no marker, and nothing else, differs from the
state after the first call. This holds whatever order the entries of the two returned
units are visited in by the second call: on any permutation of their entry lists the
second call returns its arguments unchanged. -/
theorem calculateDiff_idempotent (p q : POU) (hp : p.UniqueIds) (hq : q.UniqueIds) :
    ∃ p1 q1, p.CalculateDiff q = some (p1, q1) ∧ p1.UniqueIds ∧ q1.UniqueIds ∧
      p1.CalculateDiff q1 = some (p1, q1) ∧
      ∀ l l2 : List (String × Element), l.Perm p1.Elements → l2.Perm q1.Elements →
        POU.CalculateDiff { p1 with Elements := l } { q1 with Elements := l2 }
          = some ({ p1 with Elements := l }, { q1 with Elements := l2 }) := by
  obtain ⟨p1, q1, h1, h2⟩ := CalculateDiff_twice p q
  have hu := CalculateDiff_unique p q hp hq
  rw [h1, Option.some.injEq, Prod.mk.injEq] at hu
  obtain ⟨e1, e2⟩ := hu
  have hp1 : p1.UniqueIds := by
    rw [e1]
    simpa [POU.UniqueIds, POU.ids, List.map_map, Function.comp_def,
      shape_UID (oldSide_shape _ _)] using hp
  have hq1 : q1.UniqueIds := by
    rw [e2]
    simpa [POU.UniqueIds, POU.ids, List.map_map, Function.comp_def,
      shape_UID (newSide_shape _ _)] using hq
  refine ⟨p1, q1, h1, hp1, hq1, h2, fun l l2 hl hl2 => ?_⟩
  have hu2 := CalculateDiff_unique p1 q1 hp1 hq1
  rw [h2, Option.some.injEq, Prod.mk.injEq] at hu2
  have f1 := mem_fixed_of_map_eq_self (congrArg POU.Elements hu2.1).symm
  have f2 := mem_fixed_of_map_eq_self (congrArg POU.Elements hu2.2).symm
  have hlu : POU.UniqueIds { p1 with Elements := l } := ((hl.map _).nodup_iff).mpr hp1
  have hl2u : POU.UniqueIds { q1 with Elements := l2 } := ((hl2.map _).nodup_iff).mpr hq1
  have hle : (POU.elems { p1 with Elements := l }).Perm p1.elems := hl.map _
  have hl2e : (POU.elems { q1 with Elements := l2 }).Perm q1.elems := hl2.map _
  rw [CalculateDiff_unique _ _ hlu hl2u]
  have g1 : (l.map fun kv => (kv.1, oldSide kv.2 (POU.elems { q1 with Elements := l2 }))) = l := by
    refine (List.map_congr_left fun kv hkv => ?_).trans (List.map_id l)
    have := f1 kv (hl.mem_iff.mp hkv)
    simp only [oldSide, findUID_perm (nodup_elems_of_unique hq1) hl2e] at this ⊢
    exact this
  have g2 : (l2.map fun kv => (kv.1, newSide (POU.elems { p1 with Elements := l }) kv.2)) = l2 := by
    refine (List.map_congr_left fun kv hkv => ?_).trans (List.map_id l2)
    have := f2 kv (hl2.mem_iff.mp hkv)
    simp only [newSide, findUID_perm (nodup_elems_of_unique hp1) hle] at this ⊢
    exact this
  simp only [g1, g2]

theorem calculateDiff_idempotent_witness :
    ∃ p1 q1, sampleTimed.CalculateDiff sampleRetyped = some (p1, q1) ∧ p1.UniqueIds ∧
      q1.UniqueIds ∧ p1.CalculateDiff q1 = some (p1, q1) ∧
      ∀ l l2 : List (String × Element), l.Perm p1.Elements → l2.Perm q1.Elements →
        POU.CalculateDiff { p1 with Elements := l } { q1 with Elements := l2 }
          = some ({ p1 with Elements := l }, { q1 with Elements := l2 }) :=
  calculateDiff_idempotent sampleTimed sampleRetyped (by decide) (by decide)

/-! ### Matched pairs: the label comparisons -/

theorem conds_not_both_block {e x : Element} (h : ¬ (e.Type_ = "block" ∧ x.Type_ = "block")) :
    conds e x = (false, decide (e.TopLabel.Value ≠ x.TopLabel.Value),
      decide (e.ElementText.Value ≠ x.ElementText.Value)) := by
  have h1 : ¬ (e.Type_ = x.Type_ ∧ e.Type_ = "block") := fun ⟨a, b⟩ => h ⟨b, a ▸ b⟩
  have h2 : ¬ (e.Type_ = x.Type_ ∧ e.Type_ = "block" ∧ e.BlockLabel.Value ≠ x.BlockLabel.Value) :=
    fun ⟨a, b, _⟩ => h1 ⟨a, b⟩
  have p1 := decide_eq_false h2
  have p2 : decide (¬ (e.Type_ = x.Type_ ∧ e.Type_ = "block" ∧
      e.BlockLabel.Value ≠ x.BlockLabel.Value) ∧ e.TopLabel.Value ≠ x.TopLabel.Value)
      = decide (e.TopLabel.Value ≠ x.TopLabel.Value) :=
    decide_eq_decide.mpr ⟨fun h => h.2, fun h => ⟨h2, h⟩⟩
  have p3 : decide (¬ (e.Type_ = x.Type_ ∧ e.Type_ = "block") ∧
      e.ElementText.Value ≠ x.ElementText.Value)
      = decide (e.ElementText.Value ≠ x.ElementText.Value) :=
    decide_eq_decide.mpr ⟨fun h => h.2, fun h => ⟨h1, h⟩⟩
  rw [conds, p1, p2, p3]

theorem conds_same_block {e x : Element} (hb : e.Type_ = "block") (hb2 : x.Type_ = "block")
    (heq : e.BlockLabel.Value = x.BlockLabel.Value) :
    conds e x = (false, decide (e.TopLabel.Value ≠ x.TopLabel.Value), false) := by
  have h1 : e.Type_ = x.Type_ ∧ e.Type_ = "block" := ⟨hb.trans hb2.symm, hb⟩
  have h2 : ¬ (e.Type_ = x.Type_ ∧ e.Type_ = "block" ∧ e.BlockLabel.Value ≠ x.BlockLabel.Value) :=
    fun ⟨_, _, c⟩ => c heq
  have p1 := decide_eq_false h2
  have p2 : decide (¬ (e.Type_ = x.Type_ ∧ e.Type_ = "block" ∧
      e.BlockLabel.Value ≠ x.BlockLabel.Value) ∧ e.TopLabel.Value ≠ x.TopLabel.Value)
      = decide (e.TopLabel.Value ≠ x.TopLabel.Value) :=
    decide_eq_decide.mpr ⟨fun h => h.2, fun h => ⟨h2, h⟩⟩
  have p3 : decide (¬ (e.Type_ = x.Type_ ∧ e.Type_ = "block") ∧
      e.ElementText.Value ≠ x.ElementText.Value) = false :=
    decide_eq_false fun h => h.1 h1
  rw [conds, p1, p2, p3]

theorem labelPhase_pins_eq (e e2 : Element) :
    (labelPhase e e2).1.Inputs = e.Inputs ∧ (labelPhase e e2).1.Outputs = e.Outputs ∧
    (labelPhase e e2).2.Inputs = e2.Inputs ∧ (labelPhase e e2).2.Outputs = e2.Outputs := by
  rw [labelPhase_eq]
  exact ⟨rfl, rfl, rfl, rfl⟩

theorem connectionsDiff_labelPhase (e e2 : Element) :
    Element.connectionsDiff (labelPhase e e2).1 (labelPhase e e2).2 = some (pairDiff e e2) := by
  rw [connectionsDiff_eq]
  rfl

theorem fresh_labels {e : Element} (h : e.AllMarked DiffUnchanged) :
    e.Diff = DiffUnchanged ∧ e.ElementText.Diff = DiffUnchanged ∧
      e.TopLabel.Diff = DiffUnchanged ∧ e.BlockLabel.Diff = DiffUnchanged := by
  obtain ⟨h1, h2, h3, -, h5, -, -⟩ := (allMarked_iff _ _).mp h
  exact ⟨h1, h2, h3, h5⟩

/-- C21 (non-block match). Two units with unique ids, an element `e` of the old one
and an element `e2` of the new one with the same id, all markers `Unchanged`, not both
of kind `block` (their kinds may differ). `CalculateDiff` returns; afterwards the top
label markers are `Deleted` (old) and `Added` (new) if and only if the top label texts
differ, and `Unchanged` otherwise; independently the same holds for the element text
markers and the element texts; the element-level markers of both are `Unchanged`; and
the two elements are what `connectionsDiff` returns on a pair with the pins of `e` and
`e2`. -/
theorem non_block_match (p q : POU) (hp : p.UniqueIds) (hq : q.UniqueIds) (i j : Nat)
    (k k2 : String) (e e2 : Element) (hi : p.Elements[i]? = some (k, e))
    (hj : q.Elements[j]? = some (k2, e2)) (hid : e.UID = e2.UID)
    (hnb : ¬ (e.Type_ = "block" ∧ e2.Type_ = "block"))
    (hf : e.AllMarked DiffUnchanged) (hf2 : e2.AllMarked DiffUnchanged) :
    ∃ p1 q1 e1 e21, p.CalculateDiff q = some (p1, q1) ∧
      p1.Elements[i]? = some (k, e1) ∧ q1.Elements[j]? = some (k2, e21) ∧
      ((e1.TopLabel.Diff = DiffDeleted ∧ e21.TopLabel.Diff = DiffAdded) ↔
        e.TopLabel.Value ≠ e2.TopLabel.Value) ∧
      (e.TopLabel.Value = e2.TopLabel.Value →
        e1.TopLabel.Diff = DiffUnchanged ∧ e21.TopLabel.Diff = DiffUnchanged) ∧
      ((e1.ElementText.Diff = DiffDeleted ∧ e21.ElementText.Diff = DiffAdded) ↔
        e.ElementText.Value ≠ e2.ElementText.Value) ∧
      (e.ElementText.Value = e2.ElementText.Value →
        e1.ElementText.Diff = DiffUnchanged ∧ e21.ElementText.Diff = DiffUnchanged) ∧
      e1.Diff = DiffUnchanged ∧ e21.Diff = DiffUnchanged ∧
      ∃ l l2, l.Inputs = e.Inputs ∧ l.Outputs = e.Outputs ∧
        l2.Inputs = e2.Inputs ∧ l2.Outputs = e2.Outputs ∧
        Element.connectionsDiff l l2 = some (e1, e21) := by
  obtain ⟨p1, q1, h, h1, h2⟩ := CalculateDiff_pair p q hp hq hi hj hid
  obtain ⟨f1, f2, f3, -⟩ := fresh_labels hf
  obtain ⟨g1, g2, g3, -⟩ := fresh_labels hf2
  have a1 : (pairDiff e e2).1.TopLabel.Diff
      = if e.TopLabel.Value ≠ e2.TopLabel.Value then DiffDeleted else DiffUnchanged := by
    simp only [pairDiff_eq_stamp, conds_not_both_block hnb, stampBy, stampLabels,
      Element.markWires, f3, decide_eq_true_eq]
  have a2 : (pairDiff e e2).2.TopLabel.Diff
      = if e.TopLabel.Value ≠ e2.TopLabel.Value then DiffAdded else DiffUnchanged := by
    simp only [pairDiff_eq_stamp, conds_not_both_block hnb, stampBy, stampLabels,
      Element.markWires, g3, decide_eq_true_eq]
  have b1 : (pairDiff e e2).1.ElementText.Diff
      = if e.ElementText.Value ≠ e2.ElementText.Value then DiffDeleted else DiffUnchanged := by
    simp only [pairDiff_eq_stamp, conds_not_both_block hnb, stampBy, stampLabels,
      Element.markWires, f2, decide_eq_true_eq]
  have b2 : (pairDiff e e2).2.ElementText.Diff
      = if e.ElementText.Value ≠ e2.ElementText.Value then DiffAdded else DiffUnchanged := by
    simp only [pairDiff_eq_stamp, conds_not_both_block hnb, stampBy, stampLabels,
      Element.markWires, g2, decide_eq_true_eq]
  have c1 : (pairDiff e e2).1.Diff = DiffUnchanged := by
    simp only [pairDiff_eq_stamp, conds_not_both_block hnb, stampBy, stampLabels,
      Element.markWires, f1, Bool.false_eq_true, if_false]
  have c2 : (pairDiff e e2).2.Diff = DiffUnchanged := by
    simp only [pairDiff_eq_stamp, conds_not_both_block hnb, stampBy, stampLabels,
      Element.markWires, g1, Bool.false_eq_true, if_false]
  obtain ⟨l1, l2, l3, l4⟩ := labelPhase_pins_eq e e2
  refine ⟨p1, q1, _, _, h, h1, h2, ?_, ?_, ?_, ?_, c1, c2, _, _, l1, l2, l3, l4,
    connectionsDiff_labelPhase e e2⟩
  · rw [a1, a2]
    by_cases ht : e.TopLabel.Value = e2.TopLabel.Value <;> simp [ht]
  · intro ht
    rw [a1, a2]
    simp [ht]
  · rw [b1, b2]
    by_cases ht : e.ElementText.Value = e2.ElementText.Value <;> simp [ht]
  · intro ht
    rw [b1, b2]
    simp [ht]

/-- C22 (equal block type). Two units with unique ids, an element `e` of the old one
and an element `e2` of the new one with the same id, all markers `Unchanged`, both of
kind `block` with the same block type name. `CalculateDiff` returns; afterwards the top
label markers are `Deleted` (old) and `Added` (new) if the instance names differ and
`Unchanged` if they are equal; the element text markers are `Unchanged` whatever the
element texts are; the element-level markers and the block label markers are
`Unchanged`; and the two elements are what `connectionsDiff` returns on a pair with the
pins of `e` and `e2`. -/
theorem equal_block_type (p q : POU) (hp : p.UniqueIds) (hq : q.UniqueIds) (i j : Nat)
    (k k2 : String) (e e2 : Element) (hi : p.Elements[i]? = some (k, e))
    (hj : q.Elements[j]? = some (k2, e2)) (hid : e.UID = e2.UID)
    (hb : e.Type_ = "block") (hb2 : e2.Type_ = "block")
    (heq : e.BlockLabel.Value = e2.BlockLabel.Value)
    (hf : e.AllMarked DiffUnchanged) (hf2 : e2.AllMarked DiffUnchanged) :
    ∃ p1 q1 e1 e21, p.CalculateDiff q = some (p1, q1) ∧
      p1.Elements[i]? = some (k, e1) ∧ q1.Elements[j]? = some (k2, e21) ∧
      (e.TopLabel.Value ≠ e2.TopLabel.Value →
        e1.TopLabel.Diff = DiffDeleted ∧ e21.TopLabel.Diff = DiffAdded) ∧
      (e.TopLabel.Value = e2.TopLabel.Value →
        e1.TopLabel.Diff = DiffUnchanged ∧ e21.TopLabel.Diff = DiffUnchanged) ∧
      e1.ElementText.Diff = DiffUnchanged ∧ e21.ElementText.Diff = DiffUnchanged ∧
      e1.Diff = DiffUnchanged ∧ e21.Diff = DiffUnchanged ∧
      e1.BlockLabel.Diff = DiffUnchanged ∧ e21.BlockLabel.Diff = DiffUnchanged ∧
      ∃ l l2, l.Inputs = e.Inputs ∧ l.Outputs = e.Outputs ∧
        l2.Inputs = e2.Inputs ∧ l2.Outputs = e2.Outputs ∧
        Element.connectionsDiff l l2 = some (e1, e21) := by
  obtain ⟨p1, q1, h, h1, h2⟩ := CalculateDiff_pair p q hp hq hi hj hid
  obtain ⟨f1, f2, f3, f4⟩ := fresh_labels hf
  obtain ⟨g1, g2, g3, g4⟩ := fresh_labels hf2
  have a1 : (pairDiff e e2).1.TopLabel.Diff
      = if e.TopLabel.Value ≠ e2.TopLabel.Value then DiffDeleted else DiffUnchanged := by
    simp only [pairDiff_eq_stamp, conds_same_block hb hb2 heq, stampBy, stampLabels,
      Element.markWires, f3, decide_eq_true_eq]
  have a2 : (pairDiff e e2).2.TopLabel.Diff
      = if e.TopLabel.Value ≠ e2.TopLabel.Value then DiffAdded else DiffUnchanged := by
    simp only [pairDiff_eq_stamp, conds_same_block hb hb2 heq, stampBy, stampLabels,
      Element.markWires, g3, decide_eq_true_eq]
  have b1 : (pairDiff e e2).1.ElementText.Diff = DiffUnchanged := by
    simp only [pairDiff_eq_stamp, conds_same_block hb hb2 heq, stampBy, stampLabels,
      Element.markWires, f2, Bool.false_eq_true, if_false]
  have b2 : (pairDiff e e2).2.ElementText.Diff = DiffUnchanged := by
    simp only [pairDiff_eq_stamp, conds_same_block hb hb2 heq, stampBy, stampLabels,
      Element.markWires, g2, Bool.false_eq_true, if_false]
  have c1 : (pairDiff e e2).1.Diff = DiffUnchanged := by
    simp only [pairDiff_eq_stamp, conds_same_block hb hb2 heq, stampBy, stampLabels,
      Element.markWires, f1, Bool.false_eq_true, if_false]
  have c2 : (pairDiff e e2).2.Diff = DiffUnchanged := by
    simp only [pairDiff_eq_stamp, conds_same_block hb hb2 heq, stampBy, stampLabels,
      Element.markWires, g1, Bool.false_eq_true, if_false]
  have d1 : (pairDiff e e2).1.BlockLabel.Diff = DiffUnchanged := by
    simp only [pairDiff_eq_stamp, stampBy, stampLabels, Element.markWires, f4]
  have d2 : (pairDiff e e2).2.BlockLabel.Diff = DiffUnchanged := by
    simp only [pairDiff_eq_stamp, stampBy, stampLabels, Element.markWires, g4]
  obtain ⟨l1, l2, l3, l4⟩ := labelPhase_pins_eq e e2
  refine ⟨p1, q1, _, _, h, h1, h2, ?_, ?_, b1, b2, c1, c2, d1, d2, _, _, l1, l2, l3, l4,
    connectionsDiff_labelPhase e e2⟩
  · intro ht
    rw [a1, a2]
    simp [ht]
  · intro ht
    rw [a1, a2]
    simp [ht]

theorem non_block_match_witness :
    ∃ p1 q1 e1 e21, sampleOld.CalculateDiff sampleRenamed = some (p1, q1) ∧
      p1.Elements[1]? = some ("2", e1) ∧ q1.Elements[2]? = some ("2", e21) ∧
      ((e1.TopLabel.Diff = DiffDeleted ∧ e21.TopLabel.Diff = DiffAdded) ↔
        sampleContact.TopLabel.Value ≠ sampleContactRenamed.TopLabel.Value) ∧
      (sampleContact.TopLabel.Value = sampleContactRenamed.TopLabel.Value →
        e1.TopLabel.Diff = DiffUnchanged ∧ e21.TopLabel.Diff = DiffUnchanged) ∧
      ((e1.ElementText.Diff = DiffDeleted ∧ e21.ElementText.Diff = DiffAdded) ↔
        sampleContact.ElementText.Value ≠ sampleContactRenamed.ElementText.Value) ∧
      (sampleContact.ElementText.Value = sampleContactRenamed.ElementText.Value →
        e1.ElementText.Diff = DiffUnchanged ∧ e21.ElementText.Diff = DiffUnchanged) ∧
      e1.Diff = DiffUnchanged ∧ e21.Diff = DiffUnchanged ∧
      ∃ l l2, l.Inputs = sampleContact.Inputs ∧ l.Outputs = sampleContact.Outputs ∧
        l2.Inputs = sampleContactRenamed.Inputs ∧ l2.Outputs = sampleContactRenamed.Outputs ∧
        Element.connectionsDiff l l2 = some (e1, e21) :=
  non_block_match sampleOld sampleRenamed (by decide) (by decide) 1 2 "2" "2" sampleContact
    sampleContactRenamed (by decide) (by decide) (by decide) (by decide) (by decide) (by decide)

theorem equal_block_type_witness :
    ∃ p1 q1 e1 e21, sampleTimed.CalculateDiff sampleTimedRenamed = some (p1, q1) ∧
      p1.Elements[2]? = some ("4", e1) ∧ q1.Elements[0]? = some ("4", e21) ∧
      (sampleTimer.TopLabel.Value ≠ sampleTimerRenamed.TopLabel.Value →
        e1.TopLabel.Diff = DiffDeleted ∧ e21.TopLabel.Diff = DiffAdded) ∧
      (sampleTimer.TopLabel.Value = sampleTimerRenamed.TopLabel.Value →
        e1.TopLabel.Diff = DiffUnchanged ∧ e21.TopLabel.Diff = DiffUnchanged) ∧
      e1.ElementText.Diff = DiffUnchanged ∧ e21.ElementText.Diff = DiffUnchanged ∧
      e1.Diff = DiffUnchanged ∧ e21.Diff = DiffUnchanged ∧
      e1.BlockLabel.Diff = DiffUnchanged ∧ e21.BlockLabel.Diff = DiffUnchanged ∧
      ∃ l l2, l.Inputs = sampleTimer.Inputs ∧ l.Outputs = sampleTimer.Outputs ∧
        l2.Inputs = sampleTimerRenamed.Inputs ∧ l2.Outputs = sampleTimerRenamed.Outputs ∧
        Element.connectionsDiff l l2 = some (e1, e21) :=
  equal_block_type sampleTimed sampleTimedRenamed (by decide) (by decide) 2 0 "4" "4"
    sampleTimer sampleTimerRenamed (by decide) (by decide) (by decide) (by decide) (by decide)
    (by decide) (by decide) (by decide)

/-! ### Inner text of coils -/

/-- C23 (coil inner text, overwrite order). For a coil `getPrimitiveText` returns the
text of the last check that holds in the order negated, rising, set, reset, falling:
`N` for a falling edge; otherwise `R` for reset storage; otherwise `S` for set storage;
otherwise `P` for a rising edge; otherwise `/` if negated; otherwise empty. In
particular a coil with set storage and a falling edge shows `N`. -/
theorem coil_overwrite_order (prim : plcxml.Primitive) (hc : prim.ElemType = "coil") :
    getPrimitiveText prim =
      { Value :=
          if prim.Edge = "falling" then "N"
          else if prim.Storage = "reset" then "R"
          else if prim.Storage = "set" then "S"
          else if prim.Edge = "rising" then "P"
          else if prim.Negated then "/"
          else "",
        Diff := DiffUnchanged } ∧
    (prim.Storage = "set" → prim.Edge = "falling" → (getPrimitiveText prim).Value = "N") := by
  have h1 : ¬ prim.ElemType = "contact" := by rw [hc]; decide
  have key : getPrimitiveText prim =
      { Value :=
          if prim.Edge = "falling" then "N"
          else if prim.Storage = "reset" then "R"
          else if prim.Storage = "set" then "S"
          else if prim.Edge = "rising" then "P"
          else if prim.Negated then "/"
          else "",
        Diff := DiffUnchanged } := by
    simp only [getPrimitiveText, if_neg h1, if_pos hc]
  refine ⟨key, fun _ hf => ?_⟩
  rw [key]
  simp [hf]

theorem coil_overwrite_order_witness :
    getPrimitiveText sampleXmlCoilBoth =
      { Value :=
          if sampleXmlCoilBoth.Edge = "falling" then "N"
          else if sampleXmlCoilBoth.Storage = "reset" then "R"
          else if sampleXmlCoilBoth.Storage = "set" then "S"
          else if sampleXmlCoilBoth.Edge = "rising" then "P"
          else if sampleXmlCoilBoth.Negated then "/"
          else "",
        Diff := DiffUnchanged } ∧
    (sampleXmlCoilBoth.Storage = "set" → sampleXmlCoilBoth.Edge = "falling" →
      (getPrimitiveText sampleXmlCoilBoth).Value = "N") :=
  coil_overwrite_order sampleXmlCoilBoth (by decide)

/-! ### When the builder fails -/

theorem buildBlockInputs_error_iff (i : Nat) (l : List plcxml.BlockVariable) :
    (∀ f, buildBlockInputs i l = .error f → f = Failure.indexOutOfRange) ∧
    (buildBlockInputs i l = .error Failure.indexOutOfRange ↔
      ∃ v ∈ l, v.ConnectionPointIn = []) := by
  induction l generalizing i with
  | nil => simp [buildBlockInputs]
  | cons a t ih =>
    cases hc : a.ConnectionPointIn with
    | nil =>
      have h0 : buildBlockInputs i (a :: t) = .error Failure.indexOutOfRange := by
        simp [buildBlockInputs, hc]
      refine ⟨fun f hf => ?_, fun _ => ⟨a, List.mem_cons_self _ _, hc⟩, fun _ => h0⟩
      rw [h0] at hf
      cases hf
      rfl
    | cons cp rest =>
      obtain ⟨ih1, ih2⟩ := ih (i + 1)
      cases hr : buildBlockInputs (i + 1) t with
      | error f =>
        have h0 : buildBlockInputs i (a :: t) = .error f := by
          simp [buildBlockInputs, hc, hr]
        have hf := ih1 f hr
        subst hf
        refine ⟨fun f hf => ?_, fun _ => ?_, fun _ => h0⟩
        · rw [h0] at hf
          cases hf
          rfl
        · obtain ⟨v, hv, hve⟩ := ih2.mp hr
          exact ⟨v, List.mem_cons_of_mem _ hv, hve⟩
      | ok pins =>
        have h0 : ∃ pins1, buildBlockInputs i (a :: t) = .ok pins1 := by
          simp [buildBlockInputs, hc, hr]
        obtain ⟨pins1, h0⟩ := h0
        refine ⟨fun f hf => ?_, fun h => ?_, fun ⟨v, hv, hve⟩ => ?_⟩
        · rw [h0] at hf
          cases hf
        · rw [h0] at h
          cases h
        · rcases List.mem_cons.mp hv with rfl | hvt
          · rw [hc] at hve
            cases hve
          · have := ih2.mpr ⟨v, hvt, hve⟩
            rw [hr] at this
            cases this

theorem buildBlockOutputs_error_iff (i : Nat) (l : List plcxml.BlockVariable) :
    (∀ f, buildBlockOutputs i l = .error f → f = Failure.indexOutOfRange) ∧
    (buildBlockOutputs i l = .error Failure.indexOutOfRange ↔
      ∃ v ∈ l, v.ConnectionPointOut = []) := by
  induction l generalizing i with
  | nil => simp [buildBlockOutputs]
  | cons a t ih =>
    cases hc : a.ConnectionPointOut with
    | nil =>
      have h0 : buildBlockOutputs i (a :: t) = .error Failure.indexOutOfRange := by
        simp [buildBlockOutputs, hc]
      refine ⟨fun f hf => ?_, fun _ => ⟨a, List.mem_cons_self _ _, hc⟩, fun _ => h0⟩
      rw [h0] at hf
      cases hf
      rfl
    | cons cp rest =>
      obtain ⟨ih1, ih2⟩ := ih (i + 1)
      cases hr : buildBlockOutputs (i + 1) t with
      | error f =>
        have h0 : buildBlockOutputs i (a :: t) = .error f := by
          simp [buildBlockOutputs, hc, hr]
        have hf := ih1 f hr
        subst hf
        refine ⟨fun f hf => ?_, fun _ => ?_, fun _ => h0⟩
        · rw [h0] at hf
          cases hf
          rfl
        · obtain ⟨v, hv, hve⟩ := ih2.mp hr
          exact ⟨v, List.mem_cons_of_mem _ hv, hve⟩
      | ok pins =>
        have h0 : ∃ pins1, buildBlockOutputs i (a :: t) = .ok pins1 := by
          simp [buildBlockOutputs, hc, hr]
        obtain ⟨pins1, h0⟩ := h0
        refine ⟨fun f hf => ?_, fun h => ?_, fun ⟨v, hv, hve⟩ => ?_⟩
        · rw [h0] at hf
          cases hf
        · rw [h0] at h
          cases h
        · rcases List.mem_cons.mp hv with rfl | hvt
          · rw [hc] at hve
            cases hve
          · have := ih2.mpr ⟨v, hvt, hve⟩
            rw [hr] at this
            cases this

/-- What `initBlockFromXML` returns: an element with a nil error when no variable lacks
its connection point, the out-of-range panic otherwise. -/
theorem initBlockFromXML_cases (block : plcxml.Block) :
    (block.lacksPoint ∧ initBlockFromXML block = .error Failure.indexOutOfRange) ∨
    (¬ block.lacksPoint ∧ ∃ e, initBlockFromXML block = .ok (e, none) ∧
      e.UID = block.LocalId ∧ e.Type_ = block.ElemType) := by
  obtain ⟨i1, i2⟩ := buildBlockInputs_error_iff 0 block.InputVariables.Variable
  obtain ⟨o1, o2⟩ := buildBlockOutputs_error_iff 0 block.OutputVariables.Variable
  cases hi : buildBlockInputs 0 block.InputVariables.Variable with
  | error f =>
    have := i1 f hi
    subst this
    exact Or.inl ⟨Or.inl (i2.mp hi), by simp [initBlockFromXML, hi]⟩
  | ok ins =>
    cases ho : buildBlockOutputs 0 block.OutputVariables.Variable with
    | error f =>
      have := o1 f ho
      subst this
      exact Or.inl ⟨Or.inr (o2.mp ho), by simp [initBlockFromXML, hi, ho]⟩
    | ok outs =>
      have he : ∃ e, initBlockFromXML block = .ok (e, none) ∧
          e.UID = block.LocalId ∧ e.Type_ = block.ElemType :=
        ⟨_, by simp only [initBlockFromXML, hi, ho]; rfl, rfl, rfl⟩
      refine Or.inr ⟨?_, he⟩
      rintro (h | h)
      · have := i2.mpr h
        rw [hi] at this
        cases this
      · have := o2.mpr h
        rw [ho] at this
        cases this

theorem parsePrimitives_ok (prims : List plcxml.Primitive) (m : List (String × Element)) :
    ∃ m1, parsePrimitives prims m = .ok m1 := by
  induction prims generalizing m with
  | nil => exact ⟨m, rfl⟩
  | cons a t ih =>
    obtain ⟨m1, h⟩ := ih (mapInsert m (initPrimitiveFromXML a).1.UID (initPrimitiveFromXML a).1)
    exact ⟨m1, by simpa [parsePrimitives, initPrimitiveFromXML] using h⟩

theorem parseBlocks_cases (blocks : List plcxml.Block) (m : List (String × Element)) :
    ((∃ b ∈ blocks, b.lacksPoint) ∧ parseBlocks blocks m = .error Failure.indexOutOfRange) ∨
    ((∀ b ∈ blocks, ¬ b.lacksPoint) ∧ ∃ m1, parseBlocks blocks m = .ok m1) := by
  induction blocks generalizing m with
  | nil => exact Or.inr ⟨by simp, m, rfl⟩
  | cons a t ih =>
    rcases initBlockFromXML_cases a with ⟨hl, he⟩ | ⟨hl, e, he, -, -⟩
    · exact Or.inl ⟨⟨a, List.mem_cons_self _ _, hl⟩, by simp [parseBlocks, he]⟩
    · rcases ih (mapInsert m e.UID e) with ⟨⟨b, hb, hbl⟩, h⟩ | ⟨hall, m1, h⟩
      · exact Or.inl ⟨⟨b, List.mem_cons_of_mem _ hb, hbl⟩, by simp [parseBlocks, he, h]⟩
      · refine Or.inr ⟨?_, m1, by simp [parseBlocks, he, h]⟩
        intro b hb
        rcases List.mem_cons.mp hb with rfl | hbt
        · exact hl
        · exact hall b hbt

theorem gathered_blocks (ld : plcxml.LD) :
    ld.GatherAllPrimitives.2.GatherAllBlocks
      = ld.Block.map fun block => { block with ElemType := "block" } := rfl

theorem Parse_cases (p0 : POU) (pou : plcxml.POU) :
    ((∃ b ∈ pou.Body.LD.Block, b.lacksPoint) ∧
      POU.Parse p0 pou = .error Failure.indexOutOfRange) ∨
    ((∀ b ∈ pou.Body.LD.Block, ¬ b.lacksPoint) ∧ ∃ p, POU.Parse p0 pou = .ok (p, none)) := by
  obtain ⟨m1, h1⟩ := parsePrimitives_ok pou.Body.LD.GatherAllPrimitives.1 []
  rcases parseBlocks_cases pou.Body.LD.GatherAllPrimitives.2.GatherAllBlocks m1 with
    ⟨⟨b, hb, hbl⟩, h⟩ | ⟨hall, m2, h⟩
  · rw [gathered_blocks] at hb
    obtain ⟨b0, hb0, rfl⟩ := List.mem_map.mp hb
    exact Or.inl ⟨⟨b0, hb0, hbl⟩, by simp [POU.Parse, POU.parseElements, h1, h]⟩
  · have he : ∃ p, POU.Parse p0 pou = .ok (p, none) :=
      ⟨_, by simp only [POU.Parse, POU.parseElements, h1, h]; rfl⟩
    refine Or.inr ⟨fun b hb => ?_, he⟩
    have hm : ({ b with ElemType := "block" } : plcxml.Block)
        ∈ pou.Body.LD.GatherAllPrimitives.2.GatherAllBlocks := by
      rw [gathered_blocks]
      exact List.mem_map.mpr ⟨b, hb, rfl⟩
    exact hall { b with ElemType := "block" } hm

/-- C24 (build failure condition). `initBlockFromXML` fails with an out-of-range access
exactly when some declared input variable has an empty `connectionPointIn` list or some
declared output variable has an empty `connectionPointOut` list, and otherwise returns an
element with a nil error; `initPrimitiveFromXML` always returns an element with a nil
error; `POU.Parse` fails with the out-of-range access exactly when some block of the unit
lacks such a point, and otherwise completes and returns nil. No other field of the input
(geometry, optional attributes) takes part in the condition. -/
theorem build_failure_condition :
    (∀ block : plcxml.Block,
      initBlockFromXML block = .error Failure.indexOutOfRange ↔ block.lacksPoint) ∧
    (∀ block : plcxml.Block, ¬ block.lacksPoint → ∃ e, initBlockFromXML block = .ok (e, none)) ∧
    (∀ prim : plcxml.Primitive, ∃ e, initPrimitiveFromXML prim = (e, none)) ∧
    (∀ (p0 : POU) (pou : plcxml.POU),
      POU.Parse p0 pou = .error Failure.indexOutOfRange ↔
        ∃ block ∈ pou.Body.LD.Block, block.lacksPoint) ∧
    (∀ (p0 : POU) (pou : plcxml.POU), (∀ block ∈ pou.Body.LD.Block, ¬ block.lacksPoint) →
      ∃ p, POU.Parse p0 pou = .ok (p, none)) := by
  refine ⟨fun block => ?_, fun block hl => ?_, fun prim => ⟨_, rfl⟩, fun p0 pou => ?_,
    fun p0 pou hall => ?_⟩
  · rcases initBlockFromXML_cases block with ⟨hl, he⟩ | ⟨hl, e, he, -, -⟩
    · exact ⟨fun _ => hl, fun _ => he⟩
    · exact ⟨fun h => absurd (he.symm.trans h) (by simp), fun h => absurd h hl⟩
  · rcases initBlockFromXML_cases block with ⟨hl2, -⟩ | ⟨-, e, he, -, -⟩
    · exact absurd hl2 hl
    · exact ⟨e, he⟩
  · rcases Parse_cases p0 pou with ⟨hl, he⟩ | ⟨hl, p, he⟩
    · exact ⟨fun _ => hl, fun _ => he⟩
    · exact ⟨fun h => absurd (he.symm.trans h) (by simp),
        fun ⟨b, hb, hbl⟩ => absurd hbl (hl b hb)⟩
  · rcases Parse_cases p0 pou with ⟨⟨b, hb, hbl⟩, -⟩ | ⟨-, p, he⟩
    · exact absurd hbl (hall b hb)
    · exact ⟨p, he⟩

/-! ### The element map as built -/

theorem parsePrimitives_eq (prims : List plcxml.Primitive) (m : List (String × Element)) :
    parsePrimitives prims m
      = .ok (insertAll (prims.map fun prim => (initPrimitiveFromXML prim).1) m) := by
  induction prims generalizing m with
  | nil => rfl
  | cons a t ih =>
    have := ih (mapInsert m (initPrimitiveFromXML a).1.UID (initPrimitiveFromXML a).1)
    simpa [parsePrimitives, initPrimitiveFromXML, insertAll] using this

theorem parseBlocks_eq (blocks : List plcxml.Block) (m m2 : List (String × Element))
    (h : parseBlocks blocks m = .ok m2) :
    ∃ es, List.Forall₂ (fun b e => initBlockFromXML b = .ok (e, none)) blocks es ∧
      m2 = insertAll es m := by
  induction blocks generalizing m with
  | nil =>
    simp only [parseBlocks, Except.ok.injEq] at h
    exact ⟨[], List.Forall₂.nil, h.symm⟩
  | cons a t ih =>
    rcases initBlockFromXML_cases a with ⟨-, he⟩ | ⟨-, e, he, -, -⟩
    · simp [parseBlocks, he] at h
    · simp only [parseBlocks, he] at h
      obtain ⟨es, hf, hm⟩ := ih _ h
      exact ⟨e :: es, List.Forall₂.cons he hf, hm⟩

theorem mapInsert_keys (m : List (String × Element)) (key : String) (elem : Element) :
    (mapInsert m key elem).map Prod.fst
      = if key ∈ m.map Prod.fst then m.map Prod.fst else m.map Prod.fst ++ [key] := by
  induction m with
  | nil => simp [mapInsert]
  | cons kv rest ih =>
    by_cases hk : kv.1 = key
    · simp [mapInsert, hk]
    · have hk2 : ¬ key = kv.1 := fun h => hk h.symm
      simp only [mapInsert, if_neg hk, List.map_cons, ih, List.mem_cons, hk2, false_or]
      split_ifs <;> simp

theorem mapInsert_nodup (m : List (String × Element)) (key : String) (elem : Element)
    (hn : (m.map Prod.fst).Nodup) : ((mapInsert m key elem).map Prod.fst).Nodup := by
  rw [mapInsert_keys]
  split_ifs with hk
  · exact hn
  · exact List.Nodup.append hn (List.nodup_singleton _) (by simpa using hk)

theorem mapInsert_mem (m : List (String × Element)) (key : String) (elem : Element)
    (hn : (m.map Prod.fst).Nodup) (id : String) (e : Element) :
    (id, e) ∈ mapInsert m key elem ↔ (id = key ∧ e = elem) ∨ (id ≠ key ∧ (id, e) ∈ m) := by
  induction m with
  | nil => simp [mapInsert]
  | cons kv rest ih =>
    have hn2 := List.nodup_cons.mp hn
    by_cases hk : kv.1 = key
    · simp only [mapInsert, if_pos hk, List.mem_cons, Prod.mk.injEq]
      constructor
      · rintro (⟨h1, h2⟩ | h)
        · exact Or.inl ⟨h1, h2⟩
        · refine Or.inr ⟨fun hid => hn2.1 ?_, Or.inr h⟩
          rw [hk, ← hid]
          exact List.mem_map.mpr ⟨(id, e), h, rfl⟩
      · rintro (⟨h1, h2⟩ | ⟨h1, h2 | h2⟩)
        · exact Or.inl ⟨h1, h2⟩
        · exact absurd ((congrArg Prod.fst h2).trans hk) h1
        · exact Or.inr h2
    · simp only [mapInsert, if_neg hk, List.mem_cons, ih hn2.2]
      constructor
      · rintro (h | ⟨h1, h2⟩ | ⟨h1, h2⟩)
        · refine Or.inr ⟨fun hid => hk ?_, Or.inl h⟩
          rw [← hid, ← h]
        · exact Or.inl ⟨h1, h2⟩
        · exact Or.inr ⟨h1, Or.inr h2⟩
      · rintro (⟨h1, h2⟩ | ⟨h1, h2 | h2⟩)
        · exact Or.inr (Or.inl ⟨h1, h2⟩)
        · exact Or.inl h2
        · exact Or.inr (Or.inr ⟨h1, h2⟩)

theorem insertAll_spec (es : List Element) (m : List (String × Element))
    (hn : (m.map Prod.fst).Nodup) :
    ((insertAll es m).map Prod.fst).Nodup ∧
    (∀ id, id ∈ (insertAll es m).map Prod.fst ↔
      id ∈ m.map Prod.fst ∨ id ∈ es.map fun x => x.UID) ∧
    ∀ id e, (id, e) ∈ insertAll es m ↔
      es.reverse.find? (fun x => decide (x.UID = id)) = some e ∨
        (es.reverse.find? (fun x => decide (x.UID = id)) = none ∧ (id, e) ∈ m) := by
  induction es generalizing m with
  | nil => simp [insertAll, hn]
  | cons x t ih =>
    obtain ⟨h1, h2, h3⟩ := ih (mapInsert m x.UID x) (mapInsert_nodup m x.UID x hn)
    refine ⟨h1, fun id => ?_, fun id e => ?_⟩
    · have := h2 id
      simp only [insertAll, List.foldl_cons] at this ⊢
      rw [this, mapInsert_keys]
      split_ifs with hk
      · simp only [List.map_cons, List.mem_cons]
        constructor
        · rintro (h | h)
          · exact Or.inl h
          · exact Or.inr (Or.inr h)
        · rintro (h | h | h)
          · exact Or.inl h
          · exact Or.inl (h ▸ hk)
          · exact Or.inr h
      · simp only [List.map_cons, List.mem_cons, List.mem_append, List.mem_singleton]
        tauto
    · have := h3 id e
      simp only [insertAll, List.foldl_cons] at this ⊢
      rw [this, mapInsert_mem m x.UID x hn, List.reverse_cons, List.find?_append]
      cases hf : List.find? (fun x => decide (x.UID = id)) t.reverse with
      | some y => simp
      | none =>
        by_cases hx : x.UID = id
        · simp only [List.find?, hx, decide_True, Option.none_or, Option.some.injEq,
            ne_eq, not_true_eq_false, false_and, or_false, true_and, and_false, and_true,
            or_self, reduceCtorEq, false_or]
          exact eq_comm
        · have hx2 : ¬ id = x.UID := fun h => hx h.symm
          simp [List.find?, hx, hx2]

theorem find?_forall₂ {α β : Type} {R : α → β → Prop} {p : α → Bool} {q : β → Bool}
    (hpq : ∀ a b, R a b → p a = q b) {l1 : List α} {l2 : List β}
    (h : List.Forall₂ R l1 l2) :
    (l1.find? p = none ∧ l2.find? q = none) ∨
      ∃ a b, l1.find? p = some a ∧ l2.find? q = some b ∧ R a b := by
  induction h with
  | nil => exact Or.inl ⟨rfl, rfl⟩
  | @cons a b t1 t2 hab _ ih =>
    cases hp : p a with
    | true =>
      exact Or.inr ⟨a, b, by simp [List.find?, hp], by simp [List.find?, ← hpq a b hab, hp], hab⟩
    | false =>
      have hq : q b = false := by rw [← hpq a b hab, hp]
      simpa [List.find?, hp, hq] using ih

theorem records_built (pou : plcxml.POU) (p0 p : POU) (err : Option String)
    (h : POU.Parse p0 pou = .ok (p, err)) :
    ∃ es, List.Forall₂ (fun r e => buildRecord r = .ok (e, none)) pou.Body.LD.records es ∧
      p.Elements = insertAll es [] := by
  have h1 := parsePrimitives_eq pou.Body.LD.GatherAllPrimitives.1 []
  cases h2 : parseBlocks pou.Body.LD.GatherAllPrimitives.2.GatherAllBlocks
      (insertAll (pou.Body.LD.GatherAllPrimitives.1.map
        fun prim => (initPrimitiveFromXML prim).1) []) with
  | error f => simp [POU.Parse, POU.parseElements, h1, h2] at h
  | ok m2 =>
    obtain ⟨es, hf, hm⟩ := parseBlocks_eq _ _ _ h2
    simp only [POU.Parse, POU.parseElements, h1, h2, Except.ok.injEq, Prod.mk.injEq] at h
    refine ⟨pou.Body.LD.GatherAllPrimitives.1.map (fun prim => (initPrimitiveFromXML prim).1)
      ++ es, ?_, ?_⟩
    · refine List.rel_append ?_ ?_
      · rw [List.forall₂_map_left_iff, List.forall₂_map_right_iff]
        exact List.forall₂_same.mpr fun _ _ => rfl
      · rw [List.forall₂_map_left_iff]
        exact hf
    · rw [← h.1, hm]
      simp [insertAll, List.foldl_append]

theorem buildRecord_id (r : plcxml.Primitive ⊕ plcxml.Block) (e : Element)
    (h : buildRecord r = .ok (e, none)) : e.UID = recordId r := by
  cases r with
  | inl prim =>
    simp only [buildRecord, Except.ok.injEq] at h
    exact (congrArg (fun x => x.1.UID) h).symm
  | inr block =>
    rcases initBlockFromXML_cases block with ⟨-, he⟩ | ⟨-, e2, he, hu, -⟩
    · simp [buildRecord, he] at h
    · simp only [buildRecord, he, Except.ok.injEq, Prod.mk.injEq, and_true] at h
      rw [← h]
      exact hu

theorem built_ids {rs : List (plcxml.Primitive ⊕ plcxml.Block)} {es : List Element}
    (h : List.Forall₂ (fun r e => buildRecord r = .ok (e, none)) rs es) :
    es.map (fun x => x.UID) = rs.map recordId := by
  induction h with
  | nil => rfl
  | cons hab _ ih => simp [ih, buildRecord_id _ _ hab]

/-- C25 (id-keyed diagram). Whenever `POU.Parse` completes: every key of the element map
is the id of the element stored under it; keys (and so ids) are pairwise distinct; the
key set is the set of local identifiers of the records of the unit; the records are
visited in the order left power rails, contacts, coils, right power rails, connectors,
continuations, in-out variables, in variables, out variables, then blocks; the element
kept under an id is the one built from the last record carrying that id; and so every
block of the unit is present under its id as an element of type `block`, whatever
primitive shares that id. -/
theorem id_keyed_diagram (p0 p : POU) (pou : plcxml.POU) (err : Option String)
    (h : POU.Parse p0 pou = .ok (p, err)) :
    (∀ kv ∈ p.Elements, kv.1 = kv.2.UID) ∧
    (p.Elements.map Prod.fst).Nodup ∧ p.UniqueIds ∧
    (∀ id, id ∈ p.Elements.map Prod.fst ↔ id ∈ pou.Body.LD.records.map recordId) ∧
    pou.Body.LD.records =
      (plcxml.tagPrimitives "leftPowerRail" pou.Body.LD.LeftPowerRail
        ++ plcxml.tagPrimitives "contact" pou.Body.LD.Contact
        ++ plcxml.tagPrimitives "coil" pou.Body.LD.Coil
        ++ plcxml.tagPrimitives "rightPowerRail" pou.Body.LD.RightPowerRail
        ++ plcxml.tagPrimitives "connector" pou.Body.LD.Connector
        ++ plcxml.tagPrimitives "continuation" pou.Body.LD.Continuation
        ++ plcxml.tagPrimitives "inOutVariable" pou.Body.LD.InOutVariable
        ++ plcxml.tagPrimitives "inVariable" pou.Body.LD.InVariable
        ++ plcxml.tagPrimitives "outVariable" pou.Body.LD.OutVariable).map Sum.inl
      ++ (pou.Body.LD.Block.map fun block => { block with ElemType := "block" }).map Sum.inr ∧
    (∀ id e, (id, e) ∈ p.Elements ↔
      ∃ r, pou.Body.LD.records.reverse.find? (fun r => decide (recordId r = id)) = some r ∧
        buildRecord r = .ok (e, none)) ∧
    (∀ block ∈ pou.Body.LD.Block,
      ∃ e, (block.LocalId, e) ∈ p.Elements ∧ e.Type_ = "block") := by
  obtain ⟨es, hf, hm⟩ := records_built pou p0 p err h
  obtain ⟨n1, n2, n3⟩ := insertAll_spec es [] List.nodup_nil
  rw [← hm] at n1 n2 n3
  have hfind : ∀ id,
      (pou.Body.LD.records.reverse.find? (fun r => decide (recordId r = id)) = none ∧
        es.reverse.find? (fun x => decide (x.UID = id)) = none) ∨
      ∃ r e, pou.Body.LD.records.reverse.find? (fun r => decide (recordId r = id)) = some r ∧
        es.reverse.find? (fun x => decide (x.UID = id)) = some e ∧
        buildRecord r = .ok (e, none) := fun id =>
    find?_forall₂ (fun a b hab => by rw [buildRecord_id a b hab]) (List.rel_reverse hf)
  have hkey : ∀ kv ∈ p.Elements, kv.1 = kv.2.UID := by
    intro kv hkv
    rcases (n3 kv.1 kv.2).mp hkv with h1 | ⟨-, h1⟩
    · have hd := List.find?_some h1
      exact (of_decide_eq_true hd).symm
    · cases h1
  have hmem : ∀ id e, (id, e) ∈ p.Elements ↔
      ∃ r, pou.Body.LD.records.reverse.find? (fun r => decide (recordId r = id)) = some r ∧
        buildRecord r = .ok (e, none) := by
    intro id e
    rw [n3 id e]
    rcases hfind id with ⟨h1, h2⟩ | ⟨r, e2, h1, h2, h3⟩
    · simp [h1, h2]
    · simp only [h1, h2, Option.some.injEq, List.not_mem_nil, and_false, or_false,
        exists_eq_left', reduceCtorEq, false_and]
      constructor
      · rintro rfl
        exact h3
      · intro h4
        rw [h3] at h4
        simp only [Except.ok.injEq, Prod.mk.injEq, and_true] at h4
        exact h4
  refine ⟨hkey, n1, ?_, fun id => ?_, rfl, hmem, fun block hb => ?_⟩
  · have : p.ids = p.Elements.map Prod.fst :=
      List.map_congr_left fun kv hkv => (hkey kv hkv).symm
    rw [POU.UniqueIds, this]
    exact n1
  · rw [n2 id, built_ids hf]
    simp
  · have hin : (Sum.inr { block with ElemType := "block" } : plcxml.Primitive ⊕ plcxml.Block)
        ∈ (pou.Body.LD.GatherAllPrimitives.2.GatherAllBlocks.map Sum.inr).reverse := by
      rw [gathered_blocks]
      exact List.mem_reverse.mpr
        (List.mem_map.mpr ⟨_, List.mem_map.mpr ⟨block, hb, rfl⟩, rfl⟩)
    have hs : ((pou.Body.LD.GatherAllPrimitives.2.GatherAllBlocks.map Sum.inr).reverse.find?
        (fun r => decide (recordId r = block.LocalId))).isSome = true :=
      List.find?_isSome.mpr ⟨_, hin, by simp [recordId]⟩
    obtain ⟨r, hr⟩ := Option.isSome_iff_exists.mp hs
    have hrec : pou.Body.LD.records.reverse.find?
        (fun r => decide (recordId r = block.LocalId)) = some r := by
      rw [plcxml.LD.records, List.reverse_append, List.find?_append, hr]
      rfl
    have hrm := List.mem_of_find?_eq_some hr
    rw [gathered_blocks, List.mem_reverse, List.mem_map] at hrm
    obtain ⟨b2, hb2, rfl⟩ := hrm
    obtain ⟨b3, -, rfl⟩ := List.mem_map.mp hb2
    rcases hfind block.LocalId with ⟨h1, -⟩ | ⟨r, e, h1, -, h3⟩
    · rw [hrec] at h1
      cases h1
    · rw [hrec] at h1
      cases h1
      refine ⟨e, (hmem _ _).mpr ⟨_, hrec, h3⟩, ?_⟩
      rcases initBlockFromXML_cases { b3 with ElemType := "block" } with
        ⟨-, he⟩ | ⟨-, e2, he, -, ht⟩
      · simp [buildRecord, he] at h3
      · simp only [buildRecord, he, Except.ok.injEq, Prod.mk.injEq, and_true] at h3
        rw [← h3]
        exact ht

theorem id_keyed_diagram_witness :
    ∃ p err, POU.Parse {} sampleXmlShared = .ok (p, err) ∧
      p.Elements.map (fun kv => (kv.1, kv.2.Type_))
        = [("1", "leftPowerRail"), ("2", "contact"), ("4", "block"), ("3", "coil")] ∧
      (∀ kv ∈ p.Elements, kv.1 = kv.2.UID) ∧
      (p.Elements.map Prod.fst).Nodup ∧ p.UniqueIds ∧
      (∀ block ∈ sampleXmlShared.Body.LD.Block,
        ∃ e, (block.LocalId, e) ∈ p.Elements ∧ e.Type_ = "block") :=
  ⟨_, _, rfl, rfl, (id_keyed_diagram {} _ sampleXmlShared _ rfl).1,
    (id_keyed_diagram {} _ sampleXmlShared _ rfl).2.1,
    (id_keyed_diagram {} _ sampleXmlShared _ rfl).2.2.1,
    (id_keyed_diagram {} _ sampleXmlShared _ rfl).2.2.2.2.2.2⟩

/-! ### Visiting order -/

/-- C26 (iteration order is irrelevant). For two units with unique ids, and any
permutation of the entries of either unit, `CalculateDiff` returns on both inputs, every
entry is sent to the same result entry in the permuted run as in the original run (the
closed forms `oldSide` and `newSide` against the original units, whatever the position
at which the entry is visited), and so the results are permutations of each other: every
element, label and connection receives the same marker whatever the visiting order. -/
theorem iteration_order_irrelevant (p q p2 q2 : POU) (hp : p.UniqueIds) (hq : q.UniqueIds)
    (hpp : p2.Elements.Perm p.Elements) (hqq : q2.Elements.Perm q.Elements) :
    ∃ a b a2 b2 : POU,
      p.CalculateDiff q = some (a, b) ∧ p2.CalculateDiff q2 = some (a2, b2) ∧
      a.Elements = p.Elements.map (fun kv => (kv.1, oldSide kv.2 q.elems)) ∧
      a2.Elements = p2.Elements.map (fun kv => (kv.1, oldSide kv.2 q.elems)) ∧
      b.Elements = q.Elements.map (fun kv => (kv.1, newSide p.elems kv.2)) ∧
      b2.Elements = q2.Elements.map (fun kv => (kv.1, newSide p.elems kv.2)) ∧
      a2.Elements.Perm a.Elements ∧ b2.Elements.Perm b.Elements := by
  have hp2 : p2.UniqueIds := ((hpp.map _).nodup_iff).mpr hp
  have hq2 : q2.UniqueIds := ((hqq.map _).nodup_iff).mpr hq
  have hpe : p2.elems.Perm p.elems := hpp.map _
  have hqe : q2.elems.Perm q.elems := hqq.map _
  have hf : (fun kv : String × Element => (kv.1, oldSide kv.2 q2.elems))
      = fun kv => (kv.1, oldSide kv.2 q.elems) := by
    funext kv
    simp only [oldSide, findUID_perm (nodup_elems_of_unique hq) hqe]
  have hg : (fun kv : String × Element => (kv.1, newSide p2.elems kv.2))
      = fun kv => (kv.1, newSide p.elems kv.2) := by
    funext kv
    simp only [newSide, findUID_perm (nodup_elems_of_unique hp) hpe]
  refine ⟨_, _, _, _, CalculateDiff_unique p q hp hq,
    CalculateDiff_unique p2 q2 hp2 hq2, rfl, ?_, rfl, ?_, ?_, ?_⟩
  · simp only [hf]
  · simp only [hg]
  · simp only [hf]
    exact hpp.map _
  · simp only [hg]
    exact hqq.map _

theorem iteration_order_irrelevant_witness :
    sampleOld.UniqueIds ∧ sampleShort.UniqueIds ∧
    ∃ a b a2 b2 : POU,
      sampleOld.CalculateDiff sampleShort = some (a, b) ∧
      POU.CalculateDiff { sampleOld with Elements := sampleOld.Elements.reverse }
        { sampleShort with Elements := sampleShort.Elements.reverse } = some (a2, b2) ∧
      a.Elements = sampleOld.Elements.map (fun kv => (kv.1, oldSide kv.2 sampleShort.elems)) ∧
      a2.Elements
        = sampleOld.Elements.reverse.map (fun kv => (kv.1, oldSide kv.2 sampleShort.elems)) ∧
      b.Elements = sampleShort.Elements.map (fun kv => (kv.1, newSide sampleOld.elems kv.2)) ∧
      b2.Elements
        = sampleShort.Elements.reverse.map (fun kv => (kv.1, newSide sampleOld.elems kv.2)) ∧
      a2.Elements.Perm a.Elements ∧ b2.Elements.Perm b.Elements :=
  ⟨by decide, by decide,
    iteration_order_irrelevant sampleOld sampleShort
      { sampleOld with Elements := sampleOld.Elements.reverse }
      { sampleShort with Elements := sampleShort.Elements.reverse } (by decide) (by decide)
      (List.reverse_perm _) (List.reverse_perm _)⟩

/-! ### Pin reorder -/

theorem markPins_disjoint (d : Diff) {pins2 pins : List Pin} {n : Nat} {pin pin2 : Pin}
    (h : pins[n]? = some pin) (h2 : pins2[n]? = some pin2)
    (hno : ∀ c ∈ pin.Connections, ∀ c2 ∈ pin2.Connections, c.wire ≠ c2.wire) :
    (markPins d pins2 0 pins)[n]?
      = some { pin with Connections := pin.Connections.map fun c => { c with Diff := d } } := by
  rw [markPins_getElem?, h, Option.map_some', Nat.zero_add]
  congr 2
  refine List.map_congr_left fun c hc => ?_
  have hw : c.wire ∉ wiresAt pins2 n := by
    simp only [wiresAt, h2, Pin.wires, List.mem_map, not_exists, not_and]
    exact fun c2 hc2 he => hno c hc c2 hc2 he.symm
  simp [markConnection, (unmatched_iff pins2 n c).mpr hw]

/-- C27 (pin reorder is reported as delete plus add). Two units with unique ids, an
element `e` of the old one and an element `e2` of the new one with the same id; input
pins `a` and `b` of `e` are `pa` and `pb`, input pins `a` and `b` of `e2` are `pb` and
`pa` (the two pins swapped), and no connection of `pa` has the pair
`(TargetRef, TargetLabel)` of a connection of `pb`. `CalculateDiff` returns; afterwards
input pins `a` and `b` of the old element are `pa` and `pb` with every connection
`Deleted`, and input pins `a` and `b` of the new element are `pb` and `pa` with every
connection `Added`. -/
theorem pin_reorder (p q : POU) (hp : p.UniqueIds) (hq : q.UniqueIds) (i j : Nat)
    (k k2 : String) (e e2 : Element) (hi : p.Elements[i]? = some (k, e))
    (hj : q.Elements[j]? = some (k2, e2)) (hid : e.UID = e2.UID)
    (a b : Nat) (pa pb : Pin) (ha : e.Inputs[a]? = some pa) (hb : e.Inputs[b]? = some pb)
    (ha2 : e2.Inputs[a]? = some pb) (hb2 : e2.Inputs[b]? = some pa)
    (hno : ∀ c ∈ pa.Connections, ∀ c2 ∈ pb.Connections, c.wire ≠ c2.wire) :
    ∃ p1 q1 e1 e21, p.CalculateDiff q = some (p1, q1) ∧
      p1.Elements[i]? = some (k, e1) ∧ q1.Elements[j]? = some (k2, e21) ∧
      e1.Inputs[a]? = some { pa with
        Connections := pa.Connections.map fun c => { c with Diff := DiffDeleted } } ∧
      e1.Inputs[b]? = some { pb with
        Connections := pb.Connections.map fun c => { c with Diff := DiffDeleted } } ∧
      e21.Inputs[a]? = some { pb with
        Connections := pb.Connections.map fun c => { c with Diff := DiffAdded } } ∧
      e21.Inputs[b]? = some { pa with
        Connections := pa.Connections.map fun c => { c with Diff := DiffAdded } } := by
  obtain ⟨p1, q1, h, h1, h2⟩ := CalculateDiff_pair p q hp hq hi hj hid
  have hno2 : ∀ c ∈ pb.Connections, ∀ c2 ∈ pa.Connections, c.wire ≠ c2.wire :=
    fun c hc c2 hc2 he => hno c2 hc2 c hc he.symm
  have f1 : (pairDiff e e2).1.Inputs = markPins DiffDeleted e2.Inputs 0 e.Inputs :=
    pairDiff_fst_pins e e2 false
  have f2 : (pairDiff e e2).2.Inputs = markPins DiffAdded e.Inputs 0 e2.Inputs :=
    pairDiff_snd_pins e e2 false
  refine ⟨p1, q1, _, _, h, h1, h2, ?_, ?_, ?_, ?_⟩
  · rw [f1]
    exact markPins_disjoint _ ha ha2 hno
  · rw [f1]
    exact markPins_disjoint _ hb hb2 hno2
  · rw [f2]
    exact markPins_disjoint _ ha2 ha hno2
  · rw [f2]
    exact markPins_disjoint _ hb2 hb hno

theorem pin_reorder_witness :
    ∃ p1 q1 e1 e21, sampleTimed.CalculateDiff samplePinsSwapped = some (p1, q1) ∧
      p1.Elements[2]? = some ("4", e1) ∧ q1.Elements[2]? = some ("4", e21) ∧
      e1.Inputs[0]? = some
        { Label := { Value := "IN" }, Connections := [{ TargetRef := "2", Diff := DiffDeleted }] } ∧
      e1.Inputs[1]? = some
        { Label := { Value := "PT" }, Connections := [{ TargetRef := "5", Diff := DiffDeleted }] } ∧
      e21.Inputs[0]? = some
        { Label := { Value := "PT" }, Connections := [{ TargetRef := "5", Diff := DiffAdded }] } ∧
      e21.Inputs[1]? = some
        { Label := { Value := "IN" }, Connections := [{ TargetRef := "2", Diff := DiffAdded }] } :=
  pin_reorder sampleTimed samplePinsSwapped (by decide) (by decide) 2 2 "4" "4" sampleTimer
    sampleTimerPinsSwapped (by decide) (by decide) (by decide) 0 1
    { Label := { Value := "IN" }, Connections := [{ TargetRef := "2" }] }
    { Label := { Value := "PT" }, Connections := [{ TargetRef := "5" }] }
    (by decide) (by decide) (by decide) (by decide) (by decide)

/-! ### Direction of the markers -/

theorem pinMarkers_markPins (d : Diff) (pins2 : List Pin) (i : Nat) (pins : List Pin) (m : Diff)
    (hm : m ∈ pinMarkers (markPins d pins2 i pins)) : m = d ∨ m ∈ pinMarkers pins := by
  induction pins generalizing i with
  | nil => simp [markPins, pinMarkers] at hm
  | cons pin rest ih =>
    simp only [markPins, pinMarkers, List.cons_append, List.mem_cons, List.mem_append,
      List.mem_map, exists_exists_and_eq_and] at hm ⊢
    rcases hm with h | ⟨c, hc, rfl⟩ | h
    · exact Or.inr (Or.inl h)
    · by_cases hu : unmatched pins2 i c = true
      · exact Or.inl (by simp [markConnection, hu])
      · exact Or.inr (Or.inr (Or.inl ⟨c, hc, by simp [markConnection, hu]⟩))
    · rcases ih (i + 1) h with h2 | h2
      · exact Or.inl h2
      · exact Or.inr (Or.inr (Or.inr h2))

theorem stampBy_markers (d : Diff) (cs : Bool × Bool × Bool) (o x : Element) (m : Diff)
    (hm : m ∈ (stampBy d cs o x).markers) : m = d ∨ m ∈ x.markers := by
  simp only [Element.markers, stampBy, stampLabels, Element.markWires, List.mem_cons,
    List.mem_append] at hm ⊢
  rcases hm with h | h | h | h | h | h | h
  · by_cases hc : cs.1 = true
    · exact Or.inl (by simpa [hc] using h)
    · exact Or.inr (Or.inl (by simpa [hc] using h))
  · by_cases hc : cs.2.2 = true
    · exact Or.inl (by simpa [hc] using h)
    · exact Or.inr (Or.inr (Or.inl (by simpa [hc] using h)))
  · by_cases hc : cs.2.1 = true
    · exact Or.inl (by simpa [hc] using h)
    · exact Or.inr (Or.inr (Or.inr (Or.inl (by simpa [hc] using h))))
  · exact Or.inr (Or.inr (Or.inr (Or.inr (Or.inl h))))
  · exact Or.inr (Or.inr (Or.inr (Or.inr (Or.inr (Or.inl h)))))
  · rcases pinMarkers_markPins d _ _ _ m h with h2 | h2
    · exact Or.inl h2
    · exact Or.inr (Or.inr (Or.inr (Or.inr (Or.inr (Or.inr (Or.inl h2))))))
  · rcases pinMarkers_markPins d _ _ _ m h with h2 | h2
    · exact Or.inl h2
    · exact Or.inr (Or.inr (Or.inr (Or.inr (Or.inr (Or.inr (Or.inr h2))))))

theorem oldSide_markers (e : Element) (news : List Element) (m : Diff)
    (hm : m ∈ (oldSide e news).markers) : m = DiffDeleted ∨ m ∈ e.markers := by
  unfold oldSide at hm
  cases hf : findUID e.UID news with
  | none =>
    rw [hf] at hm
    exact Or.inl (markDeleted_allMarked e m hm)
  | some x =>
    rw [hf] at hm
    simp only [pairDiff_eq_stamp] at hm
    exact stampBy_markers _ _ _ _ m hm

theorem touch_markers (e : Element) (news : List Element) (P : Element → Prop)
    (hP : ∀ x ∈ news, P x)
    (hs : ∀ x, P x → P (pairDiff e x).2) : ∀ x ∈ touch e news, P x := by
  induction news with
  | nil => simp [touch]
  | cons a t ih =>
    have hPt : ∀ x ∈ t, P x := fun x hx => hP x (List.mem_cons_of_mem _ hx)
    have hPa : P a := hP a (List.mem_cons_self _ _)
    by_cases h : e.UID = a.UID
    · simp only [touch, if_pos h, List.mem_cons, forall_eq_or_imp]
      exact ⟨hs a hPa, hPt⟩
    · simp only [touch, if_neg h, List.mem_cons, forall_eq_or_imp]
      exact ⟨hPa, ih hPt⟩

theorem outerNews_markers (olds news : List Element) (P : Element → Prop)
    (hP : ∀ x ∈ news, P x)
    (hs : ∀ e x, P x → P (pairDiff e x).2) : ∀ x ∈ outerNews olds news, P x := by
  induction olds generalizing news with
  | nil => exact hP
  | cons e rest ih => exact ih _ (touch_markers e news P hP (hs e))

theorem mem_rekey {kvs : List (String × Element)} {es : List Element} {kv : String × Element}
    (h : kv ∈ rekey kvs es) : kv.2 ∈ es := by
  induction kvs generalizing es with
  | nil => simp [rekey] at h
  | cons a t ih =>
    cases es with
    | nil => simp [rekey] at h
    | cons x xs =>
      simp only [rekey, List.mem_cons] at h ⊢
      rcases h with rfl | h
      · exact Or.inl rfl
      · exact Or.inr (ih h)

/-- C28 (marker direction invariant). For two units whose markers are all `Unchanged`
before the call, `CalculateDiff` returns, and afterwards no marker of an element of the
old unit (element, label, pin label, connection) is `Added` and no marker of an element
of the new unit is `Deleted`. -/
theorem marker_direction (p q : POU) (hp : p.AllMarked DiffUnchanged)
    (hq : q.AllMarked DiffUnchanged) :
    ∃ p1 q1, p.CalculateDiff q = some (p1, q1) ∧
      (∀ kv ∈ p1.Elements, DiffAdded ∉ kv.2.markers) ∧
      (∀ kv ∈ q1.Elements, DiffDeleted ∉ kv.2.markers) := by
  refine ⟨_, _, CalculateDiff_eq_backSide p q, ?_, ?_⟩
  · intro kv hkv hm
    obtain ⟨kv0, hkv0, rfl⟩ := List.mem_map.mp hkv
    rcases oldSide_markers _ _ _ hm with h | h
    · cases h
    · cases hp kv0 hkv0 _ h
  · intro kv hkv hm
    have hmem := mem_rekey hkv
    obtain ⟨x, hx, hxe⟩ := List.mem_map.mp hmem
    have hx2 : DiffDeleted ∉ x.markers := by
      refine outerNews_markers p.elems q.elems (fun x => DiffDeleted ∉ x.markers) ?_ ?_ x hx
      · intro y hy hm2
        obtain ⟨kv2, hkv2, rfl⟩ := List.mem_map.mp hy
        cases hq kv2 hkv2 _ hm2
      · intro e y hy hm2
        simp only [pairDiff_eq_stamp] at hm2
        rcases stampBy_markers _ _ _ _ _ hm2 with h | h
        · cases h
        · exact hy h
    rw [← hxe] at hm
    unfold backSide at hm
    split at hm
    · exact hx2 hm
    · cases markAdded_allMarked x _ hm

theorem marker_direction_witness :
    sampleTimed.AllMarked DiffUnchanged ∧ sampleRetyped.AllMarked DiffUnchanged ∧
    ∃ p1 q1, sampleTimed.CalculateDiff sampleRetyped = some (p1, q1) ∧
      (∀ kv ∈ p1.Elements, DiffAdded ∉ kv.2.markers) ∧
      (∀ kv ∈ q1.Elements, DiffDeleted ∉ kv.2.markers) :=
  ⟨by decide, by decide, marker_direction sampleTimed sampleRetyped (by decide) (by decide)⟩

/-! ### Mirror symmetry -/

theorem conds_symm (a b : Element) : conds a b = conds b a := by
  simp only [conds, Prod.mk.injEq]
  refine ⟨decide_eq_decide.mpr ?_, decide_eq_decide.mpr ?_, decide_eq_decide.mpr ?_⟩
  · constructor
    · rintro ⟨h1, h2, h3⟩
      exact ⟨h1.symm, h1 ▸ h2, fun h => h3 h.symm⟩
    · rintro ⟨h1, h2, h3⟩
      exact ⟨h1.symm, h1 ▸ h2, fun h => h3 h.symm⟩
  · constructor
    · rintro ⟨h0, h4⟩
      exact ⟨fun ⟨h1, h2, h3⟩ => h0 ⟨h1.symm, h1 ▸ h2, fun h => h3 h.symm⟩,
        fun h => h4 h.symm⟩
    · rintro ⟨h0, h4⟩
      exact ⟨fun ⟨h1, h2, h3⟩ => h0 ⟨h1.symm, h1 ▸ h2, fun h => h3 h.symm⟩,
        fun h => h4 h.symm⟩
  · constructor
    · rintro ⟨h0, h4⟩
      exact ⟨fun ⟨h1, h2⟩ => h0 ⟨h1.symm, h1 ▸ h2⟩, fun h => h4 h.symm⟩
    · rintro ⟨h0, h4⟩
      exact ⟨fun ⟨h1, h2⟩ => h0 ⟨h1.symm, h1 ▸ h2⟩, fun h => h4 h.symm⟩

theorem unmatched_swap (pins2 : List Pin) (i : Nat) (c : Connection) :
    unmatched pins2 i c.swapMarkers = unmatched pins2 i c := rfl

theorem markConnection_swap (d : Diff) (pins2 : List Pin) (i : Nat) (c : Connection) :
    (markConnection d pins2 i c).swapMarkers = markConnection d.swap pins2 i c.swapMarkers := by
  unfold markConnection
  rw [unmatched_swap]
  split <;> rfl

theorem markPins_swap (d : Diff) (pins2 : List Pin) (i : Nat) (pins : List Pin) :
    (markPins d pins2 i pins).map Pin.swapMarkers
      = markPins d.swap pins2 i (pins.map Pin.swapMarkers) := by
  induction pins generalizing i with
  | nil => rfl
  | cons pin rest ih =>
    simp only [markPins, List.map_cons, ih, Pin.swapMarkers, List.map_map, List.cons.injEq,
      and_true, Pin.mk.injEq, true_and]
    apply List.map_congr_left
    intro c _
    exact markConnection_swap d pins2 i c

theorem stampBy_swap (d : Diff) (cs : Bool × Bool × Bool) (o x : Element) :
    (stampBy d cs o x).swapMarkers = stampBy d.swap cs o x.swapMarkers := by
  simp only [stampBy, stampLabels, Element.markWires, Element.swapMarkers, markPins_swap,
    MutableString.swapMarkers, apply_ite Diff.swap]

theorem markPin_swap (d : Diff) (pin : Pin) : (markPin d pin).swapMarkers = markPin d.swap pin := by
  simp [markPin, Pin.swapMarkers, MutableString.swapMarkers, Connection.swapMarkers,
    Function.comp_def]

theorem markDeleted_swap (e : Element) : e.markDeleted.swapMarkers = e.markAdded := by
  simp [Element.markDeleted, Element.markAdded, Element.markAllLabelsDeleted,
    Element.markAllLabelsAdded, Element.markAllConnectionsDeleted,
    Element.markAllConnectionsAdded, Element.swapMarkers, MutableString.swapMarkers,
    Function.comp_def, markPin_swap, Diff.swap]

theorem markAdded_swap (e : Element) : e.markAdded.swapMarkers = e.markDeleted := by
  simp [Element.markDeleted, Element.markAdded, Element.markAllLabelsDeleted,
    Element.markAllLabelsAdded, Element.markAllConnectionsDeleted,
    Element.markAllConnectionsAdded, Element.swapMarkers, MutableString.swapMarkers,
    Function.comp_def, markPin_swap, Diff.swap]

theorem swapConnection_of_unchanged {c : Connection} (h : c.Diff = DiffUnchanged) :
    c.swapMarkers = c := by
  cases c
  simp only at h
  subst h
  rfl

theorem swapText_of_unchanged {t : MutableString} (h : t.Diff = DiffUnchanged) :
    t.swapMarkers = t := by
  cases t
  simp only at h
  subst h
  rfl

theorem swapPin_of_unchanged {pin : Pin} (hl : pin.Label.Diff = DiffUnchanged)
    (hc : ∀ c ∈ pin.Connections, c.Diff = DiffUnchanged) : pin.swapMarkers = pin := by
  have hcs : pin.Connections.map Connection.swapMarkers = pin.Connections :=
    (List.map_congr_left fun c hcm => swapConnection_of_unchanged (hc c hcm)).trans
      (List.map_id _)
  simp only [Pin.swapMarkers, swapText_of_unchanged hl, hcs]

theorem swapMarkers_of_allMarked {e : Element} (h : e.AllMarked DiffUnchanged) :
    e.swapMarkers = e := by
  obtain ⟨h1, h2, h3, h4, h5, h6, h7⟩ := (allMarked_iff _ _).mp h
  have hpin : ∀ pins : List Pin,
      (∀ pin ∈ pins, pin.Label.Diff = DiffUnchanged ∧
        ∀ c ∈ pin.Connections, c.Diff = DiffUnchanged) → pins.map Pin.swapMarkers = pins :=
    fun pins hp => (List.map_congr_left fun pin hpin =>
      swapPin_of_unchanged (hp pin hpin).1 (hp pin hpin).2).trans (List.map_id pins)
  simp only [Element.swapMarkers, swapText_of_unchanged h2,
    swapText_of_unchanged h3, swapText_of_unchanged h4,
    swapText_of_unchanged h5, hpin _ h6, hpin _ h7, h1]
  cases e
  simp only at h1
  subst h1
  rfl

theorem newSide_eq_swap {e : Element} (he : e.AllMarked DiffUnchanged) (l : List Element) :
    newSide l e = (oldSide e l).swapMarkers := by
  unfold newSide oldSide
  cases findUID e.UID l with
  | none => exact (markDeleted_swap e).symm
  | some x =>
    simp only [pairDiff_eq_stamp, stampBy_swap, swapMarkers_of_allMarked he, conds_symm x e]
    rfl

theorem oldSide_eq_swap {e : Element} (he : e.AllMarked DiffUnchanged) (l : List Element) :
    oldSide e l = (newSide l e).swapMarkers := by
  unfold newSide oldSide
  cases findUID e.UID l with
  | none => exact (markAdded_swap e).symm
  | some x =>
    simp only [pairDiff_eq_stamp, stampBy_swap, swapMarkers_of_allMarked he, conds_symm x e]
    rfl

theorem pinMarkers_swap (pins : List Pin) :
    pinMarkers (pins.map Pin.swapMarkers) = (pinMarkers pins).map Diff.swap := by
  induction pins with
  | nil => rfl
  | cons pin rest ih =>
    simp [pinMarkers, ih, Pin.swapMarkers, MutableString.swapMarkers, Connection.swapMarkers,
      Function.comp_def]

theorem markers_swap (e : Element) : e.swapMarkers.markers = e.markers.map Diff.swap := by
  simp [Element.markers, Element.swapMarkers, MutableString.swapMarkers, pinMarkers_swap]

/-- C29 (mirror symmetry). For two units `a` and `b` with unique ids whose markers are
all `Unchanged`, `CalculateDiff` returns on `(a, b)` and on `(b, a)`, and the results of
the second call are the results of the first with `Deleted` and `Added` exchanged in
every marker and nothing else changed: what is `Deleted` in `a` after the first call is
`Added` in `a` after the second, what is `Added` in `b` after the first is `Deleted` in
`b` after the second, and `Unchanged` stays `Unchanged`. -/
theorem mirror_symmetry (a b : POU) (ha : a.UniqueIds) (hb : b.UniqueIds)
    (hfa : a.AllMarked DiffUnchanged) (hfb : b.AllMarked DiffUnchanged) :
    ∃ a1 b1 b2 a2, a.CalculateDiff b = some (a1, b1) ∧ b.CalculateDiff a = some (b2, a2) ∧
      a2 = a1.swapMarkers ∧ b2 = b1.swapMarkers ∧
      a2.markers = a1.markers.map (List.map Diff.swap) ∧
      b2.markers = b1.markers.map (List.map Diff.swap) := by
  have e1 : ({ a with Elements := a.Elements.map fun kv => (kv.1, newSide b.elems kv.2) } : POU)
      = POU.swapMarkers
          { a with Elements := a.Elements.map fun kv => (kv.1, oldSide kv.2 b.elems) } := by
    simp only [POU.swapMarkers, List.map_map, POU.mk.injEq, true_and]
    exact List.map_congr_left fun kv hkv => by
      simp only [Function.comp_apply, newSide_eq_swap (hfa kv hkv)]
  have e2 : ({ b with Elements := b.Elements.map fun kv => (kv.1, oldSide kv.2 a.elems) } : POU)
      = POU.swapMarkers
          { b with Elements := b.Elements.map fun kv => (kv.1, newSide a.elems kv.2) } := by
    simp only [POU.swapMarkers, List.map_map, POU.mk.injEq, true_and]
    exact List.map_congr_left fun kv hkv => by
      simp only [Function.comp_apply, oldSide_eq_swap (hfb kv hkv)]
  have hm : ∀ x : POU, x.swapMarkers.markers = x.markers.map (List.map Diff.swap) := by
    intro x
    simp only [POU.markers, POU.swapMarkers, List.map_map]
    exact List.map_congr_left fun kv _ => markers_swap kv.2
  refine ⟨_, _, _, _, CalculateDiff_unique a b ha hb, CalculateDiff_unique b a hb ha,
    e1, e2, ?_, ?_⟩
  · rw [e1]
    exact hm _
  · rw [e2]
    exact hm _

theorem mirror_symmetry_witness :
    ∃ a1 b1 b2 a2, sampleTimed.CalculateDiff sampleRetyped = some (a1, b1) ∧
      sampleRetyped.CalculateDiff sampleTimed = some (b2, a2) ∧
      a2 = a1.swapMarkers ∧ b2 = b1.swapMarkers ∧
      a2.markers = a1.markers.map (List.map Diff.swap) ∧
      b2.markers = b1.markers.map (List.map Diff.swap) :=
  mirror_symmetry sampleTimed sampleRetyped (by decide) (by decide) (by decide) (by decide)

/-! ### Pin labels of matched elements -/

theorem markPins_labels (d : Diff) (pins2 : List Pin) (i : Nat) (pins : List Pin) :
    (markPins d pins2 i pins).map (fun pin => pin.Label) = pins.map fun pin => pin.Label := by
  induction pins generalizing i with
  | nil => rfl
  | cons pin rest ih => simp only [markPins, List.map_cons, ih]

theorem pairDiff_pinLabels (e x : Element) :
    (pairDiff e x).1.pinLabels = e.pinLabels ∧ (pairDiff e x).2.pinLabels = x.pinLabels := by
  have a1 := pairDiff_fst_pins e x false
  have a2 := pairDiff_fst_pins e x true
  have b1 := pairDiff_snd_pins e x false
  have b2 := pairDiff_snd_pins e x true
  simp only [Element.pins, Bool.false_eq_true, if_false, if_true] at a1 a2 b1 b2
  simp only [Element.pinLabels, a1, a2, b1, b2, markPins_labels, and_self]

theorem touch_pinLabels (e : Element) (news : List Element) :
    (touch e news).map Element.pinLabels = news.map Element.pinLabels := by
  induction news with
  | nil => rfl
  | cons a t ih =>
    by_cases h : e.UID = a.UID
    · simp only [touch, if_pos h, List.map_cons, (pairDiff_pinLabels e a).2]
    · simp only [touch, if_neg h, List.map_cons, ih]

theorem outerNews_pinLabels (olds news : List Element) :
    (outerNews olds news).map Element.pinLabels = news.map Element.pinLabels := by
  induction olds generalizing news with
  | nil => rfl
  | cons e rest ih => rw [outerNews, ih, touch_pinLabels]

/-- C30 (pin labels of matched elements are never diffed). For any two units, an
element `e` of the old one and an element `e2` of the new one with the same id:
`CalculateDiff` returns, and afterwards the labels of the input pins and of the output
pins of both elements, text and marker, are exactly what they were before the call.
Nothing is assumed about the pin label texts or the pin counts of the two elements, nor
about the markers before the call or the uniqueness of ids; so a pin label marker can
change only on an element without a same-id counterpart. -/
theorem pin_labels_untouched (p q : POU) (i j : Nat) (k k2 : String) (e e2 : Element)
    (hi : p.Elements[i]? = some (k, e)) (hj : q.Elements[j]? = some (k2, e2))
    (hid : e.UID = e2.UID) :
    ∃ p1 q1 e1 e21, p.CalculateDiff q = some (p1, q1) ∧
      p1.Elements[i]? = some (k, e1) ∧ q1.Elements[j]? = some (k2, e21) ∧
      e1.pinLabels = e.pinLabels ∧ e21.pinLabels = e2.pinLabels := by
  have hold : (oldSide e q.elems).pinLabels = e.pinLabels := by
    unfold oldSide
    cases hf : findUID e.UID q.elems with
    | none =>
      rw [findUID_none_iff] at hf
      exact absurd (List.mem_map.mpr ⟨e2, mem_of_getElem?_entry hj, hid.symm⟩) hf
    | some x => exact (pairDiff_pinLabels e x).1
  have hx : ∃ x, (outerNews p.elems q.elems)[j]? = some x ∧ x.shape = e2.shape ∧
      x.pinLabels = e2.pinLabels := by
    have h0 := elems_getElem? hj
    have h1 := congrArg (fun l => l[j]?) (outerNews_shape p.elems q.elems)
    have h2 := congrArg (fun l => l[j]?) (outerNews_pinLabels p.elems q.elems)
    simp only [List.getElem?_map, h0, Option.map_some'] at h1 h2
    cases hn : (outerNews p.elems q.elems)[j]? with
    | none => simp [hn] at h1
    | some x =>
      simp only [hn, Option.map_some', Option.some.injEq] at h1 h2
      exact ⟨x, rfl, h1, h2⟩
  obtain ⟨x, hxj, hxs, hxl⟩ := hx
  have hback : backSide p.elems x = x := by
    have : hasUID x.UID p.elems = true := by
      rw [shape_UID hxs, ← hid]
      exact hasUID_of_mem (mem_of_getElem?_entry hi)
    simp only [backSide, this, if_true]
  refine ⟨_, _, oldSide e q.elems, x, CalculateDiff_eq_backSide p q, ?_, ?_, hold, hxl⟩
  · simp [List.getElem?_map, hi]
  · exact rekey_getElem? hj (by simp [List.getElem?_map, hxj, hback])

theorem pin_labels_untouched_witness :
    ∃ p1 q1 e1 e21, sampleTimed.CalculateDiff samplePinsSwapped = some (p1, q1) ∧
      p1.Elements[2]? = some ("4", e1) ∧ q1.Elements[2]? = some ("4", e21) ∧
      e1.pinLabels = sampleTimer.pinLabels ∧ e21.pinLabels = sampleTimerPinsSwapped.pinLabels :=
  pin_labels_untouched sampleTimed samplePinsSwapped 2 2 "4" "4" sampleTimer
    sampleTimerPinsSwapped (by decide) (by decide) (by decide)

/-! ### Block type replace and the labels -/

theorem pairDiff_replace {e e2 : Element} (hb : e.Type_ = "block") (hb2 : e2.Type_ = "block")
    (hne : e.BlockLabel.Value ≠ e2.BlockLabel.Value) :
    pairDiff e e2 =
      ({ e with
          Diff := DiffDeleted
          Inputs := markPins DiffDeleted e2.Inputs 0 e.Inputs
          Outputs := markPins DiffDeleted e2.Outputs 0 e.Outputs },
       { e2 with
          Diff := DiffAdded
          Inputs := markPins DiffAdded e.Inputs 0 e2.Inputs
          Outputs := markPins DiffAdded e.Outputs 0 e2.Outputs }) := by
  simp only [pairDiff, labelPhase_replace hb hb2 hne, Element.markWires]

theorem markerAt_markPins_unchanged (d : Diff) {pins2 pins : List Pin} {n m : Nat}
    {c : Connection} (hc : connAt pins n m = some c) (hu : c.Diff = DiffUnchanged) :
    markerAt (markPins d pins2 0 pins) n m
      = some (if c.wire ∈ wiresAt pins2 n then DiffUnchanged else d) := by
  by_cases h : c.wire ∈ wiresAt pins2 n
  · rw [markerAt_markPins_of_mem d hc h, if_pos h, hu]
  · rw [markerAt_markPins_of_not_mem d hc h, if_neg h]

/-- C31 (block type replace does not cascade to labels). Two units with unique ids, an
element `e` of the old one and an element `e2` of the new one with the same id, both of
kind `block`, all their markers `Unchanged`, whose block type names differ (nothing is
assumed about the instance names). `CalculateDiff` returns; afterwards the element-level
marker is `Deleted` on the old and `Added` on the new element; the block label, top
label, element text and bottom label of both elements are what they were, with marker
`Unchanged`; the pin labels of both are what they were; and a connection of the old
element is `Deleted` if its `(TargetRef, TargetLabel)` occurs on no connection of the new
pin with the same index and `Unchanged` otherwise, symmetrically with `Added` for the
new element. -/
theorem block_replace_keeps_labels (p q : POU) (hp : p.UniqueIds) (hq : q.UniqueIds)
    (i j : Nat) (k k2 : String) (e e2 : Element) (hi : p.Elements[i]? = some (k, e))
    (hj : q.Elements[j]? = some (k2, e2)) (hid : e.UID = e2.UID)
    (hb : e.Type_ = "block") (hb2 : e2.Type_ = "block")
    (hne : e.BlockLabel.Value ≠ e2.BlockLabel.Value)
    (hf : e.AllMarked DiffUnchanged) (hf2 : e2.AllMarked DiffUnchanged) :
    ∃ p1 q1 e1 e21, p.CalculateDiff q = some (p1, q1) ∧
      p1.Elements[i]? = some (k, e1) ∧ q1.Elements[j]? = some (k2, e21) ∧
      e1.Diff = DiffDeleted ∧ e21.Diff = DiffAdded ∧
      (e1.BlockLabel = e.BlockLabel ∧ e1.TopLabel = e.TopLabel ∧
        e1.ElementText = e.ElementText ∧ e1.BottomLabel = e.BottomLabel) ∧
      (e21.BlockLabel = e2.BlockLabel ∧ e21.TopLabel = e2.TopLabel ∧
        e21.ElementText = e2.ElementText ∧ e21.BottomLabel = e2.BottomLabel) ∧
      (e1.BlockLabel.Diff = DiffUnchanged ∧ e1.TopLabel.Diff = DiffUnchanged ∧
        e1.ElementText.Diff = DiffUnchanged ∧ e1.BottomLabel.Diff = DiffUnchanged) ∧
      (e21.BlockLabel.Diff = DiffUnchanged ∧ e21.TopLabel.Diff = DiffUnchanged ∧
        e21.ElementText.Diff = DiffUnchanged ∧ e21.BottomLabel.Diff = DiffUnchanged) ∧
      e1.pinLabels = e.pinLabels ∧ e21.pinLabels = e2.pinLabels ∧
      (∀ (out : Bool) (n m : Nat) (c : Connection), connAt (e.pins out) n m = some c →
        markerAt (e1.pins out) n m
          = some (if c.wire ∈ wiresAt (e2.pins out) n then DiffUnchanged else DiffDeleted)) ∧
      (∀ (out : Bool) (n m : Nat) (c : Connection), connAt (e2.pins out) n m = some c →
        markerAt (e21.pins out) n m
          = some (if c.wire ∈ wiresAt (e.pins out) n then DiffUnchanged else DiffAdded)) := by
  obtain ⟨p1, q1, h, h1, h2⟩ := CalculateDiff_pair p q hp hq hi hj hid
  obtain ⟨-, a2, a3, a4, a5, -, -⟩ := (allMarked_iff _ _).mp hf
  obtain ⟨-, b2, b3, b4, b5, -, -⟩ := (allMarked_iff _ _).mp hf2
  have hpd := pairDiff_replace hb hb2 hne
  have l1 := (pairDiff_pinLabels e e2).1
  have l2 := (pairDiff_pinLabels e e2).2
  have c1 := fun out => pairDiff_fst_pins e e2 out
  have c2 := fun out => pairDiff_snd_pins e e2 out
  refine ⟨p1, q1, _, _, h, h1, h2, ?_, ?_, ?_, ?_, ?_, ?_, l1, l2, ?_, ?_⟩
  · rw [hpd]
  · rw [hpd]
  · rw [hpd]
    exact ⟨rfl, rfl, rfl, rfl⟩
  · rw [hpd]
    exact ⟨rfl, rfl, rfl, rfl⟩
  · rw [hpd]
    exact ⟨a5, a3, a2, a4⟩
  · rw [hpd]
    exact ⟨b5, b3, b2, b4⟩
  · intro out n m c hc
    rw [c1 out]
    obtain ⟨pin, hpin, hcm⟩ := mem_of_connAt hc
    exact markerAt_markPins_unchanged _ hc (mem_pins_unchanged hf out pin hpin c hcm)
  · intro out n m c hc
    rw [c2 out]
    obtain ⟨pin, hpin, hcm⟩ := mem_of_connAt hc
    exact markerAt_markPins_unchanged _ hc (mem_pins_unchanged hf2 out pin hpin c hcm)

theorem block_replace_keeps_labels_witness :
    sampleTimer.TopLabel.Value ≠ sampleTimerRetyped.TopLabel.Value ∧
    ∃ p1 q1 e1 e21, sampleTimed.CalculateDiff sampleRetyped = some (p1, q1) ∧
      p1.Elements[2]? = some ("4", e1) ∧ q1.Elements[0]? = some ("4", e21) ∧
      e1.Diff = DiffDeleted ∧ e21.Diff = DiffAdded ∧
      (e1.BlockLabel = sampleTimer.BlockLabel ∧ e1.TopLabel = sampleTimer.TopLabel ∧
        e1.ElementText = sampleTimer.ElementText ∧
        e1.BottomLabel = sampleTimer.BottomLabel) ∧
      (e21.BlockLabel = sampleTimerRetyped.BlockLabel ∧
        e21.TopLabel = sampleTimerRetyped.TopLabel ∧
        e21.ElementText = sampleTimerRetyped.ElementText ∧
        e21.BottomLabel = sampleTimerRetyped.BottomLabel) ∧
      (e1.BlockLabel.Diff = DiffUnchanged ∧ e1.TopLabel.Diff = DiffUnchanged ∧
        e1.ElementText.Diff = DiffUnchanged ∧ e1.BottomLabel.Diff = DiffUnchanged) ∧
      (e21.BlockLabel.Diff = DiffUnchanged ∧ e21.TopLabel.Diff = DiffUnchanged ∧
        e21.ElementText.Diff = DiffUnchanged ∧ e21.BottomLabel.Diff = DiffUnchanged) ∧
      e1.pinLabels = sampleTimer.pinLabels ∧ e21.pinLabels = sampleTimerRetyped.pinLabels ∧
      (∀ (out : Bool) (n m : Nat) (c : Connection),
        connAt (sampleTimer.pins out) n m = some c →
        markerAt (e1.pins out) n m
          = some (if c.wire ∈ wiresAt (sampleTimerRetyped.pins out) n then DiffUnchanged
              else DiffDeleted)) ∧
      (∀ (out : Bool) (n m : Nat) (c : Connection),
        connAt (sampleTimerRetyped.pins out) n m = some c →
        markerAt (e21.pins out) n m
          = some (if c.wire ∈ wiresAt (sampleTimer.pins out) n then DiffUnchanged
              else DiffAdded)) :=
  ⟨by decide,
    block_replace_keeps_labels sampleTimed sampleRetyped (by decide) (by decide) 2 0 "4" "4"
      sampleTimer sampleTimerRetyped (by decide) (by decide) (by decide) (by decide)
      (by decide) (by decide) (by decide) (by decide)⟩

/-! ### In-out variables of a block -/

/-- C32 (in-out variables of a block produce no pins). Replacing the `InOutVariables`
of a block by any other list does not change what `initBlockFromXML` returns (element,
error, or failure). When no declared input or output variable lacks its connection point
the call returns an element, the same for both blocks, whose number of input pins is the
number of declared input variables and whose number of output pins is the number of
declared output variables; and whenever the call returns, the pin counts are these. -/
theorem inout_variables_no_pins (block : plcxml.Block) (vars : plcxml.BlockVariables) :
    initBlockFromXML { block with InOutVariables := vars } = initBlockFromXML block ∧
    (¬ block.lacksPoint → ∃ e, initBlockFromXML block = .ok (e, none) ∧
      initBlockFromXML { block with InOutVariables := vars } = .ok (e, none) ∧
      e.Inputs.length = block.InputVariables.Variable.length ∧
      e.Outputs.length = block.OutputVariables.Variable.length) ∧
    (∀ e err, initBlockFromXML block = .ok (e, err) →
      e.Inputs.length = block.InputVariables.Variable.length ∧
      e.Outputs.length = block.OutputVariables.Variable.length) := by
  have hlen : ∀ e err, initBlockFromXML block = .ok (e, err) →
      e.Inputs.length = block.InputVariables.Variable.length ∧
      e.Outputs.length = block.OutputVariables.Variable.length := by
    intro e err he
    rcases initBlockFromXML_cases block with ⟨-, hx⟩ | ⟨hl, -⟩
    · rw [hx] at he
      cases he
    · have hin : ∀ v ∈ block.InputVariables.Variable, v.ConnectionPointIn ≠ [] :=
        fun v hv hc => hl (Or.inl ⟨v, hv, hc⟩)
      have hout : ∀ v ∈ block.OutputVariables.Variable, v.ConnectionPointOut ≠ [] :=
        fun v hv hc => hl (Or.inr ⟨v, hv, hc⟩)
      obtain ⟨ins, hi, hil, -⟩ := buildBlockInputs_ok 0 _ hin
      obtain ⟨outs, ho, hol, -⟩ := buildBlockOutputs_ok 0 _ hout
      simp only [initBlockFromXML, hi, ho, Except.ok.injEq, Prod.mk.injEq] at he
      rw [← he.1]
      exact ⟨hil, hol⟩
  refine ⟨rfl, fun hl => ?_, hlen⟩
  rcases initBlockFromXML_cases block with ⟨hl2, -⟩ | ⟨-, e, he, -, -⟩
  · exact absurd hl2 hl
  · exact ⟨e, he, he, hlen e none he⟩

/-! ### Kind tagging -/

theorem buildRecord_kind (r : plcxml.Primitive ⊕ plcxml.Block) (e : Element)
    (h : buildRecord r = .ok (e, none)) : e.Type_ = recordKind r := by
  cases r with
  | inl prim =>
    simp only [buildRecord, Except.ok.injEq] at h
    exact (congrArg (fun x => x.1.Type_) h).symm
  | inr block =>
    rcases initBlockFromXML_cases block with ⟨-, he⟩ | ⟨-, e2, he, -, ht⟩
    · simp [buildRecord, he] at h
    · simp only [buildRecord, he, Except.ok.injEq, Prod.mk.injEq, and_true] at h
      rw [← h]
      exact ht

theorem built_kinds {rs : List (plcxml.Primitive ⊕ plcxml.Block)} {es : List Element}
    (h : List.Forall₂ (fun r e => buildRecord r = .ok (e, none)) rs es) :
    es.map (fun e => (e.Type_, e.UID)) = rs.map fun r => (recordKind r, recordId r) := by
  induction h with
  | nil => rfl
  | cons hab _ ih => simp [ih, buildRecord_id _ _ hab, buildRecord_kind _ _ hab]

theorem records_kinded (ld : plcxml.LD) :
    ld.records.map (fun r => (recordKind r, recordId r)) = ld.kinded := by
  simp [plcxml.LD.records, plcxml.LD.kinded, plcxml.LD.GatherAllPrimitives,
    plcxml.LD.GatherAllBlocks, plcxml.LD.ensurePrimitiveTypeLabels,
    plcxml.LD.ensureBlockTypeLabels, plcxml.tagPrimitives, recordKind, recordId,
    Function.comp_def]

theorem gather_eraseKinds (ld : plcxml.LD) :
    ld.eraseKinds.GatherAllPrimitives = ld.GatherAllPrimitives := by
  simp [plcxml.LD.eraseKinds, plcxml.LD.GatherAllPrimitives,
    plcxml.LD.ensurePrimitiveTypeLabels, plcxml.LD.ensureBlockTypeLabels,
    plcxml.tagPrimitives, Function.comp_def]

theorem Parse_congr (p0 : POU) {pou pou2 : plcxml.POU} (hn : pou2.Name = pou.Name)
    (hg : pou2.Body.LD.GatherAllPrimitives = pou.Body.LD.GatherAllPrimitives) :
    POU.Parse p0 pou2 = POU.Parse p0 pou := by
  simp only [POU.Parse, POU.parseElements, hn, hg]

/-- C33 (kind tagging). Whenever `POU.Parse` completes, the elements it builds, in
building order, carry exactly the kinds and ids of `kinded`: an element built from a
record of the list of contacts has kind `contact`, likewise for coils, left and right
power rails, connectors, continuations and the three variable lists, and an element
built from a block record has kind `block`; every element kept in the map carries such a
kind with its id; and the result does not depend on the `ElemType` values the records
carried beforehand: any unit with the same name whose body differs at most in those
values is parsed to the same unit. -/
theorem kind_tagging (p0 p : POU) (pou : plcxml.POU) (err : Option String)
    (h : POU.Parse p0 pou = .ok (p, err)) :
    (∃ es, List.Forall₂ (fun r e => buildRecord r = .ok (e, none)) pou.Body.LD.records es ∧
      p.Elements = insertAll es [] ∧
      es.map (fun e => (e.Type_, e.UID)) = pou.Body.LD.kinded) ∧
    (∀ kv ∈ p.Elements, (kv.2.Type_, kv.2.UID) ∈ pou.Body.LD.kinded) ∧
    (∀ pou2 : plcxml.POU, pou2.Name = pou.Name →
      pou2.Body.LD.eraseKinds = pou.Body.LD.eraseKinds →
      POU.Parse p0 pou2 = .ok (p, err)) := by
  obtain ⟨es, hf, hm⟩ := records_built pou p0 p err h
  have hk : es.map (fun e => (e.Type_, e.UID)) = pou.Body.LD.kinded := by
    rw [built_kinds hf, records_kinded]
  refine ⟨⟨es, hf, hm, hk⟩, fun kv hkv => ?_, fun pou2 hn he => ?_⟩
  · obtain ⟨-, -, n3⟩ := insertAll_spec es [] List.nodup_nil
    rw [← hm] at n3
    rcases (n3 kv.1 kv.2).mp hkv with h1 | ⟨-, h1⟩
    · rw [← hk]
      exact List.mem_map.mpr
        ⟨kv.2, List.mem_reverse.mp (List.mem_of_find?_eq_some h1), rfl⟩
    · cases h1
  · rw [← h]
    refine Parse_congr p0 hn ?_
    rw [← gather_eraseKinds pou2.Body.LD, he, gather_eraseKinds]

theorem kind_tagging_witness :
    ∃ p err, POU.Parse {} sampleXmlMistagged = .ok (p, err) ∧
      p.Elements.map (fun kv => (kv.2.Type_, kv.1))
        = [("leftPowerRail", "1"), ("contact", "2"), ("coil", "3"), ("block", "4")] ∧
      POU.Parse {} sampleXml = .ok (p, err) ∧
      (∃ es, List.Forall₂ (fun r e => buildRecord r = .ok (e, none))
          sampleXmlMistagged.Body.LD.records es ∧
        p.Elements = insertAll es [] ∧
        es.map (fun e => (e.Type_, e.UID)) = sampleXmlMistagged.Body.LD.kinded) ∧
      (∀ kv ∈ p.Elements, (kv.2.Type_, kv.2.UID) ∈ sampleXmlMistagged.Body.LD.kinded) :=
  ⟨_, _, rfl, rfl,
    (kind_tagging {} _ sampleXmlMistagged _ rfl).2.2 sampleXml rfl rfl,
    (kind_tagging {} _ sampleXmlMistagged _ rfl).1,
    (kind_tagging {} _ sampleXmlMistagged _ rfl).2.1⟩

end Difflad
